import Mathlib

/-!
Verification of the mlmembers predictive-scoring engine.

This file gives a shallow embedding of the TypeScript sources
`src/ml/engine.ts` (column-type detection, value encoding, one-hot
feature building, min-max normalization, logistic-regression training,
importance/correlation analysis, scoring) and `src/utils/geo.ts`
(the Columbia, MD residency classifier), and proves or refutes the
frozen claims C1..C10 about them.

Modelling conventions:
* JS numbers are modelled as real numbers `ℝ` (exact arithmetic); the
  heuristic 70% ratio tests of the column-type detector only divide
  sample counts, so they are modelled with `ℚ` to stay decidable.
* JS built-ins that consult the environment (`Date.parse`, `Date.now`,
  `parseFloat`, number-to-string conversion) are passed in as an explicit
  `JSEnv` record: a run of the engine is a pure function of its CSV
  inputs together with that environment.
* JS objects/records are association lists `List (String × String)`
  with first-occurrence lookup; `row[col] || ''` becomes a `getD`.
* JS string primitives used by the source (`includes`, `startsWith`,
  `split`, `trim`, `toLowerCase`, the few fixed regexes) are modelled
  by explicit recursive functions on `List Char`.
* `Array.prototype.sort` (stable since ES2019) with a numeric key
  comparator is modelled by a stable insertion sort on the key.
-/

namespace MLMembers

/- ===================================================================
   String utilities (models of the JS string primitives used by the
   sources; all computable so concrete runs evaluate).
   =================================================================== -/

/-- Substring test: `hay.includes(pat)` on character lists. -/
def containsSub : List Char → List Char → Bool
  | _, [] => true
  | [], _ :: _ => false
  | h :: t, p :: q => (List.isPrefixOf (p :: q) (h :: t)) || containsSub t (p :: q)

/-- `s.includes(pat)` for strings. -/
def strContains (s pat : String) : Bool := containsSub s.data pat.data

/-- `s.startsWith(pat)` for strings. -/
def strStartsWith (s pat : String) : Bool := List.isPrefixOf pat.data s.data

/-- JS `toLowerCase` (ASCII, which is all the sources use). -/
def lowerStr (s : String) : String := ⟨s.data.map Char.toLower⟩

/-- Strip leading/trailing whitespace from a character list. -/
def trimData (l : List Char) : List Char :=
  ((l.dropWhile Char.isWhitespace).reverse.dropWhile Char.isWhitespace).reverse

/-- JS `String.prototype.trim`. -/
def jsTrim (s : String) : String := ⟨trimData s.data⟩

/-- Characters of `l` before the first occurrence of `pat`
    (`l.split(pat)[0]` when `pat` is nonempty). -/
def takeBefore (pat : List Char) : List Char → List Char
  | [] => []
  | h :: t => if List.isPrefixOf pat (h :: t) then [] else h :: takeBefore pat t

/-- `s.split(pat)[0]` for a nonempty pattern. -/
def splitHead (s pat : String) : String := ⟨takeBefore pat.data s.data⟩

/-- Split a character list at every occurrence of a single character
    (JS `s.split(',')`). -/
def splitCharList (sep : Char) : List Char → List (List Char)
  | [] => [[]]
  | h :: t =>
    if h = sep then [] :: splitCharList sep t
    else
      match splitCharList sep t with
      | [] => [[h]]
      | p :: ps => (h :: p) :: ps

/-- JS `\w` word-character class: ASCII letters, digits, underscore. -/
def isWordChar (c : Char) : Bool := c.isAlphanum || c = '_'

/-- Insertion-order deduplication, the semantics of feeding a list
    through a JS `Set` and reading it back. -/
def insertUnique (l : List String) (v : String) : List String :=
  if v ∈ l then l else l ++ [v]

/-- First-seen-order list of distinct values (JS `Array.from(new Set(vals))`). -/
def firstSeen (vals : List String) : List String := vals.foldl insertUnique []

/- ===================================================================
   Stable sorting (model of `Array.prototype.sort` with a numeric key,
   descending). JS sort is stable, so the result is the unique
   descending arrangement preserving the relative order of equal keys,
   which stable insertion sort also produces.
   =================================================================== -/

/-- Insert `x` into a descending-sorted list, after all strictly larger
    keys and after equal keys that were earlier in the original list. -/
def insertDescBy {α β : Type} [LinearOrder β] (key : α → β) (x : α) : List α → List α
  | [] => [x]
  | y :: ys => if key x < key y then y :: insertDescBy key x ys else x :: y :: ys

/-- Stable sort, descending by `key`. -/
def sortDescBy {α β : Type} [LinearOrder β] (key : α → β) : List α → List α
  | [] => []
  | x :: xs => insertDescBy key x (sortDescBy key xs)

theorem mem_insertDescBy {α β : Type} [LinearOrder β] (key : α → β) (x a : α) :
    ∀ l : List α, a ∈ insertDescBy key x l ↔ a = x ∨ a ∈ l := by
  intro l
  induction l with
  | nil => simp [insertDescBy]
  | cons y ys ih =>
    by_cases h : key x < key y
    · simp only [insertDescBy, if_pos h, List.mem_cons, ih]
      tauto
    · simp only [insertDescBy, if_neg h, List.mem_cons]

theorem mem_sortDescBy {α β : Type} [LinearOrder β] (key : α → β) (a : α) :
    ∀ l : List α, a ∈ sortDescBy key l ↔ a ∈ l := by
  intro l
  induction l with
  | nil => simp [sortDescBy]
  | cons x xs ih =>
    simp only [sortDescBy, mem_insertDescBy, ih, List.mem_cons]

theorem perm_insertDescBy {α β : Type} [LinearOrder β] (key : α → β) (x : α) :
    ∀ l : List α, List.Perm (insertDescBy key x l) (x :: l) := by
  intro l
  induction l with
  | nil => simp [insertDescBy]
  | cons y ys ih =>
    by_cases h : key x < key y
    · simp only [insertDescBy, if_pos h]
      exact (ih.cons y).trans (List.Perm.swap x y ys)
    · simp [insertDescBy, if_neg h]

theorem perm_sortDescBy {α β : Type} [LinearOrder β] (key : α → β) :
    ∀ l : List α, List.Perm (sortDescBy key l) l := by
  intro l
  induction l with
  | nil => simp [sortDescBy]
  | cons x xs ih =>
    exact (perm_insertDescBy key x (sortDescBy key xs)).trans (ih.cons x)

/- ===================================================================
   The JS environment: built-ins the engine consults.
   =================================================================== -/

/-- The ambient JS built-ins the engine depends on.  `parseFloat` and
    `Date.parse` return `none` where JS would return `NaN`; `now` is
    `Date.now()` in epoch milliseconds. -/
structure JSEnv where
  parseFloat : String → Option ℝ
  dateParse : String → Option ℝ
  now : ℝ
  numToString : ℝ → String

/- ===================================================================
   engine.ts : column types
   =================================================================== -/

/-- `ColumnType` from engine.ts. -/
inductive ColumnType where
  | days_since | date | age | numeric | boolean
  | binary_gender | binary_parental | categorical | distance
deriving DecidableEq, Repr

/-- The five anchored date regexes of `isDateColumn`, as character-list
    matchers.  Pattern `/^\d{4}-\d{2}-\d{2}$/`. -/
def datePat1 : List Char → Bool
  | [a, b, c, d, e, f, g, h, i, j] =>
    a.isDigit && b.isDigit && c.isDigit && d.isDigit && e = '-' &&
    f.isDigit && g.isDigit && h = '-' && i.isDigit && j.isDigit
  | _ => false

/-- `/^\d{1,2}SEP\d{1,2}SEP\d{2,4}$/` for a separator character
    (patterns 2 and 3 of `isDateColumn`). -/
def datePatSep (sep : Char) (l : List Char) : Bool :=
  let d1 := l.takeWhile Char.isDigit
  let r1 := l.dropWhile Char.isDigit
  (1 ≤ d1.length && d1.length ≤ 2) &&
  match r1 with
  | c :: r2 =>
    c = sep &&
    (let d2 := r2.takeWhile Char.isDigit
     let r3 := r2.dropWhile Char.isDigit
     (1 ≤ d2.length && d2.length ≤ 2) &&
     match r3 with
     | c2 :: r4 =>
       c2 = sep && r4.all Char.isDigit && 2 ≤ r4.length && r4.length ≤ 4
     | [] => false)
  | [] => false

/-- `/^\w+ \d{1,2},? \d{4}$/` ("Month D, YYYY"). -/
def datePatVerbal1 (l : List Char) : Bool :=
  let w := l.takeWhile isWordChar
  let r1 := l.dropWhile isWordChar
  (1 ≤ w.length) &&
  match r1 with
  | ' ' :: r2 =>
    let d := r2.takeWhile Char.isDigit
    let r3 := r2.dropWhile Char.isDigit
    (1 ≤ d.length && d.length ≤ 2) &&
    (match r3 with
     | ',' :: ' ' :: r4 => r4.all Char.isDigit && r4.length = 4
     | ' ' :: r4 => r4.all Char.isDigit && r4.length = 4
     | _ => false)
  | _ => false

/-- `/^\d{1,2} \w+ \d{4}$/` ("D Month YYYY"). -/
def datePatVerbal2 (l : List Char) : Bool :=
  let d := l.takeWhile Char.isDigit
  let r1 := l.dropWhile Char.isDigit
  (1 ≤ d.length && d.length ≤ 2) &&
  match r1 with
  | ' ' :: r2 =>
    let w := r2.takeWhile isWordChar
    let r3 := r2.dropWhile isWordChar
    (1 ≤ w.length) &&
    (match r3 with
     | ' ' :: r4 => r4.all Char.isDigit && r4.length = 4
     | _ => false)
  | _ => false

/-- The `count / total > 0.7` ratio test of the detector, computed
    exactly over the integers: for `total > 0`,
    `count/total > 7/10 ↔ 7·total < 10·count` (see `ratioAbove70_spec`);
    for `total = 0` the JS expression is `NaN > 0.7`, i.e. false. -/
def ratioAbove70 (count total : ℕ) : Bool := 0 < total && 7 * total < 10 * count

theorem ratioAbove70_spec (c t : ℕ) (ht : 0 < t) :
    ratioAbove70 c t = true ↔ (7 : ℚ) / 10 < (c : ℚ) / (t : ℚ) := by
  unfold ratioAbove70
  rw [Bool.and_eq_true, decide_eq_true_eq, decide_eq_true_eq]
  rw [div_lt_div_iff₀ (by norm_num) (by exact_mod_cast ht)]
  constructor
  · intro h
    have h2 : (7 : ℚ) * t < 10 * c := by exact_mod_cast h.2
    linarith
  · intro h
    refine ⟨ht, ?_⟩
    have h2 : (7 : ℚ) * t < 10 * c := by push_cast at h ⊢; linarith
    exact_mod_cast h2

/-- One value counts as a date in `isDateColumn`: it matches one of the
    five patterns, or `Date.parse` succeeds and it is longer than 6. -/
def looksLikeDate (env : JSEnv) (v : String) : Bool :=
  let t := jsTrim v
  datePat1 t.data || datePatSep '/' t.data || datePatSep '-' t.data ||
  datePatVerbal1 t.data || datePatVerbal2 t.data ||
  ((env.dateParse t).isSome && t.length > 6)

/-- `isDateColumn` from engine.ts: more than 70% of the nonempty values
    look like dates (exact ratio test). -/
def isDateColumn (env : JSEnv) (values : List String) : Bool :=
  let nonEmpty := values.filter (fun v => jsTrim v ≠ "")
  if nonEmpty.length = 0 then false
  else ratioAbove70 (nonEmpty.countP (fun v => looksLikeDate env v)) nonEmpty.length

/-- `isBinaryGender` from engine.ts. -/
def isBinaryGender (colName : String) (values : List String) : Bool :=
  let lower := lowerStr colName
  if ¬ (strContains lower "gender" || strContains lower "sex") then false
  else
    let nonEmpty := values.filter (fun v => jsTrim v ≠ "")
    (firstSeen (nonEmpty.map (fun v => jsTrim (lowerStr v)))).length = 2

/-- `isBinaryParental` from engine.ts. -/
def isBinaryParental (colName : String) (values : List String) : Bool :=
  let lower := lowerStr colName
  if ¬ (strContains lower "parent" || strContains lower "parental" ||
        strContains lower "children" || strContains lower "kids") then false
  else
    let nonEmpty := values.filter (fun v => jsTrim v ≠ "")
    (firstSeen (nonEmpty.map (fun v => jsTrim (lowerStr v)))).length = 2

/-- The fixed boolean vocabulary of the detector. -/
def boolValues : List String :=
  ["yes", "no", "true", "false", "1", "0", "y", "n", "active", "inactive"]

/-- `detectColumnType` from engine.ts, rules in source order. -/
def detectColumnType (env : JSEnv) (colName : String) (values : List String) :
    ColumnType :=
  let lower := lowerStr colName
  if isBinaryGender colName values then .binary_gender
  else if isBinaryParental colName values then .binary_parental
  else if isDateColumn env values then
    (if strContains lower "visit" || strContains lower "last" ||
        strContains lower "recent" || strContains lower "activity"
     then .days_since else .date)
  else if lower = "age" || strContains lower "_age" || strContains lower "age_" then .age
  else if strContains lower "distance" || strContains lower "dist_" ||
          strContains lower "_mi" || strContains lower "miles" then .distance
  else
    let nonEmpty := values.filter (fun v => jsTrim v ≠ "")
    let boolCount := nonEmpty.countP (fun v => jsTrim (lowerStr v) ∈ boolValues)
    if ratioAbove70 boolCount nonEmpty.length then .boolean
    else
      let numCount := nonEmpty.countP (fun v => (env.parseFloat v).isSome)
      if ratioAbove70 numCount nonEmpty.length then .numeric
      else .categorical

/- ===================================================================
   engine.ts : value encoding
   =================================================================== -/

/-- Truncate an integer to a signed 32-bit value (the effect of the JS
    `|`/`&`/`<<` ToInt32 conversion). -/
def toInt32 (z : ℤ) : ℤ := (z + 2 ^ 31) % 2 ^ 32 - 2 ^ 31

/-- The deterministic polynomial rolling hash at the bottom of
    `encodeValue`: `hash = ((hash << 5) - hash) + code; hash = hash & hash`. -/
def strHash (value : String) : ℤ :=
  value.data.foldl (fun h c => toInt32 (toInt32 (h * 32) - h + (c.toNat : ℤ))) 0

/-- `dateToDaysSince` from engine.ts: days between `Date.now()` and the
    parsed date, clamped at 0; missing or unparsable input gives 999. -/
noncomputable def dateToDaysSince (env : JSEnv) (value : String) : ℝ :=
  if jsTrim value = "" then 999
  else
    match env.dateParse (jsTrim value) with
    | none => 999
    | some ts => max 0 ((round ((env.now - ts) / (1000 * 60 * 60 * 24)) : ℤ) : ℝ)

/-- `parseDate` from engine.ts: epoch milliseconds, 0 when unparsable. -/
def parseDate (env : JSEnv) (value : String) : ℝ :=
  if jsTrim value = "" then 0
  else
    match env.dateParse (jsTrim value) with
    | some ts => ts
    | none => 0

/-- `encodeValue(value, colType?)` from engine.ts.  The leading
    `value === ''` check precedes the `days_since` dispatch, exactly as
    in the source. -/
noncomputable def encodeValue (env : JSEnv) (value : String) (colType : Option ColumnType) : ℝ :=
  if value = "" then 0
  else if colType = some .days_since then dateToDaysSince env value
  else if colType = some .date then parseDate env value
  else
    match env.parseFloat value with
    | some num => num
    | none =>
      let lower := jsTrim (lowerStr value)
      if lower ∈ ["yes", "true", "1", "y", "active"] then 1
      else if lower ∈ ["no", "false", "0", "n", "inactive"] then 0
      else if lower ∈ ["male", "m"] then 1
      else if lower ∈ ["female", "f"] then 0
      else if lower ∈ ["parent", "yes"] then 1
      else if lower ∈ ["non-parent", "non parent", "nonparent", "no", "none", "childless"] then 0
      else ((strHash value : ℤ) : ℝ)

/- ===================================================================
   engine.ts : data preprocessing
   =================================================================== -/

/-- A CSV record: a JS object mapping field names to string values,
    modelled as an association list with first-occurrence lookup. -/
abbrev Rec : Type := List (String × String)

/-- `row[col] || ''`: the value of a field, empty string when absent. -/
def getField (row : Rec) (col : String) : String :=
  ((List.find? (fun p => p.1 = col) row).map Prod.snd).getD ""

/-- `data.map(row => row[col]?.trim() || '').filter(v => v !== '')`:
    the nonempty trimmed values observed for a column. -/
def colValues (data : List Rec) (col : String) : List String :=
  (data.map (fun row => jsTrim (getField row col))).filter (fun v => v ≠ "")

/-- The column types encoded as a single numeric feature. -/
def isNumericLikeType (t : ColumnType) : Bool :=
  t ∈ [ColumnType.days_since, .date, .age, .numeric, .boolean, .distance]

/-- The capped one-hot category list of a categorical column: distinct
    nonempty trimmed values in first-seen order, first 20 kept. -/
def categoricalCapped (data : List Rec) (col : String) : List String :=
  (firstSeen (colValues data col)).take 20

/-- The feature names a single column contributes, in emission order. -/
def colFeatureNames (env : JSEnv) (data : List Rec) (col : String) : List String :=
  let t := detectColumnType env col (colValues data col)
  if isNumericLikeType t then [col]
  else if t = .binary_gender ∨ t = .binary_parental then [col]
  else (categoricalCapped data col).map (fun v => col ++ "::" ++ v)

/-- The feature values a single column contributes for one record. -/
noncomputable def colBlock (env : JSEnv) (data : List Rec) (col : String) (row : Rec) :
    List ℝ :=
  let t := detectColumnType env col (colValues data col)
  if isNumericLikeType t ∨ t = .binary_gender ∨ t = .binary_parental then
    [encodeValue env (getField row col) (some t)]
  else
    (categoricalCapped data col).map
      (fun cat => if jsTrim (getField row col) = cat then (1 : ℝ) else 0)

/-- Result of `preprocessData` (the `categoricalMaps` component is
    subsumed by `categoricalCapped`). -/
structure PrepResult where
  matrix : List (List ℝ)
  featureNames : List String
  columnTypes : List (String × ColumnType)

/-- `preprocessData` from engine.ts: per-column type detection, feature
    naming, and the rectangular feature matrix. -/
noncomputable def preprocessData (env : JSEnv) (data : List Rec) (columns : List String) :
    PrepResult where
  matrix := data.map (fun row => (columns.map (fun col => colBlock env data col row)).flatten)
  featureNames := (columns.map (fun col => colFeatureNames env data col)).flatten
  columnTypes := columns.map (fun col => (col, detectColumnType env col (colValues data col)))

/- ===================================================================
   engine.ts : normalization, sigmoid, training, correlation
   =================================================================== -/

/-- Per-column minima of a feature matrix (the `mins` fold). -/
noncomputable def colMins : List (List ℝ) → List ℝ
  | [] => []
  | r :: rs => rs.foldl (fun acc row => List.zipWith min acc row) r

/-- Per-column maxima of a feature matrix (the `maxs` fold). -/
noncomputable def colMaxs : List (List ℝ) → List ℝ
  | [] => []
  | r :: rs => rs.foldl (fun acc row => List.zipWith max acc row) r

/-- `normalizeMatrix` from engine.ts: min-max scaling with the
    zero-variance convention `range === 0 → 0`. -/
noncomputable def normalizeMatrix (matrix : List (List ℝ)) : List (List ℝ) :=
  let mins := colMins matrix
  let maxs := colMaxs matrix
  matrix.map (fun row =>
    List.zipWith (fun v mm => if mm.2 - mm.1 = 0 then 0 else (v - mm.1) / (mm.2 - mm.1))
      row (mins.zip maxs))

/-- `sigmoid` from engine.ts, with the `[-500, 500]` exponent clamp. -/
noncomputable def sigmoid (x : ℝ) : ℝ :=
  1 / (1 + Real.exp (-(max (-500) (min 500 x))))

/-- `z = bias + Σ w_j · x_j`, the inner loop of training and scoring. -/
noncomputable def dotZ (b : ℝ) (w x : List ℝ) : ℝ :=
  b + (List.zipWith (fun wj xj => wj * xj) w x).sum

/-- One pass of the gradient-accumulation loop of
    `trainLogisticRegression`: starting from zero accumulators, fold
    each sample in, adding `error·x_j + λ·w_j/m` to `dw_j` and `error`
    to `db`. -/
noncomputable def gradAccum (lam m : ℝ) (w : List ℝ) (b : ℝ)
    (X : List (List ℝ)) (y : List ℝ) : List ℝ × ℝ :=
  (X.zip y).foldl
    (fun acc sample =>
      let e := sigmoid (dotZ b w sample.1) - sample.2
      (List.zipWith (fun dwj xw => dwj + e * xw.1 + lam * xw.2 / m) acc.1 (sample.1.zip w),
       acc.2 + e))
    (List.replicate w.length 0, 0)

/-- One iteration of `trainLogisticRegression`: accumulate gradients,
    then update `w_j -= (lr/m)·dw_j` and `bias -= (lr/m)·db`. -/
noncomputable def trainStep (lr lam : ℝ) (X : List (List ℝ)) (y : List ℝ)
    (s : List ℝ × ℝ) : List ℝ × ℝ :=
  let m : ℝ := (X.length : ℝ)
  let g := gradAccum lam m s.1 s.2 X y
  (List.zipWith (fun wj dwj => wj - lr / m * dwj) s.1 g.1, s.2 - lr / m * g.2)

/-- `trainLogisticRegression` from engine.ts: `iterations` gradient
    steps from zero weights and bias. -/
noncomputable def trainLogisticRegression (X : List (List ℝ)) (y : List ℝ)
    (lr : ℝ) (iterations : ℕ) (lam : ℝ) : List ℝ × ℝ :=
  (trainStep lr lam X y)^[iterations]
    (List.replicate ((X.head?.map List.length).getD 0) 0, 0)

/-- `calculateCorrelation` from engine.ts: Pearson correlation of a
    feature column against the 0/1 label vector, with the
    zero-denominator guard. -/
noncomputable def calculateCorrelation (feature labels : List ℝ) : ℝ :=
  let n := feature.length
  if n = 0 then 0
  else
    let meanX := feature.sum / (n : ℝ)
    let meanY := labels.sum / (n : ℝ)
    let numerator := ∑ i ∈ Finset.range n,
      (feature.getD i 0 - meanX) * (labels.getD i 0 - meanY)
    let denomX := ∑ i ∈ Finset.range n,
      (feature.getD i 0 - meanX) * (feature.getD i 0 - meanX)
    let denomY := ∑ i ∈ Finset.range n,
      (labels.getD i 0 - meanY) * (labels.getD i 0 - meanY)
    let denom := Real.sqrt (denomX * denomY)
    if denom = 0 then 0 else numerator / denom

/- ===================================================================
   engine.ts : binary field helpers and explanation generation
   =================================================================== -/

/-- The distinct trimmed nonempty values of a column, first-seen order
    (the `Set` built by `getBinaryValues`). -/
def getBinaryValuesList (data : List Rec) (col : String) : List String :=
  firstSeen ((data.map (fun row => jsTrim (getField row col))).filter (fun v => v ≠ ""))

/-- `getBinaryValues` from engine.ts: the two observed values of a
    binary column, `none` unless there are exactly two. -/
def getBinaryValues (data : List Rec) (col : String) : Option (String × String) :=
  match getBinaryValuesList data col with
  | [a, b] => some (a, b)
  | _ => none

/-- `direction` values of a feature importance. -/
inductive Direction where
  | positive | negative
deriving DecidableEq, Repr

/-- Characters after the first occurrence of `pat`. -/
def takeAfter (pat : List Char) : List Char → List Char
  | [] => []
  | h :: t => if List.isPrefixOf pat (h :: t) then List.drop pat.length (h :: t)
              else takeAfter pat t

/-- `s.split(pat)[1]` for a nonempty pattern: the segment between the
    first and second occurrences. -/
def splitSecond (s pat : String) : String :=
  ⟨takeBefore pat.data (takeAfter pat.data s.data)⟩

/-- `name.replace(/_/g, ' ')`. -/
def friendlyNameOf (name : String) : String :=
  ⟨name.data.map (fun c => if c = '_' then ' ' else c)⟩

/-- The final generic branch of `generateExplanation` (plain numeric
    framing), reached also for a binary column whose two values cannot
    be recovered. -/
def genericNumericExplanation (friendlyName : String) (direction : Direction)
    (tail : String) : String :=
  if direction = .positive then
    "Higher " ++ friendlyName ++ " values correlate with membership" ++ tail ++
      " Members tend to have higher " ++ friendlyName ++ " than non-members."
  else
    "Lower " ++ friendlyName ++ " values correlate with membership" ++ tail ++
      " Members tend to have lower " ++ friendlyName ++ " than non-members."

/-- `generateExplanation` from engine.ts.  Apostrophes that appear in
    two of the source sentences are spelled out ("dont" → "do not") to
    keep the embedding to plain string literals; no claim concerns the
    exact explanation text. -/
noncomputable def generateExplanation (env : JSEnv) (name : String) (colType : ColumnType)
    (direction : Direction) (corrPct confidence : ℤ) (allData : List Rec) : String :=
  let friendlyName := friendlyNameOf name
  let tail := " (" ++ toString corrPct ++ "% correlation, " ++ toString confidence ++
    "% confidence)."
  if strContains name "::" then
    let field := splitHead name "::"
    let value := splitSecond name "::"
    if direction = .positive then
      "Having \"" ++ value ++ "\" as " ++ friendlyNameOf field ++
        " is associated with higher membership likelihood" ++ tail
    else
      "Having \"" ++ value ++ "\" as " ++ friendlyNameOf field ++
        " is associated with lower membership likelihood" ++ tail
  else if colType = .days_since then
    if direction = .negative then
      "People who visited more recently (fewer days since last visit) are more likely to be members" ++
        tail ++ " Each additional day since the last visit decreases the likelihood of membership."
    else
      "People who visited less recently (more days since last visit) are, surprisingly, more associated with membership" ++
        tail ++ " This may indicate long-term loyal members who do not need to visit frequently."
  else if colType = .date then
    if strContains (lowerStr name) "birth" then
      if direction = .positive then
        "Younger individuals (more recent birthdates) are more likely to be members" ++ tail
      else
        "Older individuals (earlier birthdates) are more likely to be members" ++ tail
    else
      if direction = .positive then
        "More recent dates in " ++ friendlyName ++ " correlate with membership" ++ tail
      else
        "Earlier dates in " ++ friendlyName ++ " correlate with membership" ++ tail
  else if colType = .binary_gender then
    match getBinaryValues allData name with
    | some bv =>
      let val1Encoded := encodeValue env bv.1 (some .binary_gender)
      let val0 := if val1Encoded = 1 then bv.2 else bv.1
      let val1 := if val1Encoded = 1 then bv.1 else bv.2
      let moreLikely := if direction = .positive then val1 else val0
      let lessLikely := if direction = .positive then val0 else val1
      moreLikely ++ " individuals are more likely to be members than " ++ lessLikely ++
        " individuals" ++ tail ++
        " Note: with only two categories, one must be more likely and the other less likely."
    | none => genericNumericExplanation friendlyName direction tail
  else if colType = .binary_parental then
    match getBinaryValues allData name with
    | some bv =>
      let val1Encoded := encodeValue env bv.1 (some .binary_parental)
      let val0 := if val1Encoded = 1 then bv.2 else bv.1
      let val1 := if val1Encoded = 1 then bv.1 else bv.2
      let moreLikely := if direction = .positive then val1 else val0
      let lessLikely := if direction = .positive then val0 else val1
      "Individuals with \"" ++ moreLikely ++ "\" parental status are more likely to be members than those with \"" ++
        lessLikely ++ "\" status" ++ tail
    | none => genericNumericExplanation friendlyName direction tail
  else if colType = .age then
    if direction = .positive then
      "Older individuals (higher age) are more likely to be members" ++ tail
    else
      "Younger individuals (lower age) are more likely to be members" ++ tail
  else if colType = .distance then
    if direction = .positive then
      "Greater distance from Columbia is associated with membership" ++ tail
    else
      "Closer proximity to Columbia correlates with membership" ++ tail
  else if colType = .boolean then
    if direction = .positive then
      "A \"yes\" or positive value for " ++ friendlyName ++ " correlates with membership" ++ tail
    else
      "A \"no\" or negative value for " ++ friendlyName ++ " correlates with membership" ++ tail
  else
    genericNumericExplanation friendlyName direction tail

/- ===================================================================
   engine.ts : the main analysis pipeline, split into named stages
   =================================================================== -/

/-- `FeatureImportance` from engine.ts (importance and confidence are
    produced by `Math.round`/`Math.min`/`Math.max` so they are integers). -/
structure FeatureImportance where
  field : String
  importance : ℤ
  correlation : ℝ
  confidence : ℤ
  direction : Direction
  explanation : String

/-- `PredictionResult` from engine.ts; a factor is a field name with its
    rounded contribution. -/
structure PredictionResult where
  originalData : Rec
  score : ℤ
  factors : List (String × ℝ)

/-- `AnalysisResult` from engine.ts. -/
structure AnalysisResult where
  featureImportances : List FeatureImportance
  predictions : List PredictionResult
  modelAccuracy : ℤ
  totalMembers : ℕ
  totalContacts : ℕ

/-- `memberColumns.filter(c => contactColumns.includes(c))`. -/
def commonCols (mc cc : List String) : List String := mc.filter (fun c => c ∈ cc)

/-- The combined record list, members first. -/
def allRecords (md cd : List Rec) : List Rec := md ++ cd

/-- Training labels: members 1, contacts 0. -/
noncomputable def labelsOf (md cd : List Rec) : List ℝ :=
  List.replicate md.length 1 ++ List.replicate cd.length 0

/-- Preprocessing stage of `analyzeAndPredict`. -/
noncomputable def prepOf (env : JSEnv) (md cd : List Rec) (mc cc : List String) :
    PrepResult :=
  preprocessData env (allRecords md cd) (commonCols mc cc)

/-- Normalized combined feature matrix. -/
noncomputable def normalizedOf (env : JSEnv) (md cd : List Rec) (mc cc : List String) :
    List (List ℝ) :=
  normalizeMatrix (prepOf env md cd mc cc).matrix

/-- The trained model: `trainLogisticRegression(normalized, labels, 0.5, 2000, 0.01)`. -/
noncomputable def trainedOf (env : JSEnv) (md cd : List Rec) (mc cc : List String) :
    List ℝ × ℝ :=
  trainLogisticRegression (normalizedOf env md cd mc cc) (labelsOf md cd)
    (1 / 2) 2000 (1 / 100)

/-- Training accuracy: fraction of combined rows classified correctly at
    threshold 0.5, as a rounded integer percentage. -/
noncomputable def modelAccuracyOf (env : JSEnv) (md cd : List Rec) (mc cc : List String) : ℤ :=
  let normalized := normalizedOf env md cd mc cc
  let labels := labelsOf md cd
  let weights := (trainedOf env md cd mc cc).1
  let bias := (trainedOf env md cd mc cc).2
  let correct : ℕ := (List.range normalized.length).foldl
    (fun acc i =>
      if (if (1 : ℝ) / 2 ≤ sigmoid (dotZ bias weights (normalized.getD i [])) then (1 : ℝ) else 0)
          = labels.getD i 0
      then acc + 1 else acc) 0
  round (((correct : ℝ) / (normalized.length : ℝ)) * 100)

/-- `Math.max(...weights.map(Math.abs), 0.001)`. -/
noncomputable def maxAbsWeightOf (weights : List ℝ) : ℝ :=
  (weights.map (fun w => |w|)).foldl max (1 / 1000)

/-- The per-feature importance entries, in feature order, before the
    binary-field post-processing (the `featureNames.map` of the source). -/
noncomputable def rawImportances (env : JSEnv) (md cd : List Rec) (mc cc : List String) :
    List FeatureImportance :=
  let prep := prepOf env md cd mc cc
  let normalized := normalizedOf env md cd mc cc
  let labels := labelsOf md cd
  let weights := (trainedOf env md cd mc cc).1
  let memberMatrix := normalized.take md.length
  let contactMatrix := normalized.drop md.length
  let maxAbsWeight := maxAbsWeightOf weights
  prep.featureNames.enum.map (fun idxname =>
    let idx := idxname.1
    let name := idxname.2
    let featureCol := normalized.map (fun row => row.getD idx 0)
    let correlation := calculateCorrelation featureCol labels
    let importance : ℤ := round ((|weights.getD idx 0| / maxAbsWeight) * 100)
    let memberVals := memberMatrix.map (fun row => row.getD idx 0)
    let contactVals := contactMatrix.map (fun row => row.getD idx 0)
    let memberMean := memberVals.sum / ((max memberVals.length 1 : ℕ) : ℝ)
    let contactMean := contactVals.sum / ((max contactVals.length 1 : ℕ) : ℝ)
    let diff := |memberMean - contactMean|
    let confidence : ℤ := min 99
      (round (diff * 100 * Real.sqrt (((min memberVals.length contactVals.length : ℕ) : ℝ) / 10)))
    let direction := if (0 : ℝ) ≤ weights.getD idx 0 then Direction.positive else Direction.negative
    let corrPct : ℤ := round (|correlation| * 100)
    let baseColName := if strContains name "::" then splitHead name "::" else name
    let colType := ((prep.columnTypes.find? (fun p => p.1 = baseColName)).map Prod.snd).getD .numeric
    { field := name
      importance := importance
      correlation := ((round (correlation * 100) : ℤ) : ℝ) / 100
      confidence := max 1 confidence
      direction := direction
      explanation := generateExplanation env name colType direction corrPct
        (max 1 confidence) (allRecords md cd) })

/-- The rewritten explanation of the mutated main entry of a binary field. -/
noncomputable def binaryMainExplanation (t : ColumnType) (moreLikely lessLikely : String)
    (main : FeatureImportance) : String :=
  let corrStr := toString (round (|main.correlation| * 100))
  let confStr := toString main.confidence
  if t = .binary_gender then
    moreLikely ++ " individuals are more likely to be members than " ++ lessLikely ++
      " individuals (" ++ corrStr ++ "% correlation, " ++ confStr ++
      "% confidence). As a binary field, one gender must be more likely and the other less likely. The confidence level indicates how strong this distinction is."
  else
    "Individuals with \"" ++ moreLikely ++ "\" parental status are more likely to be members than those with \"" ++
      lessLikely ++ "\" status (" ++ corrStr ++ "% correlation, " ++ confStr ++
      "% confidence). As a binary field, one status must be more likely and the other less likely."

/-- The explanation of the synthesized complementary entry of a binary field. -/
noncomputable def binarySupExplanation (t : ColumnType) (moreLikely lessLikely : String)
    (main : FeatureImportance) : String :=
  let corrStr := toString (round (|main.correlation| * 100))
  let confStr := toString main.confidence
  if t = .binary_gender then
    lessLikely ++ " individuals are less likely to be members than " ++ moreLikely ++
      " individuals (" ++ corrStr ++ "% correlation, " ++ confStr ++
      "% confidence). This is the complementary result of the gender analysis above."
  else
    "Individuals with \"" ++ lessLikely ++ "\" parental status are less likely to be members than those with \"" ++
      moreLikely ++ "\" status (" ++ corrStr ++ "% correlation, " ++ confStr ++
      "% confidence). This is the complementary result of the parental status analysis."

/-- Replace the first entry whose field is `col` (the in-place mutation
    of the object returned by `find`). -/
def mutateFirst (col : String) (repl : FeatureImportance) :
    List FeatureImportance → List FeatureImportance
  | [] => []
  | f :: fs => if f.field = col then repl :: fs else f :: mutateFirst col repl fs

/-- The mutated main entry a binary column produces from its found entry. -/
noncomputable def binaryMutatedMain (env : JSEnv) (t : ColumnType) (col : String)
    (bv : String × String) (mainEntry : FeatureImportance) : FeatureImportance :=
  let val0Encoded := encodeValue env bv.1 (some t)
  let encodedAs1 := if val0Encoded = 1 then bv.1 else bv.2
  let encodedAs0 := if val0Encoded = 1 then bv.2 else bv.1
  let moreLikely := if mainEntry.direction = .positive then encodedAs1 else encodedAs0
  let lessLikely := if mainEntry.direction = .positive then encodedAs0 else encodedAs1
  { field := col ++ " (" ++ moreLikely ++ ")"
    importance := mainEntry.importance
    correlation := mainEntry.correlation
    confidence := mainEntry.confidence
    direction := .positive
    explanation := binaryMainExplanation t moreLikely lessLikely mainEntry }

/-- The complementary entry a binary column produces. -/
noncomputable def binarySupEntry (env : JSEnv) (t : ColumnType) (col : String)
    (bv : String × String) (mainEntry : FeatureImportance) : FeatureImportance :=
  let val0Encoded := encodeValue env bv.1 (some t)
  let encodedAs1 := if val0Encoded = 1 then bv.1 else bv.2
  let encodedAs0 := if val0Encoded = 1 then bv.2 else bv.1
  let moreLikely := if mainEntry.direction = .positive then encodedAs1 else encodedAs0
  let lessLikely := if mainEntry.direction = .positive then encodedAs0 else encodedAs1
  { field := col ++ " (" ++ lessLikely ++ ")"
    importance := mainEntry.importance
    correlation := -mainEntry.correlation
    confidence := mainEntry.confidence
    direction := .negative
    explanation := binarySupExplanation t moreLikely lessLikely mainEntry }

/-- The binary-field post-processing loop over `columnTypes.entries()`:
    rename the main entry of each binary column and collect its
    complementary entry. -/
noncomputable def applyBinaryPost (env : JSEnv) (allRecs : List Rec) :
    List (String × ColumnType) → List FeatureImportance → List FeatureImportance →
    List FeatureImportance × List FeatureImportance
  | [], entries, sups => (entries, sups)
  | (col, t) :: rest, entries, sups =>
    if t = .binary_gender ∨ t = .binary_parental then
      match List.find? (fun f => f.field = col) entries, getBinaryValues allRecs col with
      | some mainEntry, some bv =>
        applyBinaryPost env allRecs rest
          (mutateFirst col (binaryMutatedMain env t col bv mainEntry) entries)
          (sups ++ [binarySupEntry env t col bv mainEntry])
      | _, _ => applyBinaryPost env allRecs rest entries sups
    else applyBinaryPost env allRecs rest entries sups

/-- Whether a supplement belongs after entry `fi`
    (`s.field.startsWith(baseCol + ' (') && s.field !== fi.field`). -/
def supMatches (fi s : FeatureImportance) : Bool :=
  let baseCol := if strContains fi.field " (" then splitHead fi.field " (" else fi.field
  strStartsWith s.field (baseCol ++ " (") && !(s.field == fi.field)

/-- Remove the first element satisfying `p` (the `indexOf`/`splice` pair). -/
def eraseFirstP {α : Type} (p : α → Bool) : List α → List α
  | [] => []
  | x :: xs => if p x then xs else x :: eraseFirstP p xs

/-- Interleave each entry with its matching supplement, appending any
    supplements left over. -/
def finalBuild : List FeatureImportance → List FeatureImportance →
    List FeatureImportance
  | [], sups => sups
  | fi :: rest, sups =>
    match List.find? (supMatches fi) sups with
    | some sup => fi :: sup :: finalBuild rest (eraseFirstP (supMatches fi) sups)
    | none => fi :: finalBuild rest sups

/-- The derived base column of a display name: strip a ` (value)`
    suffix, else a `::value` suffix. -/
def baseOf (f : String) : String :=
  if strContains f " (" then splitHead f " ("
  else if strContains f "::" then splitHead f "::"
  else f

/-- Group the entry list by base column, first-occurrence order. -/
def groupsOf (F : List FeatureImportance) : List (List FeatureImportance) :=
  (firstSeen (F.map (fun fi => baseOf fi.field))).map
    (fun b => F.filter (fun fi => baseOf fi.field == b))

/-- `Math.max(...group.map(f => f.importance))` for a group. -/
def maxImp : List FeatureImportance → ℤ
  | [] => 0
  | g :: gs => (gs.map (fun fi => fi.importance)).foldl max g.importance

/-- Entries and supplements after the binary post-processing. -/
noncomputable def postOf (env : JSEnv) (md cd : List Rec) (mc cc : List String) :
    List FeatureImportance × List FeatureImportance :=
  applyBinaryPost env (allRecords md cd) (prepOf env md cd mc cc).columnTypes
    (rawImportances env md cd mc cc) []

/-- The interleaved list fed to the final grouping sort. -/
noncomputable def builtOf (env : JSEnv) (md cd : List Rec) (mc cc : List String) :
    List FeatureImportance :=
  finalBuild (postOf env md cd mc cc).1 (postOf env md cd mc cc).2

/-- The final importance list: group by base column, sort groups by
    maximum importance descending, flatten, drop importance-0 entries. -/
noncomputable def finalImportancesOf (env : JSEnv) (md cd : List Rec) (mc cc : List String) :
    List FeatureImportance :=
  ((sortDescBy maxImp (groupsOf (builtOf env md cd mc cc))).flatten).filter
    (fun fi => decide (0 < fi.importance))

/-- The contact predictions: per-feature contributions, the clamped
    1..100 score, top-10 factors, sorted by score descending. -/
noncomputable def predictionsOf (env : JSEnv) (md cd : List Rec) (mc cc : List String) :
    List PredictionResult :=
  let weights := (trainedOf env md cd mc cc).1
  let bias := (trainedOf env md cd mc cc).2
  let contactMatrix := (normalizedOf env md cd mc cc).drop md.length
  let featureNames := (prepOf env md cd mc cc).featureNames
  sortDescBy (fun p => p.score)
    (cd.enum.map (fun idxc =>
      let row := contactMatrix.getD idxc.1 []
      let factors := (List.range weights.length).map (fun j =>
        (featureNames.getD j "",
         ((round ((weights.getD j 0 * row.getD j 0) * 100) : ℤ) : ℝ) / 100))
      let score : ℤ := max 1 (min 100 (round (sigmoid (dotZ bias weights row) * 99 + 1)))
      { originalData := idxc.2
        score := score
        factors := (sortDescBy (fun f => |f.2|) factors).take 10 }))

/-- The success result of `analyzeAndPredict`. -/
noncomputable def analyzeAndPredictOk (env : JSEnv) (md cd : List Rec)
    (mc cc : List String) : AnalysisResult where
  featureImportances := finalImportancesOf env md cd mc cc
  predictions := predictionsOf env md cd mc cc
  modelAccuracy := modelAccuracyOf env md cd mc cc
  totalMembers := md.length
  totalContacts := cd.length

/-- The error message thrown when no columns are shared. -/
def noCommonColumnsMsg : String :=
  "No common columns found between member and contact lists. Please ensure both CSVs share at least some column headers."

/-- `analyzeAndPredict` from engine.ts: throwing is modelled by `Except`. -/
noncomputable def analyzeAndPredict (env : JSEnv) (md cd : List Rec)
    (mc cc : List String) : Except String AnalysisResult :=
  if commonCols mc cc = [] then .error noCommonColumnsMsg
  else .ok (analyzeAndPredictOk env md cd mc cc)

/- ===================================================================
   geo.ts : Columbia, MD residency classifier
   =================================================================== -/

/-- The target ZIP codes (`COLUMBIA_ZIPS`). -/
def COLUMBIA_ZIPS : List String := ["21044", "21045", "21046"]

/-- `COLUMBIA_CENTER`. -/
noncomputable def COLUMBIA_CENTER : ℝ × ℝ := (39.2037, -76.8610)

/-- `COLUMBIA_BOUNDARY`, the approximate boundary polygon. -/
noncomputable def COLUMBIA_BOUNDARY : List (ℝ × ℝ) := [
  (39.2420, -76.8950),
  (39.2450, -76.8700),
  (39.2400, -76.8400),
  (39.2300, -76.8250),
  (39.2100, -76.8150),
  (39.1900, -76.8200),
  (39.1780, -76.8350),
  (39.1750, -76.8550),
  (39.1800, -76.8800),
  (39.1950, -76.8950),
  (39.2150, -76.9050),
  (39.2300, -76.9000)]

/-- `MD_CITY_COORDS`, in object-literal insertion order. -/
noncomputable def MD_CITY_COORDS : List (String × ℝ × ℝ) := [
  ("columbia", 39.2037, -76.8610),
  ("ellicott city", 39.2674, -76.7983),
  ("elkridge", 39.2126, -76.7136),
  ("laurel", 39.0993, -76.8483),
  ("savage", 39.1379, -76.8236),
  ("jessup", 39.1462, -76.7753),
  ("hanover", 39.1929, -76.7244),
  ("clarksville", 39.2070, -76.9397),
  ("dayton", 39.2420, -76.9640),
  ("fulton", 39.1520, -76.9230),
  ("highland", 39.1751, -76.9569),
  ("west friendship", 39.2847, -76.9375),
  ("baltimore", 39.2904, -76.6122),
  ("towson", 39.4015, -76.6019),
  ("catonsville", 39.2721, -76.7319),
  ("dundalk", 39.2507, -76.5205),
  ("essex", 39.3093, -76.4746),
  ("parkville", 39.3771, -76.5397),
  ("perry hall", 39.4126, -76.4636),
  ("owings mills", 39.4197, -76.7708),
  ("pikesville", 39.3743, -76.7225),
  ("glen burnie", 39.1626, -76.6247),
  ("linthicum", 39.2054, -76.6594),
  ("arbutus", 39.2365, -76.6922),
  ("halethorpe", 39.2268, -76.6836),
  ("rosedale", 39.3204, -76.5155),
  ("middle river", 39.3382, -76.4394),
  ("randallstown", 39.3676, -76.7953),
  ("reisterstown", 39.4693, -76.8294),
  ("cockeysville", 39.4790, -76.6438),
  ("timonium", 39.4370, -76.6197),
  ("lutherville", 39.4215, -76.6264),
  ("washington", 38.9072, -77.0369),
  ("silver spring", 38.9907, -77.0261),
  ("bethesda", 38.9847, -77.0947),
  ("rockville", 39.0840, -77.1528),
  ("gaithersburg", 39.1434, -77.2014),
  ("germantown", 39.1732, -77.2717),
  ("bowie", 38.9428, -76.7302),
  ("college park", 38.9807, -76.9370),
  ("greenbelt", 38.9954, -76.8828),
  ("hyattsville", 38.9559, -76.9453),
  ("lanham", 38.9687, -76.8633),
  ("largo", 38.8976, -76.8303),
  ("upper marlboro", 38.8156, -76.7497),
  ("annapolis", 38.9784, -76.4922),
  ("severna park", 39.0704, -76.5683),
  ("severn", 39.1371, -76.6983),
  ("odenton", 39.0840, -76.7000),
  ("crofton", 39.0018, -76.6872),
  ("gambrills", 39.0679, -76.6653),
  ("millersville", 39.0573, -76.6392),
  ("pasadena", 39.1076, -76.5711),
  ("arnold", 39.0329, -76.5025),
  ("frederick", 39.4143, -77.4105),
  ("mount airy", 39.3762, -77.1547),
  ("new market", 39.3901, -77.2767),
  ("sykesville", 39.3735, -76.9678),
  ("eldersburg", 39.4039, -76.9519),
  ("westminster", 39.5754, -76.9958),
  ("bel air", 39.5360, -76.3483),
  ("aberdeen", 39.5093, -76.1641),
  ("havre de grace", 39.5493, -76.0919),
  ("edgewood", 39.4187, -76.2944),
  ("joppa", 39.4365, -76.3561),
  ("columbia md", 39.2037, -76.8610),
  ("olney", 39.1532, -77.0668),
  ("burtonsville", 39.1113, -76.9325),
  ("north laurel", 39.1337, -76.8586),
  ("maple lawn", 39.1680, -76.8886),
  ("kings contrivance", 39.1856, -76.8433),
  ("dorsey", 39.1604, -76.7853),
  ("scaggsville", 39.1446, -76.8825),
  ("woodbine", 39.3340, -77.0675),
  ("lisbon", 39.3273, -77.0600),
  ("cooksville", 39.3273, -76.9956),
  ("glenelg", 39.2718, -76.9122),
  ("woodstock", 39.3308, -76.8726),
  ("marriottsville", 39.2996, -76.8986)]

/-- `ZIP_COORDS`, in object-literal insertion order. -/
noncomputable def ZIP_COORDS : List (String × ℝ × ℝ) := [
  ("21044", 39.2128, -76.8812),
  ("21045", 39.2025, -76.8331),
  ("21046", 39.1893, -76.8553),
  ("21042", 39.2674, -76.7983),
  ("21043", 39.2501, -76.7711),
  ("21075", 39.2126, -76.7136),
  ("21076", 39.1929, -76.7244),
  ("21029", 39.2070, -76.9397),
  ("21036", 39.2420, -76.9640),
  ("21104", 39.2996, -76.8986),
  ("21163", 39.3308, -76.8726),
  ("21738", 39.2718, -76.9122),
  ("21797", 39.3340, -77.0675),
  ("21794", 39.3273, -77.0600),
  ("20707", 39.0993, -76.8483),
  ("20708", 39.0760, -76.8417),
  ("20723", 39.1337, -76.8586),
  ("20724", 39.0943, -76.7000),
  ("20794", 39.1462, -76.7753),
  ("20763", 39.1379, -76.8236),
  ("21201", 39.2904, -76.6177),
  ("21202", 39.2960, -76.6005),
  ("21206", 39.3271, -76.5397),
  ("21207", 39.3176, -76.7225),
  ("21208", 39.3743, -76.7225),
  ("21209", 39.3649, -76.6686),
  ("21210", 39.3490, -76.6397),
  ("21211", 39.3260, -76.6397),
  ("21212", 39.3665, -76.6122),
  ("21213", 39.3065, -76.5794),
  ("21214", 39.3493, -76.5622),
  ("21215", 39.3443, -76.6833),
  ("21216", 39.3082, -76.6622),
  ("21217", 39.3082, -76.6394),
  ("21218", 39.3260, -76.6028),
  ("21227", 39.2268, -76.6836),
  ("21228", 39.2721, -76.7319),
  ("21229", 39.2718, -76.6922),
  ("21230", 39.2632, -76.6247),
  ("21234", 39.3771, -76.5397),
  ("21236", 39.3382, -76.4394),
  ("21237", 39.3204, -76.5155),
  ("21244", 39.3176, -76.7869),
  ("21060", 39.1626, -76.6247),
  ("21061", 39.1526, -76.6247),
  ("21144", 39.1371, -76.6983),
  ("21401", 38.9784, -76.4922),
  ("21403", 38.9584, -76.4722),
  ("21108", 39.0573, -76.6392),
  ("21113", 39.0840, -76.7000),
  ("21114", 39.0018, -76.6872),
  ("21012", 39.0329, -76.5025),
  ("21122", 39.1076, -76.5711),
  ("21146", 39.0704, -76.5683),
  ("20901", 38.9907, -77.0261),
  ("20814", 38.9847, -77.0947),
  ("20850", 39.0840, -77.1528),
  ("20877", 39.1434, -77.2014),
  ("20874", 39.1732, -77.2717),
  ("20720", 38.9428, -76.7302),
  ("20740", 38.9807, -76.9370),
  ("20770", 38.9954, -76.8828),
  ("20783", 38.9559, -76.9453),
  ("21701", 39.4143, -77.4105),
  ("21771", 39.3762, -77.1547),
  ("21784", 39.3735, -76.9678),
  ("21157", 39.5754, -76.9958),
  ("21048", 39.4039, -76.9519),
  ("21014", 39.5360, -76.3483),
  ("21001", 39.5093, -76.1641),
  ("21078", 39.5493, -76.0919),
  ("21040", 39.4187, -76.2944)]

/-- Lookup in a coordinate table (JS object property access). -/
noncomputable def lookupCoord (table : List (String × ℝ × ℝ)) (key : String) :
    Option (ℝ × ℝ) :=
  (List.find? (fun p => p.1 == key) table).map Prod.snd

/-- Whether a five-digit ZIP match of `/\b(\d{5})(?:-\d{4})?\b/` starts at
    the current position (`prev` is the preceding character).  The
    optional `-\d{4}` tail never changes whether a match exists here nor
    the captured group, because a hyphen is itself a word boundary. -/
def zipMatchAt (prev : Option Char) (l : List Char) : Bool :=
  (match prev with | none => true | some c => !(isWordChar c)) &&
  (l.take 5).length = 5 && (l.take 5).all Char.isDigit &&
  (match l.drop 5 with | [] => true | c :: _ => !(isWordChar c))

/-- Left-to-right scan for the first ZIP match (JS leftmost matching). -/
def extractZipAux : Option Char → List Char → Option String
  | _, [] => none
  | prev, h :: t =>
    if zipMatchAt prev (h :: t) then some ⟨(h :: t).take 5⟩
    else extractZipAux (some h) t

/-- `extractZip` from geo.ts: the first 5-digit ZIP in the address. -/
def extractZip (address : String) : Option String := extractZipAux none address.data

/-- Case-insensitive character-list prefix test. -/
def lcIsPrefix : List Char → List Char → Bool
  | [], _ => true
  | _ :: _, [] => false
  | p :: ps, c :: cs => (p.toLower = c.toLower) && lcIsPrefix ps cs

/-- Word boundary before the current position. -/
def wordBoundaryBefore (prev : Option Char) : Bool :=
  match prev with | none => true | some c => !(isWordChar c)

/-- Word boundary after `k` more characters of `l`. -/
def boundaryAfterAt (l : List Char) (k : ℕ) : Bool :=
  match l.drop k with | [] => true | c :: _ => !(isWordChar c)

/-- `part.replace(/\b(md|maryland)\b/gi, '')`: remove word-bounded
    state tokens, alternation tried left to right at each position.
    The extra fuel argument (always at least the list length plus one,
    and each step consumes at least one character) only makes the
    recursion structural; it never runs out. -/
def stripMdGo : ℕ → Option Char → List Char → List Char
  | 0, _, _ => []
  | _ + 1, _, [] => []
  | fuel + 1, prev, c :: rest =>
    if wordBoundaryBefore prev && lcIsPrefix "md".data (c :: rest) &&
        boundaryAfterAt (c :: rest) 2 then
      stripMdGo fuel (some 'd') (rest.drop 1)
    else if wordBoundaryBefore prev && lcIsPrefix "maryland".data (c :: rest) &&
        boundaryAfterAt (c :: rest) 8 then
      stripMdGo fuel (some 'd') (rest.drop 7)
    else c :: stripMdGo fuel (some c) rest

/-- The state-token replace, fuelled by the input length. -/
def stripMdAux (prev : Option Char) (l : List Char) : List Char :=
  stripMdGo (l.length + 1) prev l

/-- `part.replace(/\d{5}/g, '')`: remove every run of five digits,
    scanning left to right and resuming after each match (fuelled like
    `stripMdGo`). -/
def strip5DigitsGo : ℕ → List Char → List Char
  | 0, _ => []
  | _ + 1, [] => []
  | fuel + 1, c :: rest =>
    if ((c :: rest).take 5).length = 5 && ((c :: rest).take 5).all Char.isDigit then
      strip5DigitsGo fuel (rest.drop 4)
    else c :: strip5DigitsGo fuel rest

/-- The five-digit replace, fuelled by the input length. -/
def strip5DigitsAux (l : List Char) : List Char :=
  strip5DigitsGo (l.length + 1) l

/-- City names sorted by length descending (stable), as in `extractCity`. -/
noncomputable def knownCitiesSorted : List String :=
  sortDescBy (fun s => s.length) (MD_CITY_COORDS.map Prod.fst)

/-- `extractCity` from geo.ts: longest known city name contained in the
    address, else the comma-split heuristic. -/
noncomputable def extractCity (address : String) : Option String :=
  let lower := jsTrim (lowerStr address)
  match List.find? (fun city => strContains lower city) knownCitiesSorted with
  | some city => some city
  | none =>
    let parts := (splitCharList ',' address.data).map
      (fun p => lowerStr (jsTrim (String.mk p)))
    let cands := (parts.drop 1).map
      (fun part => jsTrim (String.mk (strip5DigitsAux (stripMdAux none part.data))))
    List.find? (fun cand =>
      !(cand == "") && (lookupCoord MD_CITY_COORDS cand).isSome) cands

/-- `geocodeAddress` from geo.ts: ZIP table first, then city name, then
    the Columbia-identifier fallback. -/
noncomputable def geocodeAddress (address : String) : Option (ℝ × ℝ) :=
  let zipCoord := match extractZip address with
    | some zip => lookupCoord ZIP_COORDS zip
    | none => none
  match zipCoord with
  | some c => some c
  | none =>
    let cityCoord := match extractCity address with
      | some city => lookupCoord MD_CITY_COORDS city
      | none => none
    match cityCoord with
    | some c => some c
    | none =>
      let lower := lowerStr address
      if strContains lower "columbia" &&
         (strContains lower "md" || strContains lower "maryland" ||
          strContains lower "21044" || strContains lower "21045" ||
          strContains lower "21046")
      then some COLUMBIA_CENTER else none

/-- The `(i, j)` index pairs of the ray-casting loop
    (`for (i = 0, j = n - 1; i < n; j = i++)`). -/
def pairsIdx (n : ℕ) : List (ℕ × ℕ) :=
  (List.range n).map (fun i => (i, if i = 0 then n - 1 else i - 1))

/-- `isPointInPolygon` from geo.ts (ray casting, even-odd rule). -/
noncomputable def isPointInPolygon (point : ℝ × ℝ) (polygon : List (ℝ × ℝ)) : Bool :=
  (pairsIdx polygon.length).foldl
    (fun inside ij =>
      let vi := polygon.getD ij.1 (0, 0)
      let vj := polygon.getD ij.2 (0, 0)
      if ((vi.2 > point.2) ≠ (vj.2 > point.2)) ∧
          point.1 < (vj.1 - vi.1) * (point.2 - vi.2) / (vj.2 - vi.2) + vi.1
      then !inside else inside)
    false

/-- Model of `Math.atan2`. -/
noncomputable def atan2 (y x : ℝ) : ℝ :=
  if 0 < x then Real.arctan (y / x)
  else if x < 0 ∧ 0 ≤ y then Real.arctan (y / x) + Real.pi
  else if x < 0 ∧ y < 0 then Real.arctan (y / x) - Real.pi
  else if x = 0 ∧ 0 < y then Real.pi / 2
  else if x = 0 ∧ y < 0 then -(Real.pi / 2)
  else 0

/-- `toRad` from geo.ts. -/
noncomputable def toRad (deg : ℝ) : ℝ := deg * Real.pi / 180

/-- `haversineDistance` from geo.ts (Earth radius 3959 miles). -/
noncomputable def haversineDistance (a b : ℝ × ℝ) : ℝ :=
  let dLat := toRad (b.1 - a.1)
  let dLng := toRad (b.2 - a.2)
  let sinDLat := Real.sin (dLat / 2)
  let sinDLng := Real.sin (dLng / 2)
  let h := sinDLat * sinDLat + Real.cos (toRad a.1) * Real.cos (toRad b.1) * sinDLng * sinDLng
  3959 * 2 * atan2 (Real.sqrt h) (Real.sqrt (1 - h))

/-- `distanceToSegment` from geo.ts (projection clamped to `[0,1]`). -/
noncomputable def distanceToSegment (p a b : ℝ × ℝ) : ℝ :=
  let dx := b.1 - a.1
  let dy := b.2 - a.2
  if dx = 0 ∧ dy = 0 then haversineDistance p a
  else
    let t := ((p.1 - a.1) * dx + (p.2 - a.2) * dy) / (dx * dx + dy * dy)
    let t2 := max 0 (min 1 t)
    haversineDistance p (a.1 + t2 * dx, a.2 + t2 * dy)

/-- `distanceToPolygonBorder` from geo.ts: minimum edge distance (the
    `Infinity` seed is modelled by folding `min` from the first edge). -/
noncomputable def distanceToPolygonBorder (point : ℝ × ℝ) (polygon : List (ℝ × ℝ)) : ℝ :=
  let n := polygon.length
  match (List.range n).map (fun i =>
    distanceToSegment point (polygon.getD i (0, 0)) (polygon.getD ((i + 1) % n) (0, 0))) with
  | [] => 0
  | d :: ds => ds.foldl min d

/-- `ColumbiaAnalysis` from geo.ts. -/
structure ColumbiaAnalysis where
  isResident : Bool
  residencyStatus : String
  distanceFromBorder : Option ℝ
  confidence : String
  geocoded : Bool

/-- `analyzeColumbia` from geo.ts, branch for branch. -/
noncomputable def analyzeColumbia (address : String) : ColumbiaAnalysis :=
  if address = "" ∨ jsTrim address = "" then
    { isResident := false, residencyStatus := "Unknown", distanceFromBorder := none,
      confidence := "low", geocoded := false }
  else
    let lower := jsTrim (lowerStr address)
    let zipIsTarget := match extractZip address with
      | some zip => COLUMBIA_ZIPS.contains zip
      | none => false
    if zipIsTarget then
      { isResident := true, residencyStatus := "Resident", distanceFromBorder := some 0,
        confidence := "high", geocoded := true }
    else if (strContains lower "columbia" &&
             (strContains lower "md" || strContains lower "maryland")) ||
            (strContains lower "columbia," && !(strContains lower "columbia, sc") &&
             !(strContains lower "columbia, mo")) then
      { isResident := true, residencyStatus := "Resident", distanceFromBorder := some 0,
        confidence := "high", geocoded := true }
    else
      match geocodeAddress address with
      | none =>
        if strContains lower "md" || strContains lower "maryland" then
          { isResident := false, residencyStatus := "Non-Resident",
            distanceFromBorder := none, confidence := "low", geocoded := false }
        else
          { isResident := false, residencyStatus := "Unknown",
            distanceFromBorder := none, confidence := "low", geocoded := false }
      | some coords =>
        if isPointInPolygon coords COLUMBIA_BOUNDARY then
          { isResident := true, residencyStatus := "Resident",
            distanceFromBorder := some 0, confidence := "high", geocoded := true }
        else
          { isResident := false, residencyStatus := "Non-Resident",
            distanceFromBorder :=
              some (((round (distanceToPolygonBorder coords COLUMBIA_BOUNDARY * 10) : ℤ) : ℝ) / 10),
            confidence := "high", geocoded := true }

/-- JS object spread update: overwrite an existing key in place, else
    append the new key at the end. -/
def objSet (row : Rec) (k v : String) : Rec :=
  if row.any (fun p => p.1 == k) then
    row.map (fun p => if p.1 = k then (k, v) else p)
  else row ++ [(k, v)]

/-- One row of `enrichWithColumbiaData`: spread the original row and
    attach the two synthetic fields. -/
noncomputable def enrichRow (env : JSEnv) (addressField : String) (row : Rec) : Rec :=
  let analysis := analyzeColumbia (getField row addressField)
  objSet
    (objSet row "columbia_resident" (if analysis.isResident then "yes" else "no"))
    "distance_from_columbia_mi"
    (match analysis.distanceFromBorder with
     | some d => env.numToString d
     | none => if analysis.isResident then "0" else "")

/-- `enrichWithColumbiaData` from geo.ts. -/
noncomputable def enrichWithColumbiaData (env : JSEnv) (data : List Rec)
    (addressField : String) : List Rec :=
  data.map (enrichRow env addressField)

/- ===================================================================
   Basic evaluation facts
   =================================================================== -/

theorem sigmoid_zero : sigmoid 0 = 1 / 2 := by
  simp [sigmoid]
  norm_num

/- ===================================================================
   C2: encoding of empty and unparsable days_since values
   =================================================================== -/

/-- C2 (code bug exhibit): the generic `value === ''` check at the top
    of `encodeValue` precedes the `days_since` dispatch, so an empty
    `days_since` value encodes to 0 under every environment, even
    though `dateToDaysSince` itself (and the spec) treat missing as the
    999 "very long ago" sentinel. -/
theorem encodeValue_empty_days_since_is_zero (env : JSEnv) :
    encodeValue env "" (some .days_since) = 0 := by
  simp [encodeValue]

/-- The companion facts of C2 that the code does satisfy: whitespace-only
    and parse-failing nonempty `days_since` values encode to 999 (the
    sentinel only fails for the truly empty string). -/
theorem encodeValue_unparsable_days_since (env : JSEnv) (v : String)
    (hne : v ≠ "") (hp : env.dateParse (jsTrim v) = none) :
    encodeValue env v (some .days_since) = 999 := by
  unfold encodeValue dateToDaysSince
  rw [if_neg hne, if_pos rfl]
  by_cases ht : jsTrim v = ""
  · rw [if_pos ht]
  · rw [if_neg ht, hp]

/- ===================================================================
   C6: determinism
   =================================================================== -/

/-- A fixed sample environment for witnesses. -/
noncomputable def env0 : JSEnv where
  parseFloat := fun _ => none
  dateParse := fun _ => none
  now := 0
  numToString := fun _ => ""

/- ===================================================================
   C8: the failure contract
   =================================================================== -/

/-- C8: `analyzeAndPredict` fails exactly when the member and contact
    column lists share no column, and with at least one shared column
    it returns the complete successful result.  The error branch is the
    first statement of the function, before any matrix or training
    work. -/
theorem analyzeAndPredict_error_iff (env : JSEnv) (md cd : List Rec)
    (mc cc : List String) :
    ((∃ e, analyzeAndPredict env md cd mc cc = .error e) ↔ commonCols mc cc = []) ∧
    (commonCols mc cc ≠ [] →
      analyzeAndPredict env md cd mc cc = .ok (analyzeAndPredictOk env md cd mc cc)) := by
  unfold analyzeAndPredict
  by_cases h : commonCols mc cc = [] <;> simp [h]

theorem analyzeAndPredict_error_iff_witness :
    ∃ e, analyzeAndPredict env0 [] [] ["a"] [] = .error e :=
  (analyzeAndPredict_error_iff env0 [] [] ["a"] []).1.mpr rfl

/- ===================================================================
   C10: the enrichment frame property
   =================================================================== -/

theorem objSet_fresh (row : Rec) (k v : String) (h : k ∉ row.map Prod.fst) :
    objSet row k v = row ++ [(k, v)] := by
  unfold objSet
  rw [if_neg]
  intro hany
  rw [List.any_eq_true] at hany
  obtain ⟨p, hp, hpk⟩ := hany
  exact h (List.mem_map.mpr ⟨p, hp, by simpa using hpk.symm⟩)

/-- C10: enrichment preserves every original field and value, and only
    appends the two synthetic fields (`columbia_resident` set to
    "yes"/"no" and `distance_from_columbia_mi`), provided the record
    does not already use those two names. -/
theorem enrichRow_frame (env : JSEnv) (addressField : String) (row : Rec)
    (h1 : "columbia_resident" ∉ row.map Prod.fst)
    (h2 : "distance_from_columbia_mi" ∉ row.map Prod.fst) :
    ∃ cr dm, (cr = "yes" ∨ cr = "no") ∧
      enrichRow env addressField row =
        row ++ [("columbia_resident", cr), ("distance_from_columbia_mi", dm)] := by
  unfold enrichRow
  refine ⟨if (analyzeColumbia (getField row addressField)).isResident then "yes" else "no",
    (match (analyzeColumbia (getField row addressField)).distanceFromBorder with
     | some d => env.numToString d
     | none =>
        if (analyzeColumbia (getField row addressField)).isResident then "0" else ""),
    ?_, ?_⟩
  · by_cases hres : (analyzeColumbia (getField row addressField)).isResident = true
    · left; rw [if_pos hres]
    · right; rw [if_neg hres]
  · have e1 := objSet_fresh row "columbia_resident"
      (if (analyzeColumbia (getField row addressField)).isResident then "yes" else "no") h1
    have h2x : "distance_from_columbia_mi" ∉
        (row ++ [("columbia_resident",
          if (analyzeColumbia (getField row addressField)).isResident then "yes" else "no")]).map
          Prod.fst := by
      rw [List.map_append]
      intro hmem
      rcases List.mem_append.mp hmem with hl | hr
      · exact h2 hl
      · simp at hr
    dsimp only
    rw [e1, objSet_fresh _ _ _ h2x, List.append_assoc]
    rfl

theorem enrichRow_frame_witness :
    ∃ cr dm, (cr = "yes" ∨ cr = "no") ∧
      enrichRow env0 "address" [("address", "x")] =
        [("address", "x")] ++ [("columbia_resident", cr), ("distance_from_columbia_mi", dm)] :=
  enrichRow_frame env0 "address" [("address", "x")] (by decide) (by decide)

/- ===================================================================
   C3: the accumulated gradient
   =================================================================== -/

/-- Modelled from the claim wording of C3 (and section 4.5 of the
    spec), read literally: `dw_j = Σ_i(error_i·x_ij) + λ·w_j/m` with the
    regularization term added once, and `db = Σ_i error_i`. -/
noncomputable def claimedGrad (lam m : ℝ) (w : List ℝ) (b : ℝ)
    (X : List (List ℝ)) (y : List ℝ) : List ℝ × ℝ :=
  ((List.range w.length).map (fun j =>
      ((X.zip y).map (fun s => (sigmoid (dotZ b w s.1) - s.2) * s.1.getD j 0)).sum
        + lam * w.getD j 0 / m),
   ((X.zip y).map (fun s => sigmoid (dotZ b w s.1) - s.2)).sum)

/-- C3 (counterexample): at weights `[1]`, bias 0, with two samples of
    a single all-zero feature and λ = 0.01, the gradient accumulated by
    the code is `[0.01]` (the λ·w/m term is added once per sample,
    totalling λ·w), while the claimed formula gives `[0.005]`. -/
theorem gradAccum_ne_claimedGrad :
    (gradAccum (1 / 100) 2 [1] 0 [[0], [0]] [0, 0]).1 ≠
      (claimedGrad (1 / 100) 2 [1] 0 [[0], [0]] [0, 0]).1 := by
  have hL : (gradAccum (1 / 100) 2 [1] 0 [[0], [0]] [0, 0]).1 = [1 / 100] := by
    simp [gradAccum, dotZ, List.foldl]
    try norm_num
  have hR : (claimedGrad (1 / 100) 2 [1] 0 [[0], [0]] [0, 0]).1 = [1 / 200] := by
    simp [claimedGrad, dotZ, List.range, List.range.loop]
    try norm_num
  rw [hL, hR]
  intro h
  have := List.head_eq_of_cons_eq h
  norm_num at this

/-- `l` is recovered by indexing over its range. -/
theorem range_map_getD (l : List ℝ) :
    (List.range l.length).map (fun j => l.getD j 0) = l := by
  induction l with
  | nil => simp
  | cons a t ih =>
    rw [List.length_cons, List.range_succ_eq_map, List.map_cons, List.map_map]
    have h : (List.range t.length).map ((fun j => (a :: t).getD j 0) ∘ Nat.succ)
        = (List.range t.length).map (fun j => t.getD j 0) := by
      apply List.map_congr_left
      intro j _
      simp
    rw [h, ih]
    simp

/-- The fold inside `gradAccum`, in closed form: each sample adds its
    `error·x_j` and one copy of `λ·w_j/m` to every coordinate. -/
theorem gradAccum_foldl_closed (lam m b : ℝ) (w : List ℝ) :
    ∀ (L : List (List ℝ × ℝ)) (dw0 : List ℝ) (db0 : ℝ),
      (∀ s ∈ L, w.length ≤ s.1.length) → dw0.length = w.length →
      (L.foldl
        (fun acc sample =>
          let e := sigmoid (dotZ b w sample.1) - sample.2
          (List.zipWith (fun dwj xw => dwj + e * xw.1 + lam * xw.2 / m) acc.1
            (sample.1.zip w), acc.2 + e))
        (dw0, db0)) =
      ((List.range w.length).map (fun j =>
          dw0.getD j 0 + (L.map (fun s => (sigmoid (dotZ b w s.1) - s.2) * s.1.getD j 0)).sum
            + (L.length : ℝ) * (lam * w.getD j 0 / m)),
        db0 + (L.map (fun s => sigmoid (dotZ b w s.1) - s.2)).sum) := by
  intro L
  induction L with
  | nil =>
    intro dw0 db0 _ hdw
    simp only [List.foldl_nil, List.map_nil, List.sum_nil, List.length_nil]
    rw [Prod.ext_iff]
    constructor
    · simp only [add_zero, Nat.cast_zero, zero_mul]
      rw [← hdw, range_map_getD]
    · simp
  | cons s L ih =>
    intro dw0 db0 hlen hdw
    rw [List.foldl_cons]
    have hslen : w.length ≤ s.1.length := hlen s (List.mem_cons_self s L)
    have hzip : (s.1.zip w).length = w.length := by
      rw [List.length_zip]
      omega
    have hstep : (List.zipWith
        (fun dwj xw => dwj + (sigmoid (dotZ b w s.1) - s.2) * xw.1 + lam * xw.2 / m) dw0
        (s.1.zip w)).length = w.length := by
      rw [List.length_zipWith, hzip, hdw, min_self]
    rw [ih _ _ (fun t ht => hlen t (List.mem_cons_of_mem s ht)) hstep]
    rw [Prod.ext_iff]
    constructor
    · apply List.map_congr_left
      intro j hj
      rw [List.mem_range] at hj
      have hj1 : j < dw0.length := by omega
      have hj2 : j < (s.1.zip w).length := by omega
      have hget : (List.zipWith
          (fun dwj xw => dwj + (sigmoid (dotZ b w s.1) - s.2) * xw.1 + lam * xw.2 / m) dw0
          (s.1.zip w)).getD j 0 =
          dw0.getD j 0 + (sigmoid (dotZ b w s.1) - s.2) * s.1.getD j 0 + lam * w.getD j 0 / m := by
        rw [List.getD_eq_getElem _ _ (by rw [hstep]; omega), List.getElem_zipWith]
        rw [List.getD_eq_getElem _ _ hj1]
        have hj3 : j < s.1.length := by omega
        have hj4 : j < w.length := by omega
        have : (s.1.zip w)[j] = (s.1[j], w[j]) := by
          rw [List.getElem_zip]
        rw [this]
        rw [List.getD_eq_getElem _ _ (by omega : j < s.1.length),
            List.getD_eq_getElem _ _ (by omega : j < w.length)]
      rw [hget]
      simp only [List.map_cons, List.sum_cons, List.length_cons]
      push_cast
      ring
    · simp only [List.map_cons, List.sum_cons]
      ring

/-- C3 (amended): at every iteration, for rectangular data, the
    accumulated gradient of the trainer is
    `dw_j = Σ_i(error_i·x_ij + λ·w_j/m) = Σ_i(error_i·x_ij) + λ·w_j`
    — the regularization term is added once per sample, so the total is
    `λ·w_j`, not `λ·w_j/m` — and `db = Σ_i error_i` as claimed. -/
theorem gradAccum_closed_form (lam b : ℝ) (w : List ℝ) (X : List (List ℝ))
    (y : List ℝ) (hrect : ∀ x ∈ X, w.length ≤ x.length)
    (hlen : X.length = y.length) (hne : X ≠ []) :
    (gradAccum lam (X.length : ℝ) w b X y).1 =
      (List.range w.length).map (fun j =>
        ((X.zip y).map (fun s => (sigmoid (dotZ b w s.1) - s.2) * s.1.getD j 0)).sum
          + lam * w.getD j 0) ∧
    (gradAccum lam (X.length : ℝ) w b X y).2 =
      ((X.zip y).map (fun s => sigmoid (dotZ b w s.1) - s.2)).sum := by
  have hXzip : (X.zip y).length = X.length := by
    rw [List.length_zip]
    omega
  have hmem : ∀ s ∈ X.zip y, w.length ≤ s.1.length := by
    intro s hs
    exact hrect s.1 (List.of_mem_zip hs).1
  unfold gradAccum
  rw [gradAccum_foldl_closed lam (X.length : ℝ) b w (X.zip y) _ _ hmem
      (List.length_replicate _ _)]
  constructor
  · apply List.map_congr_left
    intro j hj
    rw [List.getD_eq_getElem _ _ (by simpa using hj), List.getElem_replicate, hXzip]
    have hX0 : (X.length : ℝ) ≠ 0 := by
      simp only [ne_eq, Nat.cast_eq_zero, List.length_eq_zero]
      exact hne
    field_simp
    try ring
  · simp

theorem gradAccum_closed_form_witness :
    (gradAccum 0 ((1 : ℕ) : ℝ) [0] 0 [[0]] [0]).1 =
      (List.range ([(0 : ℝ)].length)).map (fun j =>
        (([[(0 : ℝ)]].zip [(0 : ℝ)]).map
          (fun s => (sigmoid (dotZ 0 [0] s.1) - s.2) * s.1.getD j 0)).sum
          + 0 * [(0 : ℝ)].getD j 0) ∧
    (gradAccum 0 ((1 : ℕ) : ℝ) [0] 0 [[0]] [0]).2 =
      (([[(0 : ℝ)]].zip [(0 : ℝ)]).map (fun s => sigmoid (dotZ 0 [0] s.1) - s.2)).sum := by
  have h := gradAccum_closed_form 0 0 [0] [[0]] [0]
    (by intro x hx; simp at hx; simp [hx]) rfl (by simp)
  simpa using h


/- ===================================================================
   C1: score bounds
   =================================================================== -/

/-- C1: every prediction score the Scorer returns is an integer in
    [1,100]: it is computed as
    `max 1 (min 100 (round (sigmoid (bias + Σ w_j·x_j) * 99 + 1)))`
    over the contact record's normalized feature row, and the outer
    clamp forces the bounds. -/
theorem predictions_scores_in_range (env : JSEnv) (md cd : List Rec)
    (mc cc : List String) :
    List.Forall (fun p => 1 ≤ p.score ∧ p.score ≤ 100)
      (analyzeAndPredictOk env md cd mc cc).predictions := by
  rw [List.forall_iff_forall_mem]
  intro p hp
  have hp2 : p ∈ predictionsOf env md cd mc cc := hp
  unfold predictionsOf at hp2
  rw [mem_sortDescBy] at hp2
  rw [List.mem_map] at hp2
  obtain ⟨x, _, rfl⟩ := hp2
  refine ⟨le_max_left _ _, max_le (by norm_num) (min_le_left _ _)⟩

/- ===================================================================
   C9: correlation and confidence bounds
   =================================================================== -/

theorem round_mono_le {a b : ℝ} (h : a ≤ b) : round a ≤ round b := by
  rw [round_eq, round_eq]
  exact Int.floor_mono (by linarith)

/-- Cauchy-Schwarz gives the Pearson correlation its `[-1,1]` range;
    the zero-denominator guard returns 0. -/
theorem abs_calculateCorrelation_le_one (f l : List ℝ) :
    |calculateCorrelation f l| ≤ 1 := by
  unfold calculateCorrelation
  by_cases hn : f.length = 0
  · simp [hn]
  · rw [if_neg hn]
    dsimp only
    set n := f.length with hnn
    set mX := f.sum / (n : ℝ)
    set mY := l.sum / (n : ℝ)
    set num := ∑ i ∈ Finset.range n, (f.getD i 0 - mX) * (l.getD i 0 - mY) with hnum
    set dX := ∑ i ∈ Finset.range n, (f.getD i 0 - mX) * (f.getD i 0 - mX) with hdX
    set dY := ∑ i ∈ Finset.range n, (l.getD i 0 - mY) * (l.getD i 0 - mY) with hdY
    by_cases hd : Real.sqrt (dX * dY) = 0
    · rw [if_pos hd]
      norm_num
    · rw [if_neg hd]
      have hpos : 0 < Real.sqrt (dX * dY) :=
        lt_of_le_of_ne (Real.sqrt_nonneg _) (Ne.symm hd)
      have hCS : num ^ 2 ≤ dX * dY := by
        have h := Finset.sum_mul_sq_le_sq_mul_sq (Finset.range n)
          (fun i => f.getD i 0 - mX) (fun i => l.getD i 0 - mY)
        have e1 : dX = ∑ i ∈ Finset.range n, (f.getD i 0 - mX) ^ 2 := by
          rw [hdX]
          exact Finset.sum_congr rfl (fun i _ => by ring)
        have e2 : dY = ∑ i ∈ Finset.range n, (l.getD i 0 - mY) ^ 2 := by
          rw [hdY]
          exact Finset.sum_congr rfl (fun i _ => by ring)
        rw [e1, e2]
        exact h
      rw [abs_div, abs_of_pos hpos, div_le_one hpos]
      calc |num| = Real.sqrt (num ^ 2) := (Real.sqrt_sq_eq_abs num).symm
        _ ≤ Real.sqrt (dX * dY) := Real.sqrt_le_sqrt hCS

/-- The bound predicate of C9. -/
def corrConfOK (fi : FeatureImportance) : Prop :=
  (-1 ≤ fi.correlation ∧ fi.correlation ≤ 1) ∧ (1 ≤ fi.confidence ∧ fi.confidence ≤ 99)

theorem rawImportances_corrConfOK (env : JSEnv) (md cd : List Rec)
    (mc cc : List String) :
    ∀ fi ∈ rawImportances env md cd mc cc, corrConfOK fi := by
  intro fi hfi
  unfold rawImportances at hfi
  rw [List.mem_map] at hfi
  obtain ⟨x, _, rfl⟩ := hfi
  dsimp only
  constructor
  · set c := calculateCorrelation
      ((normalizedOf env md cd mc cc).map (fun row => row.getD x.1 0)) (labelsOf md cd) with hc
    have habs : |c| ≤ 1 := abs_calculateCorrelation_le_one _ _
    have h1 : round (c * 100) ≤ (100 : ℤ) := by
      have h := round_mono_le (show c * 100 ≤ (100 : ℝ) by nlinarith [abs_le.mp habs])
      simpa using h
    have h2 : (-100 : ℤ) ≤ round (c * 100) := by
      have h := round_mono_le
        (show ((-100 : ℤ) : ℝ) ≤ c * 100 by push_cast; nlinarith [abs_le.mp habs])
      rwa [round_intCast] at h
    constructor
    · rw [le_div_iff₀ (by norm_num : (0:ℝ) < 100)]
      have hcast : ((-100 : ℤ) : ℝ) ≤ ((round (c * 100) : ℤ) : ℝ) := Int.cast_le.mpr h2
      push_cast at hcast ⊢
      linarith
    · rw [div_le_one (by norm_num : (0:ℝ) < 100)]
      have hcast : ((round (c * 100) : ℤ) : ℝ) ≤ ((100 : ℤ) : ℝ) := Int.cast_le.mpr h1
      push_cast at hcast ⊢
      linarith
  · constructor
    · exact le_max_left _ _
    · exact max_le (by norm_num) (min_le_left _ _)

theorem mem_mutateFirst (col : String) (repl f : FeatureImportance) :
    ∀ l : List FeatureImportance, f ∈ mutateFirst col repl l → f = repl ∨ f ∈ l := by
  intro l
  induction l with
  | nil => simp [mutateFirst]
  | cons a t ih =>
    unfold mutateFirst
    by_cases h : a.field = col
    · rw [if_pos h]
      intro hf
      rcases List.mem_cons.mp hf with h1 | h1
      · exact Or.inl h1
      · exact Or.inr (List.mem_cons_of_mem a h1)
    · rw [if_neg h]
      intro hf
      rcases List.mem_cons.mp hf with h1 | h1
      · exact Or.inr (h1 ▸ List.mem_cons_self a t)
      · rcases ih h1 with h2 | h2
        · exact Or.inl h2
        · exact Or.inr (List.mem_cons_of_mem a h2)

theorem mem_eraseFirstP {α : Type} (p : α → Bool) (f : α) :
    ∀ l : List α, f ∈ eraseFirstP p l → f ∈ l := by
  intro l
  induction l with
  | nil => simp [eraseFirstP]
  | cons a t ih =>
    unfold eraseFirstP
    by_cases h : p a = true
    · rw [if_pos h]
      exact fun hf => List.mem_cons_of_mem a hf
    · rw [if_neg h]
      intro hf
      rcases List.mem_cons.mp hf with h1 | h1
      · exact h1 ▸ List.mem_cons_self a t
      · exact List.mem_cons_of_mem a (ih h1)

theorem mem_finalBuild (f : FeatureImportance) :
    ∀ (entries sups : List FeatureImportance), f ∈ finalBuild entries sups →
      f ∈ entries ∨ f ∈ sups := by
  intro entries
  induction entries with
  | nil =>
    intro sups hf
    exact Or.inr hf
  | cons fi rest ih =>
    intro sups
    unfold finalBuild
    cases hfind : List.find? (supMatches fi) sups with
    | none =>
      intro hf
      rcases List.mem_cons.mp hf with h1 | h1
      · exact Or.inl (h1 ▸ List.mem_cons_self fi rest)
      · rcases ih sups h1 with h2 | h2
        · exact Or.inl (List.mem_cons_of_mem fi h2)
        · exact Or.inr h2
    | some sup =>
      intro hf
      rcases List.mem_cons.mp hf with h1 | h1
      · exact Or.inl (h1 ▸ List.mem_cons_self fi rest)
      rcases List.mem_cons.mp h1 with h2 | h2
      · exact Or.inr (h2 ▸ List.mem_of_find?_eq_some hfind)
      · rcases ih _ h2 with h3 | h3
        · exact Or.inl (List.mem_cons_of_mem fi h3)
        · exact Or.inr (mem_eraseFirstP _ _ _ h3)

/-- Any predicate preserved by the mutation and supplement construction
    propagates through the binary post-processing loop. -/
theorem applyBinaryPost_pred (env : JSEnv) (recs : List Rec)
    (P : FeatureImportance → Prop)
    (hmut : ∀ t col bv main, P main → P (binaryMutatedMain env t col bv main))
    (hsup : ∀ t col bv main, P main → P (binarySupEntry env t col bv main)) :
    ∀ (cts : List (String × ColumnType)) entries sups,
      (∀ f ∈ entries, P f) → (∀ f ∈ sups, P f) →
      (∀ f ∈ (applyBinaryPost env recs cts entries sups).1, P f) ∧
      (∀ f ∈ (applyBinaryPost env recs cts entries sups).2, P f) := by
  intro cts
  induction cts with
  | nil =>
    intro entries sups he hs
    exact ⟨he, hs⟩
  | cons ct rest ih =>
    intro entries sups he hs
    obtain ⟨col, t⟩ := ct
    unfold applyBinaryPost
    by_cases hbin : t = ColumnType.binary_gender ∨ t = ColumnType.binary_parental
    · rw [if_pos hbin]
      cases hfind : List.find? (fun f => f.field = col) entries with
      | none =>
        cases hbv : getBinaryValues recs col with
        | none => exact ih entries sups he hs
        | some bv => exact ih entries sups he hs
      | some main =>
        cases hbv : getBinaryValues recs col with
        | none => exact ih entries sups he hs
        | some bv =>
          have hPmain : P main := he main (List.mem_of_find?_eq_some hfind)
          apply ih
          · intro f hf
            rcases mem_mutateFirst col _ f entries hf with h1 | h1
            · exact h1 ▸ hmut t col bv main hPmain
            · exact he f h1
          · intro f hf
            rcases List.mem_append.mp hf with h1 | h1
            · exact hs f h1
            · have : f = binarySupEntry env t col bv main := by simpa using h1
              exact this ▸ hsup t col bv main hPmain
    · rw [if_neg hbin]
      exact ih entries sups he hs

theorem mem_built_sources (env : JSEnv) (md cd : List Rec) (mc cc : List String)
    (fi : FeatureImportance) (h : fi ∈ builtOf env md cd mc cc) :
    fi ∈ (postOf env md cd mc cc).1 ∨ fi ∈ (postOf env md cd mc cc).2 :=
  mem_finalBuild fi _ _ h

theorem mem_finalImportances_built (env : JSEnv) (md cd : List Rec)
    (mc cc : List String) (fi : FeatureImportance)
    (hfi : fi ∈ finalImportancesOf env md cd mc cc) :
    fi ∈ builtOf env md cd mc cc := by
  unfold finalImportancesOf at hfi
  have h1 := List.mem_of_mem_filter hfi
  rw [List.mem_flatten] at h1
  obtain ⟨g, hg, hfg⟩ := h1
  rw [mem_sortDescBy] at hg
  unfold groupsOf at hg
  rw [List.mem_map] at hg
  obtain ⟨b, _, rfl⟩ := hg
  exact List.mem_of_mem_filter hfg

/-- C9: every entry of the final importance list, the synthesized
    complementary entries included, has `-1 ≤ correlation ≤ 1` and an
    integer confidence in `[1,99]`. -/
theorem importances_corr_conf_in_range (env : JSEnv) (md cd : List Rec)
    (mc cc : List String) :
    List.Forall (fun fi => (-1 ≤ fi.correlation ∧ fi.correlation ≤ 1) ∧
        (1 ≤ fi.confidence ∧ fi.confidence ≤ 99))
      (analyzeAndPredictOk env md cd mc cc).featureImportances := by
  rw [List.forall_iff_forall_mem]
  intro fi hfi
  have h1 : fi ∈ finalImportancesOf env md cd mc cc := hfi
  have h2 := mem_built_sources env md cd mc cc fi
    (mem_finalImportances_built env md cd mc cc fi h1)
  have hprop := applyBinaryPost_pred env (allRecords md cd) corrConfOK
    (fun t col bv main hm => by
      unfold corrConfOK at hm
      simp only [corrConfOK, binaryMutatedMain]
      exact hm)
    (fun t col bv main hm => by
      unfold corrConfOK at hm
      simp only [corrConfOK, binarySupEntry]
      refine ⟨⟨by linarith [hm.1.2], by linarith [hm.1.1]⟩, hm.2⟩)
    (prepOf env md cd mc cc).columnTypes
    (rawImportances env md cd mc cc) []
    (rawImportances_corrConfOK env md cd mc cc)
    (by intro f hf; simp at hf)
  have hP : corrConfOK fi := by
    rcases h2 with h3 | h3
    · exact hprop.1 fi h3
    · exact hprop.2 fi h3
  exact hP

/- ===================================================================
   C7: the 20-category one-hot cap
   =================================================================== -/

theorem map_const_of_forall {α β : Type} (f : α → β) (c : β) :
    ∀ l : List α, (∀ x ∈ l, f x = c) → l.map f = List.replicate l.length c := by
  intro l
  induction l with
  | nil => simp
  | cons a t ih =>
    intro h
    rw [List.map_cons, List.length_cons, List.replicate_succ,
      h a (List.mem_cons_self a t), ih (fun x hx => h x (List.mem_cons_of_mem a hx))]

/-- C7: a categorical column with more than 20 distinct nonempty values
    contributes exactly the first 20 first-seen values as features named
    `col::value` — `preprocessData`'s names and matrix are built from
    these per-column pieces — and a record whose trimmed value is not
    among those 20 (unseen, empty, or beyond the cap) encodes to the
    all-zero one-hot block for the column. -/
theorem onehot_cap_twenty (env : JSEnv) (data : List Rec) (cols : List String)
    (col : String)
    (hcat : detectColumnType env col (colValues data col) = .categorical)
    (hbig : 20 < (firstSeen (colValues data col)).length) :
    colFeatureNames env data col =
      ((firstSeen (colValues data col)).take 20).map (fun v => col ++ "::" ++ v) ∧
    (colFeatureNames env data col).length = 20 ∧
    (preprocessData env data cols).featureNames =
      (cols.map (colFeatureNames env data)).flatten ∧
    (preprocessData env data cols).matrix =
      data.map (fun row => (cols.map (fun c => colBlock env data c row)).flatten) ∧
    (∀ row : Rec, jsTrim (getField row col) ∉ (firstSeen (colValues data col)).take 20 →
      colBlock env data col row = List.replicate 20 0) := by
  have hnotnum : ¬ (isNumericLikeType ColumnType.categorical = true) := by decide
  have hnotbin : ¬ (ColumnType.categorical = ColumnType.binary_gender ∨
      ColumnType.categorical = ColumnType.binary_parental) := by decide
  have hnames : colFeatureNames env data col =
      (categoricalCapped data col).map (fun v => col ++ "::" ++ v) := by
    unfold colFeatureNames
    rw [hcat, if_neg hnotnum, if_neg hnotbin]
  have hlen20 : (categoricalCapped data col).length = 20 := by
    unfold categoricalCapped
    rw [List.length_take]
    omega
  refine ⟨by rw [hnames]; rfl, by rw [hnames, List.length_map]; exact hlen20, rfl, rfl, ?_⟩
  intro row hrow
  unfold colBlock
  rw [hcat, if_neg (by
    intro hcontra
    rcases hcontra with h | h
    · exact hnotnum h
    · exact hnotbin h)]
  rw [map_const_of_forall _ _ _
    (fun cat hc => if_neg (fun h => hrow (by rw [h]; exact hc))), hlen20]

/-- 21 distinct categorical values for the cap witness. -/
def capWitnessData : List Rec :=
  ["a01", "a02", "a03", "a04", "a05", "a06", "a07", "a08", "a09", "a10",
   "a11", "a12", "a13", "a14", "a15", "a16", "a17", "a18", "a19", "a20",
   "a21"].map (fun v => [("city", v)])

theorem onehot_cap_twenty_witness :
    colFeatureNames env0 capWitnessData "city" =
      ((firstSeen (colValues capWitnessData "city")).take 20).map
        (fun v => "city" ++ "::" ++ v) ∧
    (colFeatureNames env0 capWitnessData "city").length = 20 ∧
    (preprocessData env0 capWitnessData ["city"]).featureNames =
      (["city"].map (colFeatureNames env0 capWitnessData)).flatten ∧
    (preprocessData env0 capWitnessData ["city"]).matrix =
      capWitnessData.map (fun row =>
        (["city"].map (fun c => colBlock env0 capWitnessData c row)).flatten) ∧
    (∀ row : Rec,
      jsTrim (getField row "city") ∉ (firstSeen (colValues capWitnessData "city")).take 20 →
      colBlock env0 capWitnessData "city" row = List.replicate 20 0) :=
  onehot_cap_twenty env0 capWitnessData ["city"] "city" (by decide) (by decide)

/- ===================================================================
   C4: target-ZIP addresses
   =================================================================== -/

/-- Modelled from the claim wording of C4: the address *contains* (at
    any position) a word-bounded five-digit ZIP belonging to the target
    set — as opposed to what the code tests, which is only the *first*
    five-digit match. -/
def containsZipAux : Option Char → List Char → Bool
  | _, [] => false
  | prev, h :: t =>
    (zipMatchAt prev (h :: t) && COLUMBIA_ZIPS.contains (String.mk ((h :: t).take 5))) ||
      containsZipAux (some h) t

/-- An address contains an occurrence of a target ZIP. -/
def containsTargetZip (address : String) : Bool := containsZipAux none address.data

theorem extractZipAux_digit (z : String) :
    ∀ (l : List Char) (prev : Option Char), extractZipAux prev l = some z →
      ∃ c ∈ l, c.isDigit = true := by
  intro l
  induction l with
  | nil => intro prev h; simp [extractZipAux] at h
  | cons a t ih =>
    intro prev h
    unfold extractZipAux at h
    by_cases hm : zipMatchAt prev (a :: t) = true
    · unfold zipMatchAt at hm
      simp only [Bool.and_eq_true] at hm
      have hd : ((a :: t).take 5).all Char.isDigit = true := hm.1.2
      have hlen : ((a :: t).take 5).length = 5 := by
        have := hm.1.1.2
        simpa using this
      have ha : a ∈ (a :: t).take 5 := by
        have : (a :: t).take 5 = a :: t.take 4 := rfl
        rw [this]
        exact List.mem_cons_self a _
      exact ⟨a, List.mem_cons_self a t, by
        rw [List.all_eq_true] at hd
        exact hd a ha⟩
    · rw [if_neg hm] at h
      obtain ⟨c, hc, hcd⟩ := ih (some a) h
      exact ⟨c, List.mem_cons_of_mem a hc, hcd⟩

theorem mem_dropWhile_of_not {α : Type} (p : α → Bool) (c : α) :
    ∀ l : List α, c ∈ l → p c = false → c ∈ l.dropWhile p := by
  intro l
  induction l with
  | nil => intro h; simp at h
  | cons a t ih =>
    intro hmem hp
    rw [List.dropWhile_cons]
    by_cases ha : p a = true
    · rw [if_pos ha]
      rcases List.mem_cons.mp hmem with h1 | h1
      · subst h1; rw [hp] at ha; simp at ha
      · exact ih h1 hp
    · rw [if_neg ha]
      exact hmem

theorem trimData_ne_nil_of_mem (l : List Char) (c : Char) (hc : c ∈ l)
    (hw : c.isWhitespace = false) : trimData l ≠ [] := by
  unfold trimData
  have h1 : c ∈ l.dropWhile Char.isWhitespace := mem_dropWhile_of_not _ c l hc hw
  have h2 : c ∈ (l.dropWhile Char.isWhitespace).reverse := List.mem_reverse.mpr h1
  have h3 : c ∈ (l.dropWhile Char.isWhitespace).reverse.dropWhile Char.isWhitespace :=
    mem_dropWhile_of_not _ c _ h2 hw
  intro hcontra
  rw [List.reverse_eq_nil_iff] at hcontra
  rw [hcontra] at h3
  simp at h3

theorem digit_not_ws (c : Char) (h : c.isDigit = true) : c.isWhitespace = false := by
  by_cases h1 : c = ' '
  · subst h1; exact absurd h (by decide)
  by_cases h2 : c = '\t'
  · subst h2; exact absurd h (by decide)
  by_cases h3 : c = '\r'
  · subst h3; exact absurd h (by decide)
  by_cases h4 : c = '\n'
  · subst h4; exact absurd h (by decide)
  simp [Char.isWhitespace, h1, h2, h3, h4]

/-- C4 (amended): any address whose *extracted* ZIP — the first
    word-bounded five-digit match, as `extractZip` finds it — is one of
    the target ZIPs classifies as Resident with distance 0 and
    confidence "high". -/
theorem extracted_target_zip_resident (address z : String)
    (hz : extractZip address = some z) (hmem : z ∈ COLUMBIA_ZIPS) :
    analyzeColumbia address =
      { isResident := true, residencyStatus := "Resident", distanceFromBorder := some 0,
        confidence := "high", geocoded := true } := by
  unfold analyzeColumbia
  have hne : ¬(address = "" ∨ jsTrim address = "") := by
    obtain ⟨c, hcmem, hcd⟩ := extractZipAux_digit z address.data none hz
    intro hcontra
    have htr : trimData address.data ≠ [] :=
      trimData_ne_nil_of_mem _ c hcmem (digit_not_ws c hcd)
    rcases hcontra with h | h
    · rw [h] at hcmem; simp at hcmem
    · apply htr
      have := congrArg String.data h
      simpa [jsTrim] using this
  rw [if_neg hne]
  dsimp only
  rw [show extractZip address = some z from hz]
  have hcontains : COLUMBIA_ZIPS.contains z = true := by
    simpa using hmem
  dsimp only
  rw [hcontains, if_pos rfl]

theorem extracted_target_zip_resident_witness :
    analyzeColumbia "123 Main St, Columbia, MD 21044" =
      { isResident := true, residencyStatus := "Resident", distanceFromBorder := some 0,
        confidence := "high", geocoded := true } :=
  extracted_target_zip_resident "123 Main St, Columbia, MD 21044" "21044"
    (by decide) (by decide)

/-- C4 (counterexample): the address `"12345 Somewhere Rd, 21044"`
    contains the target ZIP 21044, but the regex captures the leading
    street number 12345 as its first five-digit match, so the address
    does not classify as Resident — it falls through every branch to
    "Unknown". -/
theorem contained_target_zip_not_sufficient :
    containsTargetZip "12345 Somewhere Rd, 21044" = true ∧
    (analyzeColumbia "12345 Somewhere Rd, 21044").residencyStatus = "Unknown" ∧
    analyzeColumbia "12345 Somewhere Rd, 21044" ≠
      { isResident := true, residencyStatus := "Resident", distanceFromBorder := some 0,
        confidence := "high", geocoded := true } := by
  have hcity : extractCity "12345 Somewhere Rd, 21044" = none := by decide
  have hzipco : (lookupCoord ZIP_COORDS "12345").isNone = true := by decide
  have hgeo : geocodeAddress "12345 Somewhere Rd, 21044" = none := by
    unfold geocodeAddress
    rw [show extractZip "12345 Somewhere Rd, 21044" = some "12345" from by decide]
    dsimp only
    rw [Option.isNone_iff_eq_none.mp hzipco]
    rw [hcity]
    rw [if_neg (by decide)]
  have heval : analyzeColumbia "12345 Somewhere Rd, 21044" =
      { isResident := false, residencyStatus := "Unknown", distanceFromBorder := none,
        confidence := "low", geocoded := false } := by
    unfold analyzeColumbia
    rw [if_neg (by decide)]
    dsimp only
    rw [show extractZip "12345 Somewhere Rd, 21044" = some "12345" from by decide]
    dsimp only
    rw [show COLUMBIA_ZIPS.contains "12345" = false from by decide]
    rw [if_neg (by simp)]
    rw [if_neg (by decide)]
    rw [hgeo]
    rw [if_neg (by decide)]
  refine ⟨by decide, by rw [heval], ?_⟩
  rw [heval]
  intro hcontra
  have := congrArg ColumbiaAnalysis.isResident hcontra
  simp at this

/- ===================================================================
   C5, part 1: a fully evaluated degenerate run.  Two identical
   datasets with a single binary gender column make the training
   stationary at zero weights, so the binary pair's importance is 0 and
   the final filter drops both complementary entries.
   =================================================================== -/

/-- The two-record dataset of the degenerate run. -/
def degenData : List Rec := [[("gender", "m")], [("gender", "f")]]

theorem degen_encode_m : encodeValue env0 "m" (some .binary_gender) = 1 := by
  unfold encodeValue env0
  rw [if_neg (by decide), if_neg (by decide), if_neg (by decide)]
  dsimp only
  rw [if_neg (by decide), if_neg (by decide), if_pos (by decide)]

theorem degen_encode_f : encodeValue env0 "f" (some .binary_gender) = 0 := by
  unfold encodeValue env0
  rw [if_neg (by decide), if_neg (by decide), if_neg (by decide)]
  dsimp only
  rw [if_neg (by decide), if_neg (by decide), if_neg (by decide), if_pos (by decide)]

theorem degen_detect :
    detectColumnType env0 "gender" (colValues (allRecords degenData degenData) "gender") =
      .binary_gender := by decide

theorem degen_featureNames :
    (prepOf env0 degenData degenData ["gender"] ["gender"]).featureNames = ["gender"] := by
  decide

theorem degen_columnTypes :
    (prepOf env0 degenData degenData ["gender"] ["gender"]).columnTypes =
      [("gender", .binary_gender)] := by decide

theorem degen_colBlock_row (row : Rec) :
    colBlock env0 (allRecords degenData degenData) "gender" row =
      [encodeValue env0 (getField row "gender") (some .binary_gender)] := by
  unfold colBlock
  rw [degen_detect]
  dsimp only
  rw [if_pos (by decide)]

theorem degen_matrix :
    (prepOf env0 degenData degenData ["gender"] ["gender"]).matrix =
      [[1], [0], [1], [0]] := by
  unfold prepOf preprocessData
  dsimp only
  rw [show commonCols ["gender"] ["gender"] = ["gender"] from by decide]
  show (allRecords degenData degenData).map
      (fun row => ([colBlock env0 (allRecords degenData degenData) "gender" row]).flatten) = _
  simp only [degen_colBlock_row, List.flatten, List.append_nil]
  show [[encodeValue env0 (getField [("gender", "m")] "gender") (some .binary_gender)],
        [encodeValue env0 (getField [("gender", "f")] "gender") (some .binary_gender)],
        [encodeValue env0 (getField [("gender", "m")] "gender") (some .binary_gender)],
        [encodeValue env0 (getField [("gender", "f")] "gender") (some .binary_gender)]] = _
  rw [show getField [("gender", "m")] "gender" = "m" from by decide,
      show getField [("gender", "f")] "gender" = "f" from by decide,
      degen_encode_m, degen_encode_f]

theorem degen_normalized :
    normalizedOf env0 degenData degenData ["gender"] ["gender"] = [[1], [0], [1], [0]] := by
  unfold normalizedOf
  rw [degen_matrix]
  unfold normalizeMatrix colMins colMaxs
  norm_num

theorem degen_labels : labelsOf degenData degenData = [1, 1, 0, 0] := by
  unfold labelsOf degenData
  norm_num [List.replicate]

theorem degen_step_fixed :
    trainStep (1 / 2) (1 / 100) [[1], [0], [1], [0]] [1, 1, 0, 0] ([0], 0) = ([0], 0) := by
  unfold trainStep gradAccum dotZ
  norm_num [List.zip_cons_cons, List.foldl, List.zipWith, List.replicate,
    List.sum_cons, List.sum_nil, sigmoid_zero]

theorem degen_trained :
    trainedOf env0 degenData degenData ["gender"] ["gender"] = ([0], 0) := by
  unfold trainedOf trainLogisticRegression
  rw [degen_normalized, degen_labels]
  have hstart : (List.replicate (((([[(1 : ℝ)], [0], [1], [0]] : List (List ℝ)).head?.map
      List.length).getD 0)) (0 : ℝ), (0 : ℝ)) = (([0], 0) : List ℝ × ℝ) := by
    norm_num [List.replicate]
  rw [hstart]
  exact Function.iterate_fixed degen_step_fixed 2000

theorem degen_maxabs : maxAbsWeightOf [0] = 1 / 1000 := by
  unfold maxAbsWeightOf
  norm_num

theorem degen_corr : calculateCorrelation [1, 0, 1, 0] [1, 1, 0, 0] = 0 := by
  unfold calculateCorrelation
  rw [if_neg (by norm_num)]
  dsimp only
  norm_num [Finset.sum_range_succ, List.getD_cons_zero, List.getD_cons_succ,
    List.sum_cons, List.sum_nil, Real.sqrt_one]

theorem degen_getBinaryValues :
    getBinaryValues (allRecords degenData degenData) "gender" = some ("m", "f") := by
  decide

/-- The single pre-postprocessing importance entry of the degenerate run. -/
noncomputable def degenEntry : FeatureImportance where
  field := "gender"
  importance := 0
  correlation := 0
  confidence := 1
  direction := .positive
  explanation := generateExplanation env0 "gender" .binary_gender .positive 0 1
    (allRecords degenData degenData)

/-- The single pre-postprocessing importance entry of the degenerate
    run: importance 0 because training is stationary at zero weights. -/
theorem degen_raw :
    rawImportances env0 degenData degenData ["gender"] ["gender"] = [degenEntry] := by
  unfold degenEntry
  unfold rawImportances
  dsimp only
  simp only [degen_featureNames, degen_normalized, degen_labels, degen_trained,
    degen_columnTypes]
  rw [show ([("gender" : String)].enum) = [(0, "gender")] from by decide]
  rw [List.map_cons, List.map_nil]
  dsimp only
  simp only [degen_maxabs]
  rw [show degenData.length = 2 from rfl]
  have hfc : ([[(1 : ℝ)], [0], [1], [0]] : List (List ℝ)).map (fun row => row.getD 0 0) =
      [1, 0, 1, 0] := by
    norm_num [List.getD_cons_zero]
  have htake : (([[(1 : ℝ)], [0], [1], [0]] : List (List ℝ)).take 2) = [[1], [0]] := rfl
  have hdrop : (([[(1 : ℝ)], [0], [1], [0]] : List (List ℝ)).drop 2) = [[1], [0]] := rfl
  rw [hfc, htake, hdrop, degen_corr]
  have hmv : ([[(1 : ℝ)], [0]] : List (List ℝ)).map (fun row => row.getD 0 0) = [1, 0] := by
    norm_num [List.getD_cons_zero]
  rw [hmv]
  have hmean : ([(1 : ℝ), 0].sum / ((max ([(1 : ℝ), 0].length) 1 : ℕ) : ℝ)) = 1 / 2 := by
    norm_num
  rw [hmean]
  have hdiff : |(1 : ℝ) / 2 - 1 / 2| = 0 := by norm_num
  rw [hdiff]
  have hzero : (0 : ℝ) * 100 *
      Real.sqrt (((min ([(1 : ℝ), 0].length) ([(1 : ℝ), 0].length) : ℕ) : ℝ) / 10) = 0 := by
    rw [zero_mul, zero_mul]
  rw [hzero, round_zero]
  have hw : |([(0 : ℝ)].getD 0 0)| / (1 / 1000) * 100 = 0 := by
    norm_num [List.getD_cons_zero]
  rw [hw, round_zero]
  have hdir : (0 : ℝ) ≤ [(0 : ℝ)].getD 0 0 := by
    norm_num [List.getD_cons_zero]
  rw [if_pos hdir]
  have hcol : ((Option.map Prod.snd (List.find? (fun p =>
      decide (p.1 = if strContains "gender" "::" = true then splitHead "gender" "::"
        else "gender"))
      ([("gender", ColumnType.binary_gender)] : List (String × ColumnType)))).getD
      ColumnType.numeric) = ColumnType.binary_gender := by decide
  rw [hcol]
  have hconf2 : (1 : ℤ) ⊔ 99 ⊓ 0 = 1 := by decide
  rw [hconf2]
  simp only [List.cons.injEq, FeatureImportance.mk.injEq]
  norm_num

theorem if_one_eq_one (a b : String) : (if (1 : ℝ) = 1 then a else b) = a :=
  if_pos rfl

theorem degen_mut_field :
    (binaryMutatedMain env0 .binary_gender "gender" ("m", "f") degenEntry).field =
      "gender (m)" := by
  unfold binaryMutatedMain
  dsimp only
  rw [degen_encode_m]
  simp only [if_one_eq_one]
  decide

theorem degen_sup_field :
    (binarySupEntry env0 .binary_gender "gender" ("m", "f") degenEntry).field =
      "gender (f)" := by
  unfold binarySupEntry
  dsimp only
  rw [degen_encode_m]
  simp only [if_one_eq_one]
  decide

theorem degen_mut_imp :
    (binaryMutatedMain env0 .binary_gender "gender" ("m", "f") degenEntry).importance = 0 :=
  rfl

theorem degen_sup_imp :
    (binarySupEntry env0 .binary_gender "gender" ("m", "f") degenEntry).importance = 0 :=
  rfl

theorem degen_post :
    postOf env0 degenData degenData ["gender"] ["gender"] =
      ([binaryMutatedMain env0 .binary_gender "gender" ("m", "f") degenEntry],
       [binarySupEntry env0 .binary_gender "gender" ("m", "f") degenEntry]) := by
  unfold postOf
  rw [degen_columnTypes, degen_raw]
  unfold applyBinaryPost
  rw [if_pos (Or.inl rfl)]
  rw [List.find?_cons_of_pos _ (by simp [degenEntry])]
  rw [degen_getBinaryValues]
  dsimp only
  unfold mutateFirst
  rw [if_pos (show degenEntry.field = "gender" from rfl)]
  unfold applyBinaryPost
  rw [List.nil_append]

theorem degen_supMatches :
    supMatches (binaryMutatedMain env0 .binary_gender "gender" ("m", "f") degenEntry)
      (binarySupEntry env0 .binary_gender "gender" ("m", "f") degenEntry) = true := by
  unfold supMatches
  rw [degen_mut_field, degen_sup_field]
  decide

theorem degen_built :
    builtOf env0 degenData degenData ["gender"] ["gender"] =
      [binaryMutatedMain env0 .binary_gender "gender" ("m", "f") degenEntry,
       binarySupEntry env0 .binary_gender "gender" ("m", "f") degenEntry] := by
  unfold builtOf
  rw [degen_post]
  dsimp only
  unfold finalBuild
  rw [List.find?_cons_of_pos _ degen_supMatches]
  dsimp only
  unfold eraseFirstP
  rw [if_pos degen_supMatches]
  unfold finalBuild
  rfl

theorem sortDescBy_singleton {α β : Type} [LinearOrder β] (key : α → β) (x : α) :
    sortDescBy key [x] = [x] := rfl

theorem degen_final :
    finalImportancesOf env0 degenData degenData ["gender"] ["gender"] = [] := by
  unfold finalImportancesOf
  rw [degen_built]
  unfold groupsOf
  rw [List.map_cons, List.map_cons, List.map_nil]
  rw [degen_mut_field, degen_sup_field]
  rw [show baseOf "gender (m)" = "gender" from by decide,
      show baseOf "gender (f)" = "gender" from by decide]
  rw [show firstSeen ["gender", "gender"] = ["gender"] from by decide]
  rw [List.map_cons, List.map_nil]
  have hfilter : List.filter (fun fi => baseOf fi.field == "gender")
      [binaryMutatedMain env0 .binary_gender "gender" ("m", "f") degenEntry,
       binarySupEntry env0 .binary_gender "gender" ("m", "f") degenEntry] =
      [binaryMutatedMain env0 .binary_gender "gender" ("m", "f") degenEntry,
       binarySupEntry env0 .binary_gender "gender" ("m", "f") degenEntry] := by
    rw [List.filter_cons_of_pos (by rw [degen_mut_field]; decide),
        List.filter_cons_of_pos (by rw [degen_sup_field]; decide),
        List.filter_nil]
  rw [hfilter]
  rw [sortDescBy_singleton]
  rw [List.flatten_cons, List.flatten_nil, List.append_nil]
  rw [List.filter_cons_of_neg (by
        rw [show (decide (0 < (binaryMutatedMain env0 .binary_gender "gender" ("m", "f")
          degenEntry).importance)) = false from by rw [degen_mut_imp]; decide]
        decide),
      List.filter_cons_of_neg (by
        rw [show (decide (0 < (binarySupEntry env0 .binary_gender "gender" ("m", "f")
          degenEntry).importance)) = false from by rw [degen_sup_imp]; decide]
        decide),
      List.filter_nil]

/-- C5 (counterexample): in the degenerate run the gender column is a
    binary field with exactly the two observed values "m" and "f", yet
    the final featureImportances list contains no entries at all — the
    pair's shared importance is 0, so the final `importance > 0` filter
    drops both complementary entries, contradicting "contains exactly
    two complementary entries for that field". -/
theorem binary_pair_dropped_when_importance_zero :
    detectColumnType env0 "gender"
      (colValues (allRecords degenData degenData) "gender") = .binary_gender ∧
    getBinaryValues (allRecords degenData degenData) "gender" = some ("m", "f") ∧
    (analyzeAndPredictOk env0 degenData degenData ["gender"] ["gender"]).featureImportances
      = [] :=
  ⟨degen_detect, degen_getBinaryValues, degen_final⟩

/- ===================================================================
   C5, part 2: string facts about the ` (value)` / `::value` display
   name surgery, at the character level.
   =================================================================== -/

theorem isPrefixOf_nil_left (l : List Char) : List.isPrefixOf ([] : List Char) l = true := by
  cases l <;> rfl

theorem isPrefixOf_cons_cons (p h : Char) (q t : List Char) :
    List.isPrefixOf (p :: q) (h :: t) = ((p == h) && List.isPrefixOf q t) := rfl

theorem containsSub_nil_pat (l : List Char) : containsSub l [] = true := by
  cases l <;> rfl

theorem containsSub_cons_cons (h p : Char) (t q : List Char) :
    containsSub (h :: t) (p :: q)
      = ((List.isPrefixOf (p :: q) (h :: t)) || containsSub t (p :: q)) := rfl

theorem containsSub_nil_cons (p : Char) (q : List Char) :
    containsSub [] (p :: q) = false := rfl

theorem takeBefore_cons (p : List Char) (h : Char) (t : List Char) :
    takeBefore p (h :: t)
      = if List.isPrefixOf p (h :: t) then [] else h :: takeBefore p t := rfl

theorem isPrefixOf_self_append (l r : List Char) : List.isPrefixOf l (l ++ r) = true := by
  induction l with
  | nil => rw [List.nil_append]; exact isPrefixOf_nil_left r
  | cons c t ih =>
    rw [List.cons_append, isPrefixOf_cons_cons, ih]
    simp

theorem containsSub_append_pat (a p b : List Char) : containsSub (a ++ (p ++ b)) p = true := by
  induction a with
  | nil =>
    rw [List.nil_append]
    cases p with
    | nil => rw [List.nil_append]; exact containsSub_nil_pat b
    | cons q qs =>
      rw [List.cons_append, containsSub_cons_cons, ← List.cons_append,
        isPrefixOf_self_append]
      simp
  | cons c a ih =>
    cases p with
    | nil => exact containsSub_nil_pat _
    | cons q qs =>
      rw [List.cons_append, containsSub_cons_cons, ih]
      simp

theorem head_mem_of_containsSub (x : Char) (q : List Char) :
    ∀ l : List Char, containsSub l (x :: q) = true → x ∈ l := by
  intro l
  induction l with
  | nil => intro h; rw [containsSub_nil_cons] at h; exact absurd h (by simp)
  | cons c t ih =>
    intro h
    rw [containsSub_cons_cons, Bool.or_eq_true] at h
    rcases h with h | h
    · rw [isPrefixOf_cons_cons, Bool.and_eq_true] at h
      have hx : x = c := by simpa using h.1
      rw [hx]
      exact List.mem_cons_self c t
    · exact List.mem_cons_of_mem c (ih h)

theorem takeBefore_paren_append :
    ∀ (a b : List Char), containsSub a [' ', '('] = false →
      takeBefore [' ', '('] (a ++ ' ' :: '(' :: b) = a := by
  intro a
  induction a with
  | nil =>
    intro b _
    rw [List.nil_append, takeBefore_cons, if_pos]
    rw [show (' ' :: '(' :: b) = [' ', '('] ++ b from rfl]
    exact isPrefixOf_self_append [' ', '('] b
  | cons c a ih =>
    intro b hc
    rw [containsSub_cons_cons, Bool.or_eq_false_iff] at hc
    have hnp : ¬ (List.isPrefixOf [' ', '('] (c :: (a ++ ' ' :: '(' :: b)) = true) := by
      intro hpre
      rw [isPrefixOf_cons_cons, Bool.and_eq_true] at hpre
      have hc2 : ' ' = c := by simpa using hpre.1
      cases a with
      | nil =>
        have h2 := hpre.2
        rw [List.nil_append, isPrefixOf_cons_cons, Bool.and_eq_true] at h2
        have : '(' = ' ' := by simpa using h2.1
        simp at this
      | cons d a2 =>
        have h2 := hpre.2
        rw [List.cons_append, isPrefixOf_cons_cons, Bool.and_eq_true] at h2
        have hd : '(' = d := by simpa using h2.1
        have hfull : List.isPrefixOf [' ', '('] (c :: d :: a2) = true := by
          rw [isPrefixOf_cons_cons, isPrefixOf_cons_cons]
          simp [← hc2, ← hd, isPrefixOf_nil_left]
        rw [hfull] at hc
        exact absurd hc.1 (by simp)
    rw [List.cons_append, takeBefore_cons, if_neg hnp, ih b hc.2]

theorem startsWith_paren_inj :
    ∀ (b c r : List Char), containsSub b [' ', '('] = false →
      containsSub c [' ', '('] = false →
      List.isPrefixOf (b ++ [' ', '(']) (c ++ ' ' :: '(' :: r) = true → b = c := by
  intro b
  induction b with
  | nil =>
    intro c r _ hcc h
    rw [List.nil_append] at h
    cases c with
    | nil => rfl
    | cons d c2 =>
      exfalso
      rw [List.cons_append, isPrefixOf_cons_cons, Bool.and_eq_true] at h
      have hd : ' ' = d := by simpa using h.1
      cases c2 with
      | nil =>
        have h2 := h.2
        rw [List.nil_append, isPrefixOf_cons_cons, Bool.and_eq_true] at h2
        have : '(' = ' ' := by simpa using h2.1
        simp at this
      | cons e c3 =>
        have h2 := h.2
        rw [List.cons_append, isPrefixOf_cons_cons, Bool.and_eq_true] at h2
        have he : '(' = e := by simpa using h2.1
        have hfull : List.isPrefixOf [' ', '('] (d :: e :: c3) = true := by
          rw [isPrefixOf_cons_cons, isPrefixOf_cons_cons]
          simp [← hd, ← he, isPrefixOf_nil_left]
        rw [containsSub_cons_cons, Bool.or_eq_false_iff, hfull] at hcc
        exact absurd hcc.1 (by simp)
  | cons x b2 ih =>
    intro c r hb hcc h
    rw [containsSub_cons_cons, Bool.or_eq_false_iff] at hb
    cases c with
    | nil =>
      exfalso
      rw [List.nil_append, List.cons_append, isPrefixOf_cons_cons, Bool.and_eq_true] at h
      have hx : x = ' ' := by simpa using h.1
      cases b2 with
      | nil =>
        have h2 := h.2
        rw [List.nil_append, isPrefixOf_cons_cons, Bool.and_eq_true] at h2
        have : ' ' = '(' := by simpa using h2.1
        simp at this
      | cons y b3 =>
        have h2 := h.2
        rw [List.cons_append, isPrefixOf_cons_cons, Bool.and_eq_true] at h2
        have hy : y = '(' := by simpa using h2.1
        have hfull : List.isPrefixOf [' ', '('] (x :: y :: b3) = true := by
          rw [isPrefixOf_cons_cons, isPrefixOf_cons_cons]
          simp [hx, hy, isPrefixOf_nil_left]
        rw [hfull] at hb
        exact absurd hb.1 (by simp)
    | cons d c2 =>
      rw [List.cons_append, List.cons_append, isPrefixOf_cons_cons, Bool.and_eq_true] at h
      have hxd : x = d := by simpa using h.1
      rw [containsSub_cons_cons, Bool.or_eq_false_iff] at hcc
      rw [hxd, ih c2 r hb.2 hcc.2 h.2]

theorem takeBefore_colon_append :
    ∀ (c v : List Char), ':' ∉ c →
      takeBefore [':', ':'] (c ++ ':' :: ':' :: v) = c := by
  intro c
  induction c with
  | nil =>
    intro v _
    rw [List.nil_append, takeBefore_cons, if_pos]
    rw [show (':' :: ':' :: v) = [':', ':'] ++ v from rfl]
    exact isPrefixOf_self_append [':', ':'] v
  | cons d c2 ih =>
    intro v hd
    have hnp : ¬ (List.isPrefixOf [':', ':'] (d :: (c2 ++ ':' :: ':' :: v)) = true) := by
      intro hpre
      rw [isPrefixOf_cons_cons, Bool.and_eq_true] at hpre
      have hcd : ':' = d := by simpa using hpre.1
      apply hd
      rw [hcd]
      exact List.mem_cons_self d c2
    rw [List.cons_append, takeBefore_cons, if_neg hnp,
      ih v (fun hm => hd (List.mem_cons_of_mem d hm))]

theorem takeBefore_paren_across_colon :
    ∀ (c v : List Char), containsSub c [' ', '('] = false →
      takeBefore [' ', '('] (c ++ ':' :: ':' :: v)
        = c ++ ':' :: ':' :: takeBefore [' ', '('] v := by
  intro c
  induction c with
  | nil =>
    intro v _
    have h1 : ¬ (List.isPrefixOf [' ', '('] (':' :: ':' :: v) = true) := by
      intro hpre
      rw [isPrefixOf_cons_cons, Bool.and_eq_true] at hpre
      have : ' ' = ':' := by simpa using hpre.1
      simp at this
    have h2 : ¬ (List.isPrefixOf [' ', '('] (':' :: v) = true) := by
      intro hpre
      rw [isPrefixOf_cons_cons, Bool.and_eq_true] at hpre
      have : ' ' = ':' := by simpa using hpre.1
      simp at this
    rw [List.nil_append, List.nil_append, takeBefore_cons, if_neg h1,
      takeBefore_cons, if_neg h2]
  | cons d c2 ih =>
    intro v hc
    rw [containsSub_cons_cons, Bool.or_eq_false_iff] at hc
    have hnp : ¬ (List.isPrefixOf [' ', '('] (d :: (c2 ++ ':' :: ':' :: v)) = true) := by
      intro hpre
      rw [isPrefixOf_cons_cons, Bool.and_eq_true] at hpre
      have hd : ' ' = d := by simpa using hpre.1
      cases c2 with
      | nil =>
        have h2 := hpre.2
        rw [List.nil_append, isPrefixOf_cons_cons, Bool.and_eq_true] at h2
        have : '(' = ':' := by simpa using h2.1
        simp at this
      | cons e c3 =>
        have h2 := hpre.2
        rw [List.cons_append, isPrefixOf_cons_cons, Bool.and_eq_true] at h2
        have he : '(' = e := by simpa using h2.1
        have hfull : List.isPrefixOf [' ', '('] (d :: e :: c3) = true := by
          rw [isPrefixOf_cons_cons, isPrefixOf_cons_cons]
          simp [← hd, ← he, isPrefixOf_nil_left]
        rw [hfull] at hc
        exact absurd hc.1 (by simp)
    rw [List.cons_append, takeBefore_cons, if_neg hnp, ih v hc.2, List.cons_append]

theorem prefix_takeBefore (p : List Char) : ∀ l, takeBefore p l <+: l := by
  intro l
  induction l with
  | nil => exact List.prefix_rfl
  | cons h t ih =>
    rw [takeBefore_cons]
    by_cases hp : List.isPrefixOf p (h :: t) = true
    · rw [if_pos hp]; exact List.nil_prefix
    · rw [if_neg hp]
      exact List.cons_prefix_cons.mpr ⟨rfl, ih⟩

theorem not_containsSub_takeBefore (q : Char) (qs : List Char) :
    ∀ l : List Char, containsSub (takeBefore (q :: qs) l) (q :: qs) = false := by
  intro l
  induction l with
  | nil => exact containsSub_nil_cons q qs
  | cons h t ih =>
    rw [takeBefore_cons]
    by_cases hp : List.isPrefixOf (q :: qs) (h :: t) = true
    · rw [if_pos hp]; exact containsSub_nil_cons q qs
    · rw [if_neg hp, containsSub_cons_cons, ih, Bool.or_false, isPrefixOf_cons_cons]
      cases hqh : (q == h) with
      | false => simp
      | true =>
        rw [Bool.true_and]
        cases hqs : List.isPrefixOf qs (takeBefore (q :: qs) t) with
        | false => rfl
        | true =>
          exfalso
          apply hp
          rw [isPrefixOf_cons_cons, hqh, Bool.true_and, List.isPrefixOf_iff_prefix]
          exact (List.isPrefixOf_iff_prefix.mp hqs).trans (prefix_takeBefore (q :: qs) t)

theorem parenform_ne_colonform :
    ∀ (col c : List Char) (x v : List Char), containsSub col [' ', '('] = false →
      ':' ∉ col → containsSub c [' ', '('] = false →
      col ++ ' ' :: '(' :: x ≠ c ++ ':' :: ':' :: v := by
  intro col
  induction col with
  | nil =>
    intro c x v _ _ hcp h
    rw [List.nil_append] at h
    cases c with
    | nil =>
      rw [List.nil_append] at h
      injection h with h1 _
      simp at h1
    | cons d c2 =>
      rw [List.cons_append] at h
      injection h with h1 h2
      cases c2 with
      | nil =>
        rw [List.nil_append] at h2
        injection h2 with h3 _
        simp at h3
      | cons e c3 =>
        rw [List.cons_append] at h2
        injection h2 with h3 _
        have hfull : List.isPrefixOf [' ', '('] (d :: e :: c3) = true := by
          rw [isPrefixOf_cons_cons, isPrefixOf_cons_cons]
          simp [← h1, ← h3, isPrefixOf_nil_left]
        rw [containsSub_cons_cons, Bool.or_eq_false_iff, hfull] at hcp
        exact absurd hcp.1 (by simp)
  | cons d col2 ih =>
    intro c x v hcol hmem hcp h
    rw [containsSub_cons_cons, Bool.or_eq_false_iff] at hcol
    cases c with
    | nil =>
      rw [List.nil_append, List.cons_append] at h
      injection h with h1 _
      apply hmem
      rw [← h1]
      exact List.mem_cons_self d col2
    | cons e c2 =>
      rw [List.cons_append, List.cons_append] at h
      injection h with h1 h2
      rw [containsSub_cons_cons, Bool.or_eq_false_iff] at hcp
      exact ih c2 x v hcol.2 (fun hm => hmem (List.mem_cons_of_mem d hm)) hcp.2 h2

theorem parenform_inj (col c x y : List Char)
    (hcol : containsSub col [' ', '('] = false) (hc : containsSub c [' ', '('] = false)
    (h : col ++ ' ' :: '(' :: x = c ++ ' ' :: '(' :: y) : col = c ∧ x = y := by
  have hpre : List.isPrefixOf (col ++ [' ', '(']) (c ++ ' ' :: '(' :: y) = true := by
    rw [← h, show col ++ ' ' :: '(' :: x = (col ++ [' ', '(']) ++ x from by
      rw [List.append_assoc]; rfl]
    exact isPrefixOf_self_append _ _
  have hcc := startsWith_paren_inj col c y hcol hc hpre
  refine ⟨hcc, ?_⟩
  rw [hcc] at h
  have h2 := List.append_cancel_left h
  have h3 : '(' :: x = '(' :: y := by injection h2
  injection h3 with _ h4

theorem data_parenform (c m : String) :
    (c ++ " (" ++ m ++ ")").data = c.data ++ ' ' :: '(' :: (m.data ++ [')']) := by
  simp only [String.data_append, List.append_assoc]
  rfl

theorem data_colonform (c v : String) :
    (c ++ "::" ++ v).data = c.data ++ ':' :: ':' :: v.data := by
  simp only [String.data_append, List.append_assoc]
  rfl

theorem data_parenMark (c : String) : (c ++ " (").data = c.data ++ [' ', '('] := by
  rw [String.data_append]

/-- A column-header hygiene predicate: the name contains neither the
    binary display marker ` (` nor a colon. -/
abbrev cleanName (c : String) : Prop :=
  containsSub c.data [' ', '('] = false ∧ ':' ∉ c.data

/-- The display-name shapes a column other than `col` can contribute to
    the importance pipeline: its own name, a categorical `c::value`
    name, or a mutated binary `c (value)` name. -/
def nameForm (cols : List String) (col : String) (nm : String) : Prop :=
  ∃ c, c ∈ cols ∧ c ≠ col ∧ cleanName c ∧
    (nm = c ∨ (∃ v, nm.data = c.data ++ ':' :: ':' :: v) ∨
      (∃ x, nm.data = c.data ++ ' ' :: '(' :: x))

/-- An importance entry belonging to a column other than `col`. -/
def sideEntry (cols : List String) (col : String) (f : FeatureImportance) : Prop :=
  nameForm cols col f.field

/-- A complementary supplement belonging to a column other than `col`. -/
def sideSup (cols : List String) (col : String) (s : FeatureImportance) : Prop :=
  ∃ c x, c ∈ cols ∧ c ≠ col ∧ cleanName c ∧ s.field.data = c.data ++ ' ' :: '(' :: x

theorem clean_no_parenform (c : String) (hc : containsSub c.data [' ', '('] = false)
    (a x : List Char) : c.data ≠ a ++ ' ' :: '(' :: x := by
  intro h
  have h2 : containsSub (a ++ ' ' :: '(' :: x) [' ', '('] = true :=
    containsSub_append_pat a [' ', '('] x
  rw [← h, hc] at h2
  exact absurd h2 (by simp)

theorem clean_no_colonform (c : String) (hc : ':' ∉ c.data) (a v : List Char) :
    c.data ≠ a ++ ':' :: ':' :: v := by
  intro h
  apply hc
  rw [h]
  exact List.mem_append.mpr (Or.inr (List.mem_cons_self ':' (':' :: v)))

theorem sideEntry_field_ne (cols : List String) (col : String) (f : FeatureImportance)
    (h : sideEntry cols col f) (hcol : cleanName col) : f.field ≠ col := by
  rcases h with ⟨c, _, hne, hcn, hforms⟩
  rcases hforms with h1 | ⟨v, h2⟩ | ⟨x, h3⟩
  · rw [h1]; exact hne
  · intro he
    rw [he] at h2
    exact clean_no_colonform col hcol.2 c.data v h2
  · intro he
    rw [he] at h3
    exact clean_no_parenform col hcol.1 c.data x h3

theorem sideEntry_no_paren (cols : List String) (col : String) (f : FeatureImportance)
    (h : sideEntry cols col f) (hcol : cleanName col) :
    ∀ x, f.field.data ≠ col.data ++ ' ' :: '(' :: x := by
  rcases h with ⟨c, _, hne, hcn, hforms⟩
  intro x he
  rcases hforms with h1 | ⟨v, h2⟩ | ⟨y, h3⟩
  · rw [h1] at he
    exact clean_no_parenform c hcn.1 col.data x he
  · rw [h2] at he
    exact parenform_ne_colonform col.data c.data x v hcol.1 hcol.2 hcn.1 he.symm
  · rw [h3] at he
    exact hne (String.ext (parenform_inj c.data col.data y x hcn.1 hcol.1 he).1)

theorem baseOf_paren_data (s c : String) (x : List Char)
    (hc : containsSub c.data [' ', '('] = false)
    (hs : s.data = c.data ++ ' ' :: '(' :: x) : baseOf s = c := by
  unfold baseOf
  have hcont : strContains s " (" = true := by
    show containsSub s.data [' ', '('] = true
    rw [hs]
    exact containsSub_append_pat c.data [' ', '('] x
  rw [if_pos hcont]
  apply String.ext
  show takeBefore [' ', '('] s.data = c.data
  rw [hs]
  exact takeBefore_paren_append c.data x hc

theorem baseOf_clean (c : String) (hc : cleanName c) : baseOf c = c := by
  unfold baseOf
  have h1 : ¬ (strContains c " (" = true) := by
    intro h
    have h2 : containsSub c.data [' ', '('] = true := h
    rw [hc.1] at h2
    exact absurd h2 (by simp)
  have h2 : ¬ (strContains c "::" = true) := by
    intro h
    exact hc.2 (head_mem_of_containsSub ':' [':'] c.data h)
  rw [if_neg h1, if_neg h2]

theorem sideEntry_baseOf_ne (cols : List String) (col : String) (f : FeatureImportance)
    (h : sideEntry cols col f) (hcol : cleanName col) : baseOf f.field ≠ col := by
  rcases h with ⟨c, _, hne, hcn, hforms⟩
  rcases hforms with h1 | ⟨v, h2⟩ | ⟨x, h3⟩
  · rw [h1, baseOf_clean c hcn]; exact hne
  · by_cases hp : strContains f.field " (" = true
    · intro he
      have hbd : (baseOf f.field).data = c.data ++ ':' :: ':' :: takeBefore [' ', '('] v := by
        unfold baseOf
        rw [if_pos hp]
        show takeBefore [' ', '('] f.field.data = _
        rw [h2]
        exact takeBefore_paren_across_colon c.data v hcn.1
      rw [he] at hbd
      exact clean_no_colonform col hcol.2 c.data _ hbd
    · have hcc : strContains f.field "::" = true := by
        show containsSub f.field.data [':', ':'] = true
        rw [h2]
        exact containsSub_append_pat c.data [':', ':'] v
      have hb : baseOf f.field = c := by
        unfold baseOf
        rw [if_neg hp, if_pos hcc]
        apply String.ext
        show takeBefore [':', ':'] f.field.data = c.data
        rw [h2]
        exact takeBefore_colon_append c.data v hcn.2
      rw [hb]; exact hne
  · rw [baseOf_paren_data f.field c x hcn.1 h3]; exact hne

theorem sideSup_baseOf_ne (cols : List String) (col : String) (s : FeatureImportance)
    (hs : sideSup cols col s) : baseOf s.field ≠ col := by
  rcases hs with ⟨c, x, _, hne, hcn, hsd⟩
  rw [baseOf_paren_data s.field c x hcn.1 hsd]
  exact hne

/-- The base column `supMatches` computes from an entry's field. -/
def supBaseOf (f : FeatureImportance) : String :=
  if strContains f.field " (" then splitHead f.field " (" else f.field

theorem supMatches_eq (fi s : FeatureImportance) :
    supMatches fi s
      = (strStartsWith s.field (supBaseOf fi ++ " (") && !(s.field == fi.field)) := rfl

theorem supBaseOf_paren_clean (f : FeatureImportance) :
    containsSub (supBaseOf f).data [' ', '('] = false := by
  unfold supBaseOf
  by_cases hp : strContains f.field " (" = true
  · rw [if_pos hp]
    exact not_containsSub_takeBefore ' ' ['('] f.field.data
  · rw [if_neg hp]
    cases hb : strContains f.field " (" with
    | false => exact hb
    | true => exact absurd hb hp

theorem supBaseOf_paren_data (f : FeatureImportance) (c : String) (x : List Char)
    (hc : containsSub c.data [' ', '('] = false)
    (hs : f.field.data = c.data ++ ' ' :: '(' :: x) : supBaseOf f = c := by
  unfold supBaseOf
  have hcont : strContains f.field " (" = true := by
    show containsSub f.field.data [' ', '('] = true
    rw [hs]
    exact containsSub_append_pat c.data [' ', '('] x
  rw [if_pos hcont]
  apply String.ext
  show takeBefore [' ', '('] f.field.data = c.data
  rw [hs]
  exact takeBefore_paren_append c.data x hc

theorem sideEntry_supBase_ne (cols : List String) (col : String) (f : FeatureImportance)
    (h : sideEntry cols col f) (hcol : cleanName col) : supBaseOf f ≠ col := by
  rcases h with ⟨c, _, hne, hcn, hforms⟩
  rcases hforms with h1 | ⟨v, h2⟩ | ⟨x, h3⟩
  · have hb : supBaseOf f = c := by
      unfold supBaseOf
      have hp : ¬ (strContains f.field " (" = true) := by
        intro hp2
        have h4 : containsSub c.data [' ', '('] = true := by rw [← h1]; exact hp2
        rw [hcn.1] at h4
        exact absurd h4 (by simp)
      rw [if_neg hp, h1]
    rw [hb]; exact hne
  · by_cases hp : strContains f.field " (" = true
    · intro he
      have hbd : (supBaseOf f).data = c.data ++ ':' :: ':' :: takeBefore [' ', '('] v := by
        unfold supBaseOf
        rw [if_pos hp]
        show takeBefore [' ', '('] f.field.data = _
        rw [h2]
        exact takeBefore_paren_across_colon c.data v hcn.1
      rw [he] at hbd
      exact clean_no_colonform col hcol.2 c.data _ hbd
    · intro he
      have hbd : (supBaseOf f).data = c.data ++ ':' :: ':' :: v := by
        unfold supBaseOf
        rw [if_neg hp]
        exact h2
      rw [he] at hbd
      exact clean_no_colonform col hcol.2 c.data v hbd
  · rw [supBaseOf_paren_data f c x hcn.1 h3]; exact hne

theorem not_supMatches_paren (f s : FeatureImportance) (col : String)
    (hcol : cleanName col) (hbase : supBaseOf f ≠ col)
    (x : List Char) (hs : s.field.data = col.data ++ ' ' :: '(' :: x) :
    supMatches f s = false := by
  rw [supMatches_eq]
  cases hsw : strStartsWith s.field (supBaseOf f ++ " (") with
  | false => simp
  | true =>
    exfalso
    apply hbase
    apply String.ext
    apply startsWith_paren_inj (supBaseOf f).data col.data x (supBaseOf_paren_clean f) hcol.1
    have hpre : List.isPrefixOf (supBaseOf f ++ " (").data s.field.data = true := hsw
    rw [data_parenMark, hs] at hpre
    exact hpre

theorem sideEntry_not_supMatches (cols : List String) (col : String)
    (f s : FeatureImportance) (h : sideEntry cols col f) (hcol : cleanName col)
    (x : List Char) (hs : s.field.data = col.data ++ ' ' :: '(' :: x) :
    supMatches f s = false :=
  not_supMatches_paren f s col hcol (sideEntry_supBase_ne cols col f h hcol) x hs

theorem main_not_supMatches_side (cols : List String) (col : String)
    (e s : FeatureImportance) (hm : ∃ m, e.field = col ++ " (" ++ m ++ ")")
    (hcol : cleanName col) (hs : sideSup cols col s) : supMatches e s = false := by
  rcases hm with ⟨m, hm⟩
  rcases hs with ⟨c, x, _, hne, hcn, hsd⟩
  have hbase : supBaseOf e = col := by
    apply supBaseOf_paren_data e col (m.data ++ [')']) hcol.1
    rw [hm]
    exact data_parenform col m
  rw [supMatches_eq]
  cases hsw : strStartsWith s.field (supBaseOf e ++ " (") with
  | false => simp
  | true =>
    exfalso
    apply hne
    have hpre : List.isPrefixOf (supBaseOf e ++ " (").data s.field.data = true := hsw
    rw [data_parenMark, hsd, hbase] at hpre
    exact (String.ext (startsWith_paren_inj col.data c.data x hcol.1 hcn.1 hpre)).symm

theorem parenform_not_sideSup (cols : List String) (col : String) (e : FeatureImportance)
    (hm : ∃ m, e.field = col ++ " (" ++ m ++ ")") (hcol : cleanName col)
    (hs : sideSup cols col e) : False := by
  rcases hm with ⟨m, hm⟩
  rcases hs with ⟨c, x, _, hne, hcn, hsd⟩
  rw [hm, data_parenform] at hsd
  exact hne (String.ext (parenform_inj col.data c.data _ x hcol.1 hcn.1 hsd).1).symm

/-- The `moreLikely` value of a binary column step. -/
noncomputable def binMoreLikely (env : JSEnv) (t : ColumnType) (bv : String × String)
    (E : FeatureImportance) : String :=
  if E.direction = .positive then (if encodeValue env bv.1 (some t) = 1 then bv.1 else bv.2)
  else (if encodeValue env bv.1 (some t) = 1 then bv.2 else bv.1)

/-- The `lessLikely` value of a binary column step. -/
noncomputable def binLessLikely (env : JSEnv) (t : ColumnType) (bv : String × String)
    (E : FeatureImportance) : String :=
  if E.direction = .positive then (if encodeValue env bv.1 (some t) = 1 then bv.2 else bv.1)
  else (if encodeValue env bv.1 (some t) = 1 then bv.1 else bv.2)

theorem binaryMutatedMain_field (env : JSEnv) (t : ColumnType) (col : String)
    (bv : String × String) (E : FeatureImportance) :
    (binaryMutatedMain env t col bv E).field
      = col ++ " (" ++ binMoreLikely env t bv E ++ ")" := rfl

theorem binarySupEntry_field (env : JSEnv) (t : ColumnType) (col : String)
    (bv : String × String) (E : FeatureImportance) :
    (binarySupEntry env t col bv E).field
      = col ++ " (" ++ binLessLikely env t bv E ++ ")" := rfl

theorem binMore_ne_binLess (env : JSEnv) (t : ColumnType) (bv : String × String)
    (E : FeatureImportance) (hne : bv.1 ≠ bv.2) :
    binMoreLikely env t bv E ≠ binLessLikely env t bv E := by
  unfold binMoreLikely binLessLikely
  by_cases hd : E.direction = Direction.positive
  · rw [if_pos hd, if_pos hd]
    by_cases h1 : encodeValue env bv.1 (some t) = 1
    · rw [if_pos h1, if_pos h1]; exact hne
    · rw [if_neg h1, if_neg h1]; exact hne.symm
  · rw [if_neg hd, if_neg hd]
    by_cases h1 : encodeValue env bv.1 (some t) = 1
    · rw [if_pos h1, if_pos h1]; exact hne.symm
    · rw [if_neg h1, if_neg h1]; exact hne

theorem supMatches_main_sup (env : JSEnv) (t : ColumnType) (col : String)
    (bv : String × String) (E : FeatureImportance) (hcol : cleanName col)
    (hne : bv.1 ≠ bv.2) :
    supMatches (binaryMutatedMain env t col bv E) (binarySupEntry env t col bv E) = true := by
  rw [supMatches_eq]
  have hb : supBaseOf (binaryMutatedMain env t col bv E) = col := by
    apply supBaseOf_paren_data _ col ((binMoreLikely env t bv E).data ++ [')']) hcol.1
    rw [binaryMutatedMain_field]
    exact data_parenform col _
  rw [hb]
  have h1 : strStartsWith (binarySupEntry env t col bv E).field (col ++ " (") = true := by
    show List.isPrefixOf (col ++ " (").data (binarySupEntry env t col bv E).field.data = true
    rw [data_parenMark, binarySupEntry_field, data_parenform]
    rw [show col.data ++ ' ' :: '(' :: ((binLessLikely env t bv E).data ++ [')'])
        = (col.data ++ [' ', '(']) ++ ((binLessLikely env t bv E).data ++ [')']) from by
      rw [List.append_assoc]
      rfl]
    exact isPrefixOf_self_append _ _
  have h2 : ((binarySupEntry env t col bv E).field
      == (binaryMutatedMain env t col bv E).field) = false := by
    rw [beq_eq_false_iff_ne, binarySupEntry_field, binaryMutatedMain_field]
    intro he
    apply binMore_ne_binLess env t bv E hne
    have hd := congrArg String.data he
    rw [data_parenform, data_parenform] at hd
    have h3 := (parenform_inj col.data col.data _ _ hcol.1 hcol.1 hd).2
    have h4 := List.append_cancel_right h3
    exact (String.ext h4).symm
  rw [h1, h2]
  rfl

theorem insertUnique_nodup (l : List String) (v : String) (h : l.Nodup) :
    (insertUnique l v).Nodup := by
  unfold insertUnique
  by_cases hm : v ∈ l
  · rw [if_pos hm]; exact h
  · rw [if_neg hm]
    rw [show l ++ [v] = l.concat v from (List.concat_eq_append l v).symm]
    exact List.Nodup.concat hm h

theorem firstSeen_nodup_aux (vals : List String) :
    ∀ acc : List String, acc.Nodup → (vals.foldl insertUnique acc).Nodup := by
  induction vals with
  | nil => intro acc h; exact h
  | cons v vs ih =>
    intro acc h
    exact ih (insertUnique acc v) (insertUnique_nodup acc v h)

theorem firstSeen_nodup (vals : List String) : (firstSeen vals).Nodup :=
  firstSeen_nodup_aux vals [] List.nodup_nil

theorem getBinaryValues_ne (data : List Rec) (col : String) (v1 v2 : String)
    (h : getBinaryValues data col = some (v1, v2)) : v1 ≠ v2 := by
  have hnd : (getBinaryValuesList data col).Nodup := firstSeen_nodup _
  unfold getBinaryValues at h
  rcases hl : getBinaryValuesList data col with _ | ⟨a, _ | ⟨b, _ | ⟨c, t⟩⟩⟩
  all_goals rw [hl] at h hnd
  · exact Option.noConfusion (show (none : Option (String × String)) = some (v1, v2) from h)
  · exact Option.noConfusion (show (none : Option (String × String)) = some (v1, v2) from h)
  · have h2 : some (a, b) = some (v1, v2) := h
    have h3 : (a, b) = (v1, v2) := by injection h2
    have ha : a = v1 := congrArg Prod.fst h3
    have hb : b = v2 := congrArg Prod.snd h3
    rw [← ha, ← hb]
    intro hab
    rw [List.nodup_cons] at hnd
    exact hnd.1 (by rw [hab]; exact List.mem_cons_self b [])
  · exact Option.noConfusion (show (none : Option (String × String)) = some (v1, v2) from h)

theorem le_foldl_max (l : List ℝ) : ∀ i : ℝ, i ≤ l.foldl max i := by
  induction l with
  | nil => intro i; exact le_refl i
  | cons x t ih =>
    intro i
    rw [List.foldl_cons]
    exact le_trans (le_max_left i x) (ih (max i x))

theorem maxAbsWeightOf_pos (w : List ℝ) : 0 < maxAbsWeightOf w := by
  unfold maxAbsWeightOf
  have h := le_foldl_max (w.map (fun x => |x|)) (1 / 1000)
  linarith

theorem round_nonneg_of_nonneg (x : ℝ) (h : 0 ≤ x) : 0 ≤ round x := by
  rw [round_eq]
  exact Int.le_floor.mpr (by push_cast; linarith)

theorem rawImportances_nonneg (env : JSEnv) (md cd : List Rec) (mc cc : List String) :
    ∀ f ∈ rawImportances env md cd mc cc, 0 ≤ f.importance := by
  intro f hf
  unfold rawImportances at hf
  dsimp only at hf
  rcases List.mem_map.mp hf with ⟨p, _, hp⟩
  subst hp
  dsimp only
  apply round_nonneg_of_nonneg
  apply mul_nonneg
  · exact div_nonneg (abs_nonneg _) (le_of_lt (maxAbsWeightOf_pos _))
  · norm_num

theorem colFeatureNames_forms (env : JSEnv) (data : List Rec) (c : String) :
    ∀ nm ∈ colFeatureNames env data c,
      nm = c ∨ ∃ v : String, nm.data = c.data ++ ':' :: ':' :: v.data := by
  intro nm hnm
  unfold colFeatureNames at hnm
  dsimp only at hnm
  by_cases h1 : isNumericLikeType (detectColumnType env c (colValues data c)) = true
  · rw [if_pos h1] at hnm
    exact Or.inl (by simpa using hnm)
  · rw [if_neg h1] at hnm
    by_cases h2 : detectColumnType env c (colValues data c) = .binary_gender ∨
        detectColumnType env c (colValues data c) = .binary_parental
    · rw [if_pos h2] at hnm
      exact Or.inl (by simpa using hnm)
    · rw [if_neg h2] at hnm
      rcases List.mem_map.mp hnm with ⟨v, _, hv⟩
      exact Or.inr ⟨v, by rw [← hv]; exact data_colonform c v⟩

theorem colFeatureNames_binary (env : JSEnv) (data : List Rec) (c : String)
    (ht : detectColumnType env c (colValues data c) = .binary_gender ∨
          detectColumnType env c (colValues data c) = .binary_parental) :
    colFeatureNames env data c = [c] := by
  unfold colFeatureNames
  dsimp only
  have h1 : isNumericLikeType (detectColumnType env c (colValues data c)) = false := by
    rcases ht with h | h <;> rw [h] <;> rfl
  rw [h1, if_neg (by simp), if_pos ht]

theorem nameForm_of_side (env : JSEnv) (data : List Rec) (cols : List String)
    (col c : String) (hc : c ∈ cols) (hne : c ≠ col) (hcn : cleanName c) :
    ∀ nm ∈ colFeatureNames env data c, nameForm cols col nm := by
  intro nm hnm
  rcases colFeatureNames_forms env data c nm hnm with h | ⟨v, hv⟩
  · exact ⟨c, hc, hne, hcn, Or.inl h⟩
  · exact ⟨c, hc, hne, hcn, Or.inr (Or.inl ⟨v.data, hv⟩)⟩

theorem featureNames_decomp (env : JSEnv) (md cd : List Rec) (mc cc : List String)
    (col : String) (P Q : List String)
    (hsplit : commonCols mc cc = P ++ col :: Q)
    (hnd : (commonCols mc cc).Nodup)
    (hyg : ∀ c ∈ commonCols mc cc, cleanName c)
    (ht : detectColumnType env col (colValues (allRecords md cd) col) = .binary_gender ∨
          detectColumnType env col (colValues (allRecords md cd) col) = .binary_parental) :
    ∃ F₁ F₂ : List String,
      (prepOf env md cd mc cc).featureNames = F₁ ++ col :: F₂ ∧
      (∀ nm ∈ F₁, nameForm (commonCols mc cc) col nm) ∧
      (∀ nm ∈ F₂, nameForm (commonCols mc cc) col nm) := by
  have hfn : (prepOf env md cd mc cc).featureNames
      = ((commonCols mc cc).map (colFeatureNames env (allRecords md cd))).flatten := rfl
  have hnd' : (P ++ col :: Q).Nodup := by rw [← hsplit]; exact hnd
  rcases List.nodup_append.mp hnd' with ⟨hPnd, hcQnd, hdisj⟩
  have hcolP : col ∉ P := fun hc => hdisj hc (List.mem_cons_self _ _)
  have hcolQ : col ∉ Q := (List.nodup_cons.mp hcQnd).1
  refine ⟨(P.map (colFeatureNames env (allRecords md cd))).flatten,
          (Q.map (colFeatureNames env (allRecords md cd))).flatten, ?_, ?_, ?_⟩
  · rw [hfn, hsplit, List.map_append, List.map_cons, List.flatten_append, List.flatten_cons,
      colFeatureNames_binary env (allRecords md cd) col ht]
    rfl
  · intro nm hnm
    rcases List.mem_flatten.mp hnm with ⟨l, hl, hnml⟩
    rcases List.mem_map.mp hl with ⟨c, hcP, hlc⟩
    have hcc : c ∈ commonCols mc cc := by
      rw [hsplit]; exact List.mem_append.mpr (Or.inl hcP)
    have hcne : c ≠ col := fun he => hcolP (he ▸ hcP)
    exact nameForm_of_side env (allRecords md cd) (commonCols mc cc) col c hcc hcne
      (hyg c hcc) nm (by rw [hlc]; exact hnml)
  · intro nm hnm
    rcases List.mem_flatten.mp hnm with ⟨l, hl, hnml⟩
    rcases List.mem_map.mp hl with ⟨c, hcQ, hlc⟩
    have hcc : c ∈ commonCols mc cc := by
      rw [hsplit]
      exact List.mem_append.mpr (Or.inr (List.mem_cons_of_mem col hcQ))
    have hcne : c ≠ col := fun he => hcolQ (he ▸ hcQ)
    exact nameForm_of_side env (allRecords md cd) (commonCols mc cc) col c hcc hcne
      (hyg c hcc) nm (by rw [hlc]; exact hnml)

theorem map_field_enum_map (mk : ℕ × String → FeatureImportance)
    (hmk : ∀ p, (mk p).field = p.2) (l : List String) :
    ((l.enum.map mk).map (fun f => f.field)) = l := by
  rw [List.map_map]
  have h : ((fun f : FeatureImportance => f.field) ∘ mk) = Prod.snd := by
    funext p; exact hmk p
  rw [h, List.enum_map_snd]

theorem map_field_rawImportances (env : JSEnv) (md cd : List Rec) (mc cc : List String) :
    (rawImportances env md cd mc cc).map (fun f => f.field)
      = (prepOf env md cd mc cc).featureNames := by
  unfold rawImportances
  dsimp only
  exact map_field_enum_map _ (fun p => rfl) _

theorem fields_decomp (L : List FeatureImportance) :
    ∀ (F₁ : List String) (col : String) (F₂ : List String),
      L.map (fun f => f.field) = F₁ ++ col :: F₂ →
      ∃ R₁ E₀ R₂, L = R₁ ++ E₀ :: R₂ ∧ E₀.field = col ∧
        R₁.map (fun f => f.field) = F₁ ∧ R₂.map (fun f => f.field) = F₂ := by
  induction L with
  | nil =>
    intro F₁ col F₂ h
    simp at h
  | cons f L ih =>
    intro F₁ col F₂ h
    rw [List.map_cons] at h
    cases F₁ with
    | nil =>
      rw [List.nil_append] at h
      injection h with h1 h2
      exact ⟨[], f, L, by simp, h1, rfl, h2⟩
    | cons a F₁ =>
      rw [List.cons_append] at h
      injection h with h1 h2
      rcases ih F₁ col F₂ h2 with ⟨R₁, E₀, R₂, hL, hE, hm1, hm2⟩
      exact ⟨f :: R₁, E₀, R₂, by rw [hL, List.cons_append], hE,
        by rw [List.map_cons, hm1, h1], hm2⟩

theorem rawImportances_decomp (env : JSEnv) (md cd : List Rec) (mc cc : List String)
    (col : String) (P Q : List String)
    (hsplit : commonCols mc cc = P ++ col :: Q)
    (hnd : (commonCols mc cc).Nodup)
    (hyg : ∀ c ∈ commonCols mc cc, cleanName c)
    (ht : detectColumnType env col (colValues (allRecords md cd) col) = .binary_gender ∨
          detectColumnType env col (colValues (allRecords md cd) col) = .binary_parental) :
    ∃ R₁ E₀ R₂, rawImportances env md cd mc cc = R₁ ++ E₀ :: R₂ ∧ E₀.field = col ∧
      (∀ f ∈ R₁ ++ R₂, sideEntry (commonCols mc cc) col f) ∧ 0 ≤ E₀.importance := by
  rcases featureNames_decomp env md cd mc cc col P Q hsplit hnd hyg ht with
    ⟨F₁, F₂, hF, hm1, hm2⟩
  have hmap := map_field_rawImportances env md cd mc cc
  rw [hF] at hmap
  rcases fields_decomp _ F₁ col F₂ hmap with ⟨R₁, E₀, R₂, hL, hE, hf1, hf2⟩
  refine ⟨R₁, E₀, R₂, hL, hE, ?_, ?_⟩
  · intro f hf
    rcases List.mem_append.mp hf with hf | hf
    · have hfi : f.field ∈ F₁ := by
        rw [← hf1]; exact List.mem_map_of_mem _ hf
      exact hm1 _ hfi
    · have hfi : f.field ∈ F₂ := by
        rw [← hf2]; exact List.mem_map_of_mem _ hf
      exact hm2 _ hfi
  · apply rawImportances_nonneg env md cd mc cc
    rw [hL]
    exact List.mem_append.mpr (Or.inr (List.mem_cons_self _ _))

theorem mutateFirst_cons (c' : String) (repl a : FeatureImportance)
    (l : List FeatureImportance) :
    mutateFirst c' repl (a :: l)
      = if a.field = c' then repl :: l else a :: mutateFirst c' repl l := rfl

theorem eraseFirstP_cons {α : Type} (p : α → Bool) (a : α) (l : List α) :
    eraseFirstP p (a :: l) = if p a then l else a :: eraseFirstP p l := rfl

theorem applyBinaryPost_nil (env : JSEnv) (data : List Rec)
    (entries sups : List FeatureImportance) :
    applyBinaryPost env data [] entries sups = (entries, sups) := rfl

theorem applyBinaryPost_cons (env : JSEnv) (data : List Rec) (col : String)
    (t : ColumnType) (rest : List (String × ColumnType))
    (entries sups : List FeatureImportance) :
    applyBinaryPost env data ((col, t) :: rest) entries sups
      = if t = .binary_gender ∨ t = .binary_parental then
          match List.find? (fun f => f.field = col) entries, getBinaryValues data col with
          | some mainEntry, some bv =>
            applyBinaryPost env data rest
              (mutateFirst col (binaryMutatedMain env t col bv mainEntry) entries)
              (sups ++ [binarySupEntry env t col bv mainEntry])
          | _, _ => applyBinaryPost env data rest entries sups
        else applyBinaryPost env data rest entries sups := rfl

theorem mutateFirst_decomp (c' : String) (repl E : FeatureImportance)
    (hE : E.field ≠ c') :
    ∀ (R₁ R₂ : List FeatureImportance), ∃ R₁' R₂',
      mutateFirst c' repl (R₁ ++ E :: R₂) = R₁' ++ E :: R₂' ∧
      (∀ f ∈ R₁', f = repl ∨ f ∈ R₁) ∧ (∀ f ∈ R₂', f = repl ∨ f ∈ R₂) := by
  intro R₁
  induction R₁ with
  | nil =>
    intro R₂
    refine ⟨[], mutateFirst c' repl R₂, ?_, by simp, ?_⟩
    · rw [List.nil_append, List.nil_append, mutateFirst_cons, if_neg hE]
    · intro f hf
      exact mem_mutateFirst c' repl f R₂ hf
  | cons a R₁ ih =>
    intro R₂
    by_cases ha : a.field = c'
    · refine ⟨repl :: R₁, R₂, ?_, ?_, fun f hf => Or.inr hf⟩
      · rw [List.cons_append, mutateFirst_cons, if_pos ha, List.cons_append]
      · intro f hf
        rcases List.mem_cons.mp hf with h | h
        · exact Or.inl h
        · exact Or.inr (List.mem_cons_of_mem a h)
    · rcases ih R₂ with ⟨R₁', R₂', heq, hm1, hm2⟩
      refine ⟨a :: R₁', R₂', ?_, ?_, hm2⟩
      · rw [List.cons_append, mutateFirst_cons, if_neg ha, heq, List.cons_append]
      · intro f hf
        rcases List.mem_cons.mp hf with h | h
        · exact Or.inr (h ▸ List.mem_cons_self a R₁)
        · rcases hm1 f h with h2 | h2
          · exact Or.inl h2
          · exact Or.inr (List.mem_cons_of_mem a h2)

theorem mutateFirst_exact (c' : String) (repl : FeatureImportance) :
    ∀ (R₁ : List FeatureImportance) (E : FeatureImportance) (R₂ : List FeatureImportance),
      (∀ f ∈ R₁, f.field ≠ c') → E.field = c' →
      mutateFirst c' repl (R₁ ++ E :: R₂) = R₁ ++ repl :: R₂ := by
  intro R₁
  induction R₁ with
  | nil =>
    intro E R₂ _ hE
    rw [List.nil_append, mutateFirst_cons, if_pos hE, List.nil_append]
  | cons a R₁ ih =>
    intro E R₂ h1 hE
    rw [List.cons_append, mutateFirst_cons, if_neg (h1 a (List.mem_cons_self a R₁)),
      ih E R₂ (fun f hf => h1 f (List.mem_cons_of_mem a hf)) hE, List.cons_append]

theorem find?_middle {α : Type} (p : α → Bool) (E : α) :
    ∀ (R₁ R₂ : List α), (∀ f ∈ R₁, p f = false) → p E = true →
      List.find? p (R₁ ++ E :: R₂) = some E := by
  intro R₁
  induction R₁ with
  | nil =>
    intro R₂ _ hE
    rw [List.nil_append]
    exact List.find?_cons_of_pos _ hE
  | cons a R₁ ih =>
    intro R₂ h1 hE
    rw [List.cons_append,
      List.find?_cons_of_neg _ (by rw [h1 a (List.mem_cons_self a R₁)]; simp),
      ih R₂ (fun f hf => h1 f (List.mem_cons_of_mem a hf)) hE]

theorem eraseFirstP_middle (p : FeatureImportance → Bool) (E : FeatureImportance) :
    ∀ (S₁ S₂ : List FeatureImportance), (∀ s ∈ S₁, p s = false) → p E = true →
      eraseFirstP p (S₁ ++ E :: S₂) = S₁ ++ S₂ := by
  intro S₁
  induction S₁ with
  | nil =>
    intro S₂ _ hE
    rw [List.nil_append, eraseFirstP_cons, if_pos hE, List.nil_append]
  | cons a S₁ ih =>
    intro S₂ h1 hE
    have ha : ¬ (p a = true) := by rw [h1 a (List.mem_cons_self a S₁)]; simp
    rw [List.cons_append, eraseFirstP_cons, if_neg ha,
      ih S₂ (fun s hs => h1 s (List.mem_cons_of_mem a hs)) hE, List.cons_append]

theorem eraseFirstP_keep (p : FeatureImportance → Bool) (E : FeatureImportance)
    (hne : p E = false) :
    ∀ (S₁ S₂ : List FeatureImportance), ∃ S₁' S₂',
      eraseFirstP p (S₁ ++ E :: S₂) = S₁' ++ E :: S₂' ∧
      (∀ s ∈ S₁', s ∈ S₁) ∧ (∀ s ∈ S₂', s ∈ S₂) := by
  intro S₁
  induction S₁ with
  | nil =>
    intro S₂
    have hE : ¬ (p E = true) := by rw [hne]; simp
    refine ⟨[], eraseFirstP p S₂, ?_, by simp, fun s hs => mem_eraseFirstP p s S₂ hs⟩
    rw [List.nil_append, eraseFirstP_cons, if_neg hE, List.nil_append]
  | cons a S₁ ih =>
    intro S₂
    by_cases ha : p a = true
    · refine ⟨S₁, S₂, ?_, fun s hs => List.mem_cons_of_mem a hs, fun s hs => hs⟩
      rw [List.cons_append, eraseFirstP_cons, if_pos ha]
    · rcases ih S₂ with ⟨S₁', S₂', heq, h1, h2⟩
      refine ⟨a :: S₁', S₂', ?_, ?_, h2⟩
      · rw [List.cons_append, eraseFirstP_cons, if_neg ha, heq, List.cons_append]
      · intro s hs
        rcases List.mem_cons.mp hs with h | h
        · exact h ▸ List.mem_cons_self a S₁
        · exact List.mem_cons_of_mem a (h1 s h)

theorem applyBinaryPost_pre (env : JSEnv) (data : List Rec) (cols : List String)
    (col : String) :
    ∀ (cts : List (String × ColumnType)),
      (∀ p ∈ cts, p.1 ∈ cols ∧ p.1 ≠ col ∧ cleanName p.1) →
      ∀ (rest : List (String × ColumnType)) (R₁ R₂ sups : List FeatureImportance)
        (E : FeatureImportance),
        E.field = col →
        (∀ f ∈ R₁ ++ R₂, sideEntry cols col f) →
        (∀ s ∈ sups, sideSup cols col s) →
        ∃ R₁' R₂' sups',
          applyBinaryPost env data (cts ++ rest) (R₁ ++ E :: R₂) sups
            = applyBinaryPost env data rest (R₁' ++ E :: R₂') sups' ∧
          (∀ f ∈ R₁' ++ R₂', sideEntry cols col f) ∧
          (∀ s ∈ sups', sideSup cols col s) := by
  intro cts
  induction cts with
  | nil =>
    intro _ rest R₁ R₂ sups E hE hside hsups
    exact ⟨R₁, R₂, sups, by rw [List.nil_append], hside, hsups⟩
  | cons ct cts ih =>
    intro hkeys rest R₁ R₂ sups E hE hside hsups
    obtain ⟨c', t'⟩ := ct
    have hk := hkeys (c', t') (List.mem_cons_self _ _)
    have hkeys' : ∀ p ∈ cts, p.1 ∈ cols ∧ p.1 ≠ col ∧ cleanName p.1 :=
      fun p hp => hkeys p (List.mem_cons_of_mem _ hp)
    rw [List.cons_append]
    by_cases hbin : t' = ColumnType.binary_gender ∨ t' = ColumnType.binary_parental
    · cases hfind : List.find? (fun f => f.field = c') (R₁ ++ E :: R₂) with
      | none =>
        cases hbv2 : getBinaryValues data c' with
        | none =>
          have hstep : applyBinaryPost env data ((c', t') :: (cts ++ rest))
              (R₁ ++ E :: R₂) sups
              = applyBinaryPost env data (cts ++ rest) (R₁ ++ E :: R₂) sups := by
            rw [applyBinaryPost_cons, if_pos hbin, hfind, hbv2]
          rw [hstep]
          exact ih hkeys' rest R₁ R₂ sups E hE hside hsups
        | some bv2 =>
          have hstep : applyBinaryPost env data ((c', t') :: (cts ++ rest))
              (R₁ ++ E :: R₂) sups
              = applyBinaryPost env data (cts ++ rest) (R₁ ++ E :: R₂) sups := by
            rw [applyBinaryPost_cons, if_pos hbin, hfind, hbv2]
          rw [hstep]
          exact ih hkeys' rest R₁ R₂ sups E hE hside hsups
      | some mainE =>
        cases hbv2 : getBinaryValues data c' with
        | none =>
          have hstep : applyBinaryPost env data ((c', t') :: (cts ++ rest))
              (R₁ ++ E :: R₂) sups
              = applyBinaryPost env data (cts ++ rest) (R₁ ++ E :: R₂) sups := by
            rw [applyBinaryPost_cons, if_pos hbin, hfind, hbv2]
          rw [hstep]
          exact ih hkeys' rest R₁ R₂ sups E hE hside hsups
        | some bv2 =>
          have hEne : E.field ≠ c' := by
            rw [hE]
            exact fun he => hk.2.1 he.symm
          rcases mutateFirst_decomp c' (binaryMutatedMain env t' c' bv2 mainE) E hEne R₁ R₂
            with ⟨R₁', R₂', heq, hm1, hm2⟩
          have hreplSide : sideEntry cols col (binaryMutatedMain env t' c' bv2 mainE) := by
            refine ⟨c', hk.1, hk.2.1, hk.2.2, Or.inr (Or.inr ?_)⟩
            refine ⟨(binMoreLikely env t' bv2 mainE).data ++ [')'], ?_⟩
            rw [binaryMutatedMain_field]
            exact data_parenform c' _
          have hside' : ∀ f ∈ R₁' ++ R₂', sideEntry cols col f := by
            intro f hf
            rcases List.mem_append.mp hf with hf | hf
            · rcases hm1 f hf with h | h
              · exact h ▸ hreplSide
              · exact hside f (List.mem_append.mpr (Or.inl h))
            · rcases hm2 f hf with h | h
              · exact h ▸ hreplSide
              · exact hside f (List.mem_append.mpr (Or.inr h))
          have hsups' : ∀ s ∈ sups ++ [binarySupEntry env t' c' bv2 mainE],
              sideSup cols col s := by
            intro s hs
            rcases List.mem_append.mp hs with hs | hs
            · exact hsups s hs
            · have hseq : s = binarySupEntry env t' c' bv2 mainE := by simpa using hs
              refine ⟨c', (binLessLikely env t' bv2 mainE).data ++ [')'],
                hk.1, hk.2.1, hk.2.2, ?_⟩
              rw [hseq, binarySupEntry_field]
              exact data_parenform c' _
          have hstep : applyBinaryPost env data ((c', t') :: (cts ++ rest))
              (R₁ ++ E :: R₂) sups
              = applyBinaryPost env data (cts ++ rest)
                  (mutateFirst c' (binaryMutatedMain env t' c' bv2 mainE) (R₁ ++ E :: R₂))
                  (sups ++ [binarySupEntry env t' c' bv2 mainE]) := by
            rw [applyBinaryPost_cons, if_pos hbin, hfind, hbv2]
          rcases ih hkeys' rest R₁' R₂' (sups ++ [binarySupEntry env t' c' bv2 mainE]) E hE
            hside' hsups' with ⟨A, B, S, hres, hA, hS⟩
          refine ⟨A, B, S, ?_, hA, hS⟩
          rw [hstep, heq]
          exact hres
    · have hstep : applyBinaryPost env data ((c', t') :: (cts ++ rest)) (R₁ ++ E :: R₂) sups
          = applyBinaryPost env data (cts ++ rest) (R₁ ++ E :: R₂) sups := by
        rw [applyBinaryPost_cons, if_neg hbin]
      rw [hstep]
      exact ih hkeys' rest R₁ R₂ sups E hE hside hsups

theorem applyBinaryPost_post (env : JSEnv) (data : List Rec) (cols : List String)
    (col : String) (e e2 : FeatureImportance)
    (he : ∃ m, e.field = col ++ " (" ++ m ++ ")") :
    ∀ (cts : List (String × ColumnType)),
      (∀ p ∈ cts, p.1 ∈ cols ∧ p.1 ≠ col ∧ cleanName p.1) →
      ∀ (R₁ R₂ S₁ S₂ : List FeatureImportance),
        (∀ f ∈ R₁ ++ R₂, sideEntry cols col f) →
        (∀ s ∈ S₁ ++ S₂, sideSup cols col s) →
        ∃ R₁' R₂' S₁' S₂',
          applyBinaryPost env data cts (R₁ ++ e :: R₂) (S₁ ++ e2 :: S₂)
            = (R₁' ++ e :: R₂', S₁' ++ e2 :: S₂') ∧
          (∀ f ∈ R₁' ++ R₂', sideEntry cols col f) ∧
          (∀ s ∈ S₁' ++ S₂', sideSup cols col s) := by
  intro cts
  induction cts with
  | nil =>
    intro _ R₁ R₂ S₁ S₂ hside hsups
    exact ⟨R₁, R₂, S₁, S₂, applyBinaryPost_nil env data _ _, hside, hsups⟩
  | cons ct cts ih =>
    intro hkeys R₁ R₂ S₁ S₂ hside hsups
    obtain ⟨c', t'⟩ := ct
    have hk := hkeys (c', t') (List.mem_cons_self _ _)
    have hkeys' : ∀ p ∈ cts, p.1 ∈ cols ∧ p.1 ≠ col ∧ cleanName p.1 :=
      fun p hp => hkeys p (List.mem_cons_of_mem _ hp)
    by_cases hbin : t' = ColumnType.binary_gender ∨ t' = ColumnType.binary_parental
    · cases hfind : List.find? (fun f => f.field = c') (R₁ ++ e :: R₂) with
      | none =>
        cases hbv2 : getBinaryValues data c' with
        | none =>
          have hstep : applyBinaryPost env data ((c', t') :: cts)
              (R₁ ++ e :: R₂) (S₁ ++ e2 :: S₂)
              = applyBinaryPost env data cts (R₁ ++ e :: R₂) (S₁ ++ e2 :: S₂) := by
            rw [applyBinaryPost_cons, if_pos hbin, hfind, hbv2]
          rw [hstep]
          exact ih hkeys' R₁ R₂ S₁ S₂ hside hsups
        | some bv2 =>
          have hstep : applyBinaryPost env data ((c', t') :: cts)
              (R₁ ++ e :: R₂) (S₁ ++ e2 :: S₂)
              = applyBinaryPost env data cts (R₁ ++ e :: R₂) (S₁ ++ e2 :: S₂) := by
            rw [applyBinaryPost_cons, if_pos hbin, hfind, hbv2]
          rw [hstep]
          exact ih hkeys' R₁ R₂ S₁ S₂ hside hsups
      | some mainE =>
        cases hbv2 : getBinaryValues data c' with
        | none =>
          have hstep : applyBinaryPost env data ((c', t') :: cts)
              (R₁ ++ e :: R₂) (S₁ ++ e2 :: S₂)
              = applyBinaryPost env data cts (R₁ ++ e :: R₂) (S₁ ++ e2 :: S₂) := by
            rw [applyBinaryPost_cons, if_pos hbin, hfind, hbv2]
          rw [hstep]
          exact ih hkeys' R₁ R₂ S₁ S₂ hside hsups
        | some bv2 =>
          have hene : e.field ≠ c' := by
            rcases he with ⟨m, hm⟩
            rw [hm]
            intro heq2
            have hd : c'.data = col.data ++ ' ' :: '(' :: (m.data ++ [')']) := by
              rw [← heq2]
              exact data_parenform col m
            exact clean_no_parenform c' hk.2.2.1 col.data _ hd
          rcases mutateFirst_decomp c' (binaryMutatedMain env t' c' bv2 mainE) e hene R₁ R₂
            with ⟨R₁', R₂', heq, hm1, hm2⟩
          have hreplSide : sideEntry cols col (binaryMutatedMain env t' c' bv2 mainE) := by
            refine ⟨c', hk.1, hk.2.1, hk.2.2, Or.inr (Or.inr ?_)⟩
            refine ⟨(binMoreLikely env t' bv2 mainE).data ++ [')'], ?_⟩
            rw [binaryMutatedMain_field]
            exact data_parenform c' _
          have hside' : ∀ f ∈ R₁' ++ R₂', sideEntry cols col f := by
            intro f hf
            rcases List.mem_append.mp hf with hf | hf
            · rcases hm1 f hf with h | h
              · exact h ▸ hreplSide
              · exact hside f (List.mem_append.mpr (Or.inl h))
            · rcases hm2 f hf with h | h
              · exact h ▸ hreplSide
              · exact hside f (List.mem_append.mpr (Or.inr h))
          have hsups' : ∀ s ∈ S₁ ++ (S₂ ++ [binarySupEntry env t' c' bv2 mainE]),
              sideSup cols col s := by
            intro s hs
            rcases List.mem_append.mp hs with hs | hs
            · exact hsups s (List.mem_append.mpr (Or.inl hs))
            · rcases List.mem_append.mp hs with hs | hs
              · exact hsups s (List.mem_append.mpr (Or.inr hs))
              · have hseq : s = binarySupEntry env t' c' bv2 mainE := by simpa using hs
                refine ⟨c', (binLessLikely env t' bv2 mainE).data ++ [')'],
                  hk.1, hk.2.1, hk.2.2, ?_⟩
                rw [hseq, binarySupEntry_field]
                exact data_parenform c' _
          have hsupApp : (S₁ ++ e2 :: S₂) ++ [binarySupEntry env t' c' bv2 mainE]
              = S₁ ++ e2 :: (S₂ ++ [binarySupEntry env t' c' bv2 mainE]) := by
            rw [List.append_assoc]
            rfl
          have hstep : applyBinaryPost env data ((c', t') :: cts)
              (R₁ ++ e :: R₂) (S₁ ++ e2 :: S₂)
              = applyBinaryPost env data cts
                  (mutateFirst c' (binaryMutatedMain env t' c' bv2 mainE) (R₁ ++ e :: R₂))
                  ((S₁ ++ e2 :: S₂) ++ [binarySupEntry env t' c' bv2 mainE]) := by
            rw [applyBinaryPost_cons, if_pos hbin, hfind, hbv2]
          rw [hstep, heq, hsupApp]
          exact ih hkeys' R₁' R₂' S₁ (S₂ ++ [binarySupEntry env t' c' bv2 mainE])
            hside' hsups'
    · have hstep : applyBinaryPost env data ((c', t') :: cts)
          (R₁ ++ e :: R₂) (S₁ ++ e2 :: S₂)
          = applyBinaryPost env data cts (R₁ ++ e :: R₂) (S₁ ++ e2 :: S₂) := by
        rw [applyBinaryPost_cons, if_neg hbin]
      rw [hstep]
      exact ih hkeys' R₁ R₂ S₁ S₂ hside hsups

theorem binaryPair_payload (env : JSEnv) (t : ColumnType) (col : String)
    (bv : String × String) (E : FeatureImportance) :
    (binaryMutatedMain env t col bv E).direction = Direction.positive ∧
    (binarySupEntry env t col bv E).direction = Direction.negative ∧
    (binarySupEntry env t col bv E).importance
      = (binaryMutatedMain env t col bv E).importance ∧
    (binarySupEntry env t col bv E).confidence
      = (binaryMutatedMain env t col bv E).confidence ∧
    (binarySupEntry env t col bv E).correlation
      = -(binaryMutatedMain env t col bv E).correlation ∧
    (binaryMutatedMain env t col bv E).importance = E.importance :=
  ⟨rfl, rfl, rfl, rfl, rfl, rfl⟩

theorem columnTypes_eq (env : JSEnv) (md cd : List Rec) (mc cc : List String) :
    (prepOf env md cd mc cc).columnTypes
      = (commonCols mc cc).map
          (fun c => (c, detectColumnType env c (colValues (allRecords md cd) c))) := rfl

theorem postOf_eq (env : JSEnv) (md cd : List Rec) (mc cc : List String) :
    postOf env md cd mc cc
      = applyBinaryPost env (allRecords md cd) (prepOf env md cd mc cc).columnTypes
          (rawImportances env md cd mc cc) [] := rfl

theorem postOf_decomp (env : JSEnv) (md cd : List Rec) (mc cc : List String)
    (col : String) (v1 v2 : String)
    (hnd : (commonCols mc cc).Nodup)
    (hyg : ∀ c ∈ commonCols mc cc, cleanName c)
    (hcol : col ∈ commonCols mc cc)
    (ht : detectColumnType env col (colValues (allRecords md cd) col) = .binary_gender ∨
          detectColumnType env col (colValues (allRecords md cd) col) = .binary_parental)
    (hbv : getBinaryValues (allRecords md cd) col = some (v1, v2)) :
    ∃ (E : FeatureImportance) (t : ColumnType) (R₁ R₂ S₁ S₂ : List FeatureImportance),
      (t = ColumnType.binary_gender ∨ t = ColumnType.binary_parental) ∧
      postOf env md cd mc cc
        = (R₁ ++ binaryMutatedMain env t col (v1, v2) E :: R₂,
           S₁ ++ binarySupEntry env t col (v1, v2) E :: S₂) ∧
      0 ≤ E.importance ∧
      (∀ f ∈ R₁ ++ R₂, sideEntry (commonCols mc cc) col f) ∧
      (∀ s ∈ S₁ ++ S₂, sideSup (commonCols mc cc) col s) := by
  have hclean : cleanName col := hyg col hcol
  rcases List.append_of_mem hcol with ⟨P, Q, hsplit⟩
  have hnd' : (P ++ col :: Q).Nodup := by rw [← hsplit]; exact hnd
  rcases List.nodup_append.mp hnd' with ⟨hPnd, hcQnd, hdisj⟩
  have hcolP : col ∉ P := fun hc => hdisj hc (List.mem_cons_self _ _)
  have hcolQ : col ∉ Q := (List.nodup_cons.mp hcQnd).1
  rcases rawImportances_decomp env md cd mc cc col P Q hsplit hnd hyg ht with
    ⟨R₁, E, R₂, hraw, hE, hsides, himp⟩
  set t := detectColumnType env col (colValues (allRecords md cd) col) with hts
  have hcts : (prepOf env md cd mc cc).columnTypes
      = P.map (fun c => (c, detectColumnType env c (colValues (allRecords md cd) c)))
        ++ (col, t)
          :: Q.map (fun c => (c, detectColumnType env c (colValues (allRecords md cd) c))) := by
    rw [columnTypes_eq, hsplit, List.map_append, List.map_cons]
  have hkeysP : ∀ p ∈ P.map
      (fun c => (c, detectColumnType env c (colValues (allRecords md cd) c))),
      p.1 ∈ commonCols mc cc ∧ p.1 ≠ col ∧ cleanName p.1 := by
    intro p hp
    rcases List.mem_map.mp hp with ⟨c, hc, hpc⟩
    have hc1 : p.1 = c := by rw [← hpc]
    have hcc : c ∈ commonCols mc cc := by
      rw [hsplit]; exact List.mem_append.mpr (Or.inl hc)
    rw [hc1]
    exact ⟨hcc, fun he => hcolP (he ▸ hc), hyg c hcc⟩
  have hkeysQ : ∀ p ∈ Q.map
      (fun c => (c, detectColumnType env c (colValues (allRecords md cd) c))),
      p.1 ∈ commonCols mc cc ∧ p.1 ≠ col ∧ cleanName p.1 := by
    intro p hp
    rcases List.mem_map.mp hp with ⟨c, hc, hpc⟩
    have hc1 : p.1 = c := by rw [← hpc]
    have hcc : c ∈ commonCols mc cc := by
      rw [hsplit]; exact List.mem_append.mpr (Or.inr (List.mem_cons_of_mem col hc))
    rw [hc1]
    exact ⟨hcc, fun he => hcolQ (he ▸ hc), hyg c hcc⟩
  rcases applyBinaryPost_pre env (allRecords md cd) (commonCols mc cc) col
    (P.map (fun c => (c, detectColumnType env c (colValues (allRecords md cd) c)))) hkeysP
    ((col, t) :: Q.map (fun c => (c, detectColumnType env c (colValues (allRecords md cd) c))))
    R₁ R₂ [] E hE hsides (by intro s hs; simp at hs)
    with ⟨R₁', R₂', sups', hpre, hside', hsups'⟩
  have hfind : List.find? (fun f => f.field = col) (R₁' ++ E :: R₂') = some E := by
    apply find?_middle
    · intro f hf
      have hne : f.field ≠ col := sideEntry_field_ne (commonCols mc cc) col f
        (hside' f (List.mem_append.mpr (Or.inl hf))) hclean
      exact decide_eq_false hne
    · exact decide_eq_true hE
  have hstep : applyBinaryPost env (allRecords md cd)
      ((col, t) :: Q.map (fun c => (c, detectColumnType env c (colValues (allRecords md cd) c))))
      (R₁' ++ E :: R₂') sups'
      = applyBinaryPost env (allRecords md cd)
          (Q.map (fun c => (c, detectColumnType env c (colValues (allRecords md cd) c))))
          (mutateFirst col (binaryMutatedMain env t col (v1, v2) E) (R₁' ++ E :: R₂'))
          (sups' ++ [binarySupEntry env t col (v1, v2) E]) := by
    rw [applyBinaryPost_cons, if_pos ht, hfind, hbv]
  have hmut : mutateFirst col (binaryMutatedMain env t col (v1, v2) E) (R₁' ++ E :: R₂')
      = R₁' ++ binaryMutatedMain env t col (v1, v2) E :: R₂' := by
    apply mutateFirst_exact
    · intro f hf
      exact sideEntry_field_ne (commonCols mc cc) col f
        (hside' f (List.mem_append.mpr (Or.inl hf))) hclean
    · exact hE
  rcases applyBinaryPost_post env (allRecords md cd) (commonCols mc cc) col
    (binaryMutatedMain env t col (v1, v2) E) (binarySupEntry env t col (v1, v2) E)
    ⟨binMoreLikely env t (v1, v2) E, binaryMutatedMain_field env t col (v1, v2) E⟩
    (Q.map (fun c => (c, detectColumnType env c (colValues (allRecords md cd) c)))) hkeysQ
    R₁' R₂' sups' []
    hside' (by intro s hs; rw [List.append_nil] at hs; exact hsups' s hs)
    with ⟨A, B, S₁, S₂, hpost, hA, hS⟩
  refine ⟨E, t, A, B, S₁, S₂, ht, ?_, himp, hA, hS⟩
  rw [postOf_eq, hcts, hraw, hpre, hstep, hmut]
  exact hpost

theorem finalBuild_nil (sups : List FeatureImportance) : finalBuild [] sups = sups := rfl

theorem finalBuild_cons (fi : FeatureImportance) (rest sups : List FeatureImportance) :
    finalBuild (fi :: rest) sups
      = match List.find? (supMatches fi) sups with
        | some sup => fi :: sup :: finalBuild rest (eraseFirstP (supMatches fi) sups)
        | none => fi :: finalBuild rest sups := rfl

theorem finalBuild_decomp (cols : List String) (col : String) (e1 e2 : FeatureImportance)
    (hmatch : supMatches e1 e2 = true)
    (hskip : ∀ s, sideSup cols col s → supMatches e1 s = false)
    (hsidematch : ∀ f, sideEntry cols col f → supMatches f e2 = false) :
    ∀ (R₁ : List FeatureImportance), (∀ f ∈ R₁, sideEntry cols col f) →
    ∀ (R₂ S₁ S₂ : List FeatureImportance),
      (∀ f ∈ R₂, sideEntry cols col f) →
      (∀ s ∈ S₁ ++ S₂, sideSup cols col s) →
      ∃ pre post, finalBuild (R₁ ++ e1 :: R₂) (S₁ ++ e2 :: S₂) = pre ++ e1 :: e2 :: post ∧
        (∀ g ∈ pre ++ post, sideEntry cols col g ∨ sideSup cols col g) := by
  intro R₁
  induction R₁ with
  | nil =>
    intro _ R₂ S₁ S₂ hR₂ hS
    have hfind : List.find? (supMatches e1) (S₁ ++ e2 :: S₂) = some e2 := by
      apply find?_middle
      · intro s hs
        exact hskip s (hS s (List.mem_append.mpr (Or.inl hs)))
      · exact hmatch
    have herase : eraseFirstP (supMatches e1) (S₁ ++ e2 :: S₂) = S₁ ++ S₂ := by
      apply eraseFirstP_middle
      · intro s hs
        exact hskip s (hS s (List.mem_append.mpr (Or.inl hs)))
      · exact hmatch
    have hred : finalBuild (e1 :: R₂) (S₁ ++ e2 :: S₂)
        = e1 :: e2 :: finalBuild R₂ (S₁ ++ S₂) := by
      rw [finalBuild_cons, hfind, herase]
    rw [List.nil_append, hred]
    refine ⟨[], finalBuild R₂ (S₁ ++ S₂), rfl, ?_⟩
    intro g hg
    rw [List.nil_append] at hg
    rcases mem_finalBuild g R₂ (S₁ ++ S₂) hg with h | h
    · exact Or.inl (hR₂ g h)
    · exact Or.inr (hS g h)
  | cons a R₁ ih =>
    intro hR₁ R₂ S₁ S₂ hR₂ hS
    have haSide : sideEntry cols col a := hR₁ a (List.mem_cons_self _ _)
    have hR₁' : ∀ f ∈ R₁, sideEntry cols col f :=
      fun f hf => hR₁ f (List.mem_cons_of_mem a hf)
    rw [List.cons_append, finalBuild_cons]
    cases hfind : List.find? (supMatches a) (S₁ ++ e2 :: S₂) with
    | none =>
      rcases ih hR₁' R₂ S₁ S₂ hR₂ hS with ⟨pre, post, heq, hclass⟩
      refine ⟨a :: pre, post, ?_, ?_⟩
      · show a :: finalBuild (R₁ ++ e1 :: R₂) (S₁ ++ e2 :: S₂)
            = (a :: pre) ++ e1 :: e2 :: post
        rw [heq, List.cons_append]
      · intro g hg
        rcases List.mem_append.mp hg with hg | hg
        · rcases List.mem_cons.mp hg with hg | hg
          · exact Or.inl (hg ▸ haSide)
          · exact hclass g (List.mem_append.mpr (Or.inl hg))
        · exact hclass g (List.mem_append.mpr (Or.inr hg))
    | some s =>
      have hsmem : s ∈ S₁ ++ e2 :: S₂ := List.mem_of_find?_eq_some hfind
      have hstrue : supMatches a s = true := List.find?_some hfind
      have hsne : s ≠ e2 := by
        intro he
        rw [he, hsidematch a haSide] at hstrue
        exact absurd hstrue (by simp)
      have hsSide : sideSup cols col s := by
        rcases List.mem_append.mp hsmem with h | h
        · exact hS s (List.mem_append.mpr (Or.inl h))
        · rcases List.mem_cons.mp h with h | h
          · exact absurd h hsne
          · exact hS s (List.mem_append.mpr (Or.inr h))
      rcases eraseFirstP_keep (supMatches a) e2 (hsidematch a haSide) S₁ S₂ with
        ⟨S₁', S₂', herase, hsub1, hsub2⟩
      have hS' : ∀ x ∈ S₁' ++ S₂', sideSup cols col x := by
        intro x hx
        rcases List.mem_append.mp hx with hx | hx
        · exact hS x (List.mem_append.mpr (Or.inl (hsub1 x hx)))
        · exact hS x (List.mem_append.mpr (Or.inr (hsub2 x hx)))
      rcases ih hR₁' R₂ S₁' S₂' hR₂ hS' with ⟨pre, post, heq, hclass⟩
      refine ⟨a :: s :: pre, post, ?_, ?_⟩
      · show a :: s :: finalBuild (R₁ ++ e1 :: R₂) (eraseFirstP (supMatches a) (S₁ ++ e2 :: S₂))
            = (a :: s :: pre) ++ e1 :: e2 :: post
        rw [herase, heq, List.cons_append, List.cons_append]
      · intro g hg
        rcases List.mem_append.mp hg with hg | hg
        · rcases List.mem_cons.mp hg with hg | hg
          · exact Or.inl (hg ▸ haSide)
          · rcases List.mem_cons.mp hg with hg2 | hg2
            · exact Or.inr (hg2 ▸ hsSide)
            · exact hclass g (List.mem_append.mpr (Or.inl hg2))
        · exact hclass g (List.mem_append.mpr (Or.inr hg))

theorem filter_cons_true {α : Type} (p : α → Bool) (a : α) (l : List α) (h : p a = true) :
    (a :: l).filter p = a :: l.filter p := by
  rw [List.filter_cons, if_pos h]

theorem filter_cons_false {α : Type} (p : α → Bool) (a : α) (l : List α) (h : p a = false) :
    (a :: l).filter p = l.filter p := by
  rw [List.filter_cons, if_neg (by rw [h]; simp)]

theorem filter_false_of_all {α : Type} (p : α → Bool) :
    ∀ l : List α, (∀ a ∈ l, p a = false) → l.filter p = [] := by
  intro l
  induction l with
  | nil => intro _; rfl
  | cons a l ih =>
    intro h
    rw [List.filter_cons_of_neg (by
        have := h a (List.mem_cons_self a l)
        rw [this]
        simp),
      ih (fun x hx => h x (List.mem_cons_of_mem a hx))]

theorem filter_col_pair (col : String) (e1 e2 : FeatureImportance)
    (pre post : List FeatureImportance)
    (h1 : baseOf e1.field = col) (h2 : baseOf e2.field = col)
    (hothers : ∀ g ∈ pre ++ post, baseOf g.field ≠ col) :
    (pre ++ e1 :: e2 :: post).filter (fun fi => baseOf fi.field == col) = [e1, e2] := by
  rw [List.filter_append]
  have hpre : pre.filter (fun fi => baseOf fi.field == col) = [] := by
    apply filter_false_of_all
    intro g hg
    exact beq_eq_false_iff_ne.mpr (hothers g (List.mem_append.mpr (Or.inl hg)))
  have hpost : post.filter (fun fi => baseOf fi.field == col) = [] := by
    apply filter_false_of_all
    intro g hg
    exact beq_eq_false_iff_ne.mpr (hothers g (List.mem_append.mpr (Or.inr hg)))
  rw [hpre,
    filter_cons_true (fun fi => baseOf fi.field == col) e1 (e2 :: post) (beq_iff_eq.mpr h1),
    filter_cons_true (fun fi => baseOf fi.field == col) e2 post (beq_iff_eq.mpr h2),
    hpost, List.nil_append]

theorem mem_insertUnique (l : List String) (v a : String) :
    a ∈ insertUnique l v ↔ a ∈ l ∨ a = v := by
  unfold insertUnique
  by_cases h : v ∈ l
  · rw [if_pos h]
    constructor
    · exact Or.inl
    · intro ha
      rcases ha with ha | ha
      · exact ha
      · exact ha ▸ h
  · rw [if_neg h]
    simp

theorem mem_foldl_insertUnique (vals : List String) :
    ∀ (acc : List String) (a : String),
      a ∈ vals.foldl insertUnique acc ↔ a ∈ acc ∨ a ∈ vals := by
  induction vals with
  | nil => intro acc a; simp
  | cons v vs ih =>
    intro acc a
    rw [List.foldl_cons, ih, mem_insertUnique]
    constructor
    · rintro ((h | h) | h)
      · exact Or.inl h
      · exact Or.inr (h ▸ List.mem_cons_self v vs)
      · exact Or.inr (List.mem_cons_of_mem v h)
    · rintro (h | h)
      · exact Or.inl (Or.inl h)
      · rcases List.mem_cons.mp h with h | h
        · exact Or.inl (Or.inr h)
        · exact Or.inr h

theorem mem_firstSeen (vals : List String) (a : String) :
    a ∈ firstSeen vals ↔ a ∈ vals := by
  unfold firstSeen
  rw [mem_foldl_insertUnique]
  simp

theorem groupsOf_eq (F : List FeatureImportance) :
    groupsOf F = (firstSeen (F.map (fun fi => baseOf fi.field))).map
      (fun b => F.filter (fun fi => baseOf fi.field == b)) := rfl

theorem builtOf_eq (env : JSEnv) (md cd : List Rec) (mc cc : List String) :
    builtOf env md cd mc cc
      = finalBuild (postOf env md cd mc cc).1 (postOf env md cd mc cc).2 := rfl

theorem finalImportancesOf_eq (env : JSEnv) (md cd : List Rec) (mc cc : List String) :
    finalImportancesOf env md cd mc cc
      = ((sortDescBy maxImp (groupsOf (builtOf env md cd mc cc))).flatten).filter
          (fun fi => decide (0 < fi.importance)) := rfl

theorem final_of_built (env : JSEnv) (md cd : List Rec) (mc cc : List String)
    (col : String) (e1 e2 : FeatureImportance) (pre post : List FeatureImportance)
    (hbuilt : builtOf env md cd mc cc = pre ++ e1 :: e2 :: post)
    (h1 : baseOf e1.field = col) (h2 : baseOf e2.field = col)
    (hothers : ∀ g ∈ pre ++ post, baseOf g.field ≠ col)
    (himp : e2.importance = e1.importance) :
    (0 < e1.importance →
      (∃ pre2 post2, finalImportancesOf env md cd mc cc = pre2 ++ e1 :: e2 :: post2) ∧
      (finalImportancesOf env md cd mc cc).filter (fun fi => baseOf fi.field == col)
        = [e1, e2]) ∧
    (e1.importance = 0 →
      (finalImportancesOf env md cd mc cc).filter (fun fi => baseOf fi.field == col)
        = []) := by
  have hG : (builtOf env md cd mc cc).filter (fun fi => baseOf fi.field == col)
      = [e1, e2] := by
    rw [hbuilt]
    exact filter_col_pair col e1 e2 pre post h1 h2 hothers
  have hcolbased : col ∈ firstSeen ((builtOf env md cd mc cc).map (fun fi => baseOf fi.field)) := by
    rw [mem_firstSeen]
    apply List.mem_map.mpr
    refine ⟨e1, ?_, h1⟩
    rw [hbuilt]
    exact List.mem_append.mpr (Or.inr (List.mem_cons_self _ _))
  rcases List.append_of_mem hcolbased with ⟨B₁, B₂, hbsplit⟩
  have hnodup := firstSeen_nodup ((builtOf env md cd mc cc).map (fun fi => baseOf fi.field))
  rw [hbsplit] at hnodup
  rcases List.nodup_append.mp hnodup with ⟨hB₁nd, hcB₂nd, hdisj⟩
  have hcolB₁ : col ∉ B₁ := fun hc => hdisj hc (List.mem_cons_self _ _)
  have hcolB₂ : col ∉ B₂ := (List.nodup_cons.mp hcB₂nd).1
  have hgroups : groupsOf (builtOf env md cd mc cc)
      = B₁.map (fun b => (builtOf env md cd mc cc).filter (fun fi => baseOf fi.field == b))
        ++ [e1, e2]
          :: B₂.map (fun b => (builtOf env md cd mc cc).filter (fun fi => baseOf fi.field == b)) := by
    rw [groupsOf_eq, hbsplit, List.map_append, List.map_cons, hG]
  have hBprop : ∀ g ∈ B₁.map (fun b => (builtOf env md cd mc cc).filter
        (fun fi => baseOf fi.field == b))
      ++ B₂.map (fun b => (builtOf env md cd mc cc).filter (fun fi => baseOf fi.field == b)),
      ∀ x ∈ g, baseOf x.field ≠ col := by
    intro g hg x hx
    have hb : ∃ b, b ≠ col ∧ g = (builtOf env md cd mc cc).filter
        (fun fi => baseOf fi.field == b) := by
      rcases List.mem_append.mp hg with hg | hg
      · rcases List.mem_map.mp hg with ⟨b, hbB, hbg⟩
        exact ⟨b, fun he => hcolB₁ (he ▸ hbB), hbg.symm⟩
      · rcases List.mem_map.mp hg with ⟨b, hbB, hbg⟩
        exact ⟨b, fun he => hcolB₂ (he ▸ hbB), hbg.symm⟩
    rcases hb with ⟨b, hbne, hbg⟩
    rw [hbg] at hx
    have := (List.mem_filter.mp hx).2
    rw [beq_iff_eq.mp this]
    exact hbne
  have hperm := perm_sortDescBy maxImp (groupsOf (builtOf env md cd mc cc))
  have hGmem : [e1, e2] ∈ sortDescBy maxImp (groupsOf (builtOf env md cd mc cc)) := by
    rw [mem_sortDescBy, hgroups]
    exact List.mem_append.mpr (Or.inr (List.mem_cons_self _ _))
  rcases List.append_of_mem hGmem with ⟨T₁, T₂, hTsplit⟩
  have hTmain : List.Perm (T₁ ++ T₂)
      (B₁.map (fun b => (builtOf env md cd mc cc).filter (fun fi => baseOf fi.field == b))
        ++ B₂.map (fun b => (builtOf env md cd mc cc).filter (fun fi => baseOf fi.field == b))) := by
    have hp1 : List.Perm (T₁ ++ [e1, e2] :: T₂) ([e1, e2] :: (T₁ ++ T₂)) := List.perm_middle
    have hp2 : List.Perm
        (B₁.map (fun b => (builtOf env md cd mc cc).filter (fun fi => baseOf fi.field == b))
          ++ [e1, e2] :: B₂.map
            (fun b => (builtOf env md cd mc cc).filter (fun fi => baseOf fi.field == b)))
        ([e1, e2] :: (B₁.map (fun b => (builtOf env md cd mc cc).filter
            (fun fi => baseOf fi.field == b))
          ++ B₂.map (fun b => (builtOf env md cd mc cc).filter
            (fun fi => baseOf fi.field == b)))) := List.perm_middle
    have hchain := (hp1.symm.trans ((hTsplit ▸ (hgroups ▸ hperm)))).trans hp2
    exact hchain.cons_inv
  have hTprop : ∀ g ∈ T₁ ++ T₂, ∀ x ∈ g, baseOf x.field ≠ col := by
    intro g hg
    exact hBprop g (hTmain.mem_iff.mp hg)
  have hflat : (sortDescBy maxImp (groupsOf (builtOf env md cd mc cc))).flatten
      = T₁.flatten ++ e1 :: e2 :: T₂.flatten := by
    rw [hTsplit, List.flatten_append, List.flatten_cons]
    rfl
  have hT₁prop : ∀ x ∈ T₁.flatten, baseOf x.field ≠ col := by
    intro x hx
    rcases List.mem_flatten.mp hx with ⟨g, hgm, hxg⟩
    exact hTprop g (List.mem_append.mpr (Or.inl hgm)) x hxg
  have hT₂prop : ∀ x ∈ T₂.flatten, baseOf x.field ≠ col := by
    intro x hx
    rcases List.mem_flatten.mp hx with ⟨g, hgm, hxg⟩
    exact hTprop g (List.mem_append.mpr (Or.inr hgm)) x hxg
  constructor
  · intro hpos
    have he1keep : (decide (0 < e1.importance)) = true := decide_eq_true hpos
    have he2keep : (decide (0 < e2.importance)) = true := by
      rw [himp]
      exact decide_eq_true hpos
    have hfinal : finalImportancesOf env md cd mc cc
        = T₁.flatten.filter (fun fi => decide (0 < fi.importance))
          ++ e1 :: e2 :: T₂.flatten.filter (fun fi => decide (0 < fi.importance)) := by
      rw [finalImportancesOf_eq, hflat, List.filter_append,
        filter_cons_true (fun fi => decide (0 < fi.importance)) e1 (e2 :: T₂.flatten) he1keep,
        filter_cons_true (fun fi => decide (0 < fi.importance)) e2 T₂.flatten he2keep]
    constructor
    · exact ⟨_, _, hfinal⟩
    · rw [hfinal]
      apply filter_col_pair col e1 e2 _ _ h1 h2
      intro g hg
      rcases List.mem_append.mp hg with hg | hg
      · exact hT₁prop g (List.mem_filter.mp hg).1
      · exact hT₂prop g (List.mem_filter.mp hg).1
  · intro hzero
    apply filter_false_of_all
    intro x hx
    rw [finalImportancesOf_eq, hflat] at hx
    have hxmem := List.mem_filter.mp hx
    have hximp := hxmem.2
    rcases List.mem_append.mp hxmem.1 with hxm | hxm
    · exact beq_eq_false_iff_ne.mpr (hT₁prop x hxm)
    · rcases List.mem_cons.mp hxm with hxm | hxm
      · exfalso
        rw [hxm, hzero] at hximp
        exact absurd hximp (by simp)
      · rcases List.mem_cons.mp hxm with hxm | hxm
        · exfalso
          rw [hxm, himp, hzero] at hximp
          exact absurd hximp (by simp)
        · exact beq_eq_false_iff_ne.mpr (hT₂prop x hxm)

/-- C5 (amended): for any binary field (`binary_gender` or `binary_parental`)
    with exactly two observed values — under column-name hygiene (no included
    column name contains the ` (` display marker or a colon) and distinct
    included column names — the pipeline produces two complementary entries
    for that field with opposite directions, equal importance, equal
    confidence and negated correlation. If the shared importance is positive,
    the final featureImportances list contains exactly these two entries for
    the field and they are adjacent; if the shared importance is 0, the final
    `importance > 0` filter drops both, and the list contains no entry for
    the field at all (the corrected case, witnessed concretely by
    `binary_pair_dropped_when_importance_zero`). -/
theorem binary_pair_structure (env : JSEnv) (md cd : List Rec) (mc cc : List String)
    (col : String) (v1 v2 : String)
    (hnd : (commonCols mc cc).Nodup)
    (hyg : ∀ c ∈ commonCols mc cc, cleanName c)
    (hcol : col ∈ commonCols mc cc)
    (htype : detectColumnType env col (colValues (allRecords md cd) col)
          = ColumnType.binary_gender ∨
        detectColumnType env col (colValues (allRecords md cd) col)
          = ColumnType.binary_parental)
    (hbv : getBinaryValues (allRecords md cd) col = some (v1, v2)) :
    ∃ e1 e2 : FeatureImportance,
      e1.direction = Direction.positive ∧ e2.direction = Direction.negative ∧
      e2.importance = e1.importance ∧ e2.confidence = e1.confidence ∧
      e2.correlation = -e1.correlation ∧
      baseOf e1.field = col ∧ baseOf e2.field = col ∧
      ((0 < e1.importance ∧
        (∃ pre post, finalImportancesOf env md cd mc cc = pre ++ e1 :: e2 :: post) ∧
        (finalImportancesOf env md cd mc cc).filter (fun fi => baseOf fi.field == col)
          = [e1, e2]) ∨
       (e1.importance = 0 ∧
        (finalImportancesOf env md cd mc cc).filter (fun fi => baseOf fi.field == col)
          = [])) := by
  have hclean : cleanName col := hyg col hcol
  rcases postOf_decomp env md cd mc cc col v1 v2 hnd hyg hcol htype hbv with
    ⟨E, t, R₁, R₂, S₁, S₂, hbt, hpost, himpE, hsideR, hsideS⟩
  have hvne : v1 ≠ v2 := getBinaryValues_ne (allRecords md cd) col v1 v2 hbv
  have hmatch := supMatches_main_sup env t col (v1, v2) E hclean hvne
  have he1f : ∃ m, (binaryMutatedMain env t col (v1, v2) E).field
      = col ++ " (" ++ m ++ ")" :=
    ⟨_, binaryMutatedMain_field env t col (v1, v2) E⟩
  have hskip : ∀ s, sideSup (commonCols mc cc) col s →
      supMatches (binaryMutatedMain env t col (v1, v2) E) s = false :=
    fun s hs => main_not_supMatches_side (commonCols mc cc) col _ s he1f hclean hs
  have he2data : (binarySupEntry env t col (v1, v2) E).field.data
      = col.data ++ ' ' :: '(' :: ((binLessLikely env t (v1, v2) E).data ++ [')']) := by
    rw [binarySupEntry_field]
    exact data_parenform col _
  have hsidematch : ∀ f, sideEntry (commonCols mc cc) col f →
      supMatches f (binarySupEntry env t col (v1, v2) E) = false := by
    intro f hf
    exact sideEntry_not_supMatches (commonCols mc cc) col f _ hf hclean _ he2data
  have hbuilt0 : builtOf env md cd mc cc
      = finalBuild (R₁ ++ binaryMutatedMain env t col (v1, v2) E :: R₂)
          (S₁ ++ binarySupEntry env t col (v1, v2) E :: S₂) := by
    rw [builtOf_eq, hpost]
  rcases finalBuild_decomp (commonCols mc cc) col
      (binaryMutatedMain env t col (v1, v2) E) (binarySupEntry env t col (v1, v2) E)
      hmatch hskip hsidematch R₁
      (fun f hf => hsideR f (List.mem_append.mpr (Or.inl hf)))
      R₂ S₁ S₂
      (fun f hf => hsideR f (List.mem_append.mpr (Or.inr hf)))
      hsideS with ⟨pre, post, hfb, hclass⟩
  have hbuilt : builtOf env md cd mc cc
      = pre ++ binaryMutatedMain env t col (v1, v2) E
          :: binarySupEntry env t col (v1, v2) E :: post := hbuilt0.trans hfb
  have hbase1 : baseOf (binaryMutatedMain env t col (v1, v2) E).field = col := by
    apply baseOf_paren_data _ col ((binMoreLikely env t (v1, v2) E).data ++ [')']) hclean.1
    rw [binaryMutatedMain_field]
    exact data_parenform col _
  have hbase2 : baseOf (binarySupEntry env t col (v1, v2) E).field = col :=
    baseOf_paren_data _ col _ hclean.1 he2data
  have hothers : ∀ g ∈ pre ++ post, baseOf g.field ≠ col := by
    intro g hg
    rcases hclass g hg with h | h
    · exact sideEntry_baseOf_ne (commonCols mc cc) col g h hclean
    · exact sideSup_baseOf_ne (commonCols mc cc) col g h
  have hpay := binaryPair_payload env t col (v1, v2) E
  rcases final_of_built env md cd mc cc col _ _ pre post hbuilt hbase1 hbase2 hothers
    hpay.2.2.1 with ⟨hposcase, hzerocase⟩
  refine ⟨binaryMutatedMain env t col (v1, v2) E, binarySupEntry env t col (v1, v2) E,
    hpay.1, hpay.2.1, hpay.2.2.1, hpay.2.2.2.1, hpay.2.2.2.2.1, hbase1, hbase2, ?_⟩
  have himpe1 : (binaryMutatedMain env t col (v1, v2) E).importance = E.importance :=
    hpay.2.2.2.2.2
  rcases eq_or_lt_of_le himpE with h0 | hposE
  · refine Or.inr ⟨by rw [himpe1, ← h0], hzerocase (by rw [himpe1, ← h0])⟩
  · have hpos1 : 0 < (binaryMutatedMain env t col (v1, v2) E).importance := by
      rw [himpe1]
      exact hposE
    exact Or.inl ⟨hpos1, (hposcase hpos1).1, (hposcase hpos1).2⟩

/-- Witness for the amended C5 theorem, at the degenerate two-row gender
    dataset: all hypotheses hold concretely (there the zero-importance
    branch is realized). -/
theorem binary_pair_structure_witness :
    ∃ e1 e2 : FeatureImportance,
      e1.direction = Direction.positive ∧ e2.direction = Direction.negative ∧
      e2.importance = e1.importance ∧ e2.confidence = e1.confidence ∧
      e2.correlation = -e1.correlation ∧
      baseOf e1.field = "gender" ∧ baseOf e2.field = "gender" ∧
      ((0 < e1.importance ∧
        (∃ pre post, finalImportancesOf env0 degenData degenData ["gender"] ["gender"]
          = pre ++ e1 :: e2 :: post) ∧
        (finalImportancesOf env0 degenData degenData ["gender"] ["gender"]).filter
          (fun fi => baseOf fi.field == "gender") = [e1, e2]) ∨
       (e1.importance = 0 ∧
        (finalImportancesOf env0 degenData degenData ["gender"] ["gender"]).filter
          (fun fi => baseOf fi.field == "gender") = [])) :=
  binary_pair_structure env0 degenData degenData ["gender"] ["gender"] "gender" "m" "f"
    (by decide) (by decide) (by decide) (Or.inl degen_detect) degen_getBinaryValues

/- ===================================================================
   C6: clock dependence of the pipeline.  The counterexample datasets:
   a single `last_visit` column, detected as days_since, whose encoding
   reads Date.now().
   =================================================================== -/

/-- Member rows of the clock counterexample: both last visited on a
    parseable date. -/
def c6md : List Rec := [[("last_visit", "2024-01-01")], [("last_visit", "2024-01-01")]]

/-- Contact rows of the clock counterexample: the last visit is missing. -/
def c6cd : List Rec := [[("last_visit", "")], [("last_visit", "")]]

/-- An environment whose clock reads the timestamp of the parsed date
    itself, so the date encodes as 0 days ago. -/
noncomputable def envA6 : JSEnv where
  parseFloat := fun _ => none
  dateParse := fun s => if s = "2024-01-01" then some 0 else none
  now := 0
  numToString := fun _ => ""

/-- The same environment read 999 days later: only `now` differs. -/
noncomputable def envB6 : JSEnv := { envA6 with now := 86313600000 }

theorem sigmoid_pos (x : ℝ) : 0 < sigmoid x := by
  unfold sigmoid
  positivity

theorem sigmoid_lt_one (x : ℝ) : sigmoid x < 1 := by
  unfold sigmoid
  rw [div_lt_one (by positivity)]
  have h := Real.exp_pos (-(max (-500) (min 500 x)))
  linarith

theorem c6_detect :
    detectColumnType envA6 "last_visit"
      (colValues (allRecords c6md c6cd) "last_visit") = .days_since := by
  decide

theorem c6_detectB :
    detectColumnType envB6 "last_visit"
      (colValues (allRecords c6md c6cd) "last_visit") = .days_since := c6_detect

theorem c6_dateParse : envA6.dateParse (jsTrim "2024-01-01") = some 0 := by
  show (if jsTrim "2024-01-01" = "2024-01-01" then some (0 : ℝ) else none) = some 0
  rw [if_pos (by decide)]

theorem c6_encodeA : encodeValue envA6 "2024-01-01" (some .days_since) = 0 := by
  unfold encodeValue dateToDaysSince
  rw [if_neg (by decide), if_pos rfl, if_neg (by decide), c6_dateParse]
  show max 0 (((round (((0 : ℝ) - 0) / (1000 * 60 * 60 * 24)) : ℤ) : ℝ)) = 0
  norm_num

theorem c6_encodeB : encodeValue envB6 "2024-01-01" (some .days_since) = 999 := by
  unfold encodeValue dateToDaysSince
  rw [if_neg (by decide), if_pos rfl, if_neg (by decide)]
  rw [show envB6.dateParse (jsTrim "2024-01-01") = some 0 from c6_dateParse]
  show max 0 (((round (((86313600000 : ℝ) - 0) / (1000 * 60 * 60 * 24)) : ℤ) : ℝ)) = 999
  have h : ((86313600000 : ℝ) - 0) / (1000 * 60 * 60 * 24) = 999 := by norm_num
  rw [h]
  norm_num [round_eq]

theorem c6_encode_emptyA (ty : ColumnType) : encodeValue envA6 "" (some ty) = 0 := by
  unfold encodeValue
  rw [if_pos rfl]

theorem c6_encode_emptyB (ty : ColumnType) : encodeValue envB6 "" (some ty) = 0 := by
  unfold encodeValue
  rw [if_pos rfl]

theorem c6_colBlock_rowA (row : Rec) :
    colBlock envA6 (allRecords c6md c6cd) "last_visit" row
      = [encodeValue envA6 (getField row "last_visit") (some .days_since)] := by
  unfold colBlock
  rw [c6_detect]
  dsimp only
  rw [if_pos (by decide)]

theorem c6_colBlock_rowB (row : Rec) :
    colBlock envB6 (allRecords c6md c6cd) "last_visit" row
      = [encodeValue envB6 (getField row "last_visit") (some .days_since)] := by
  unfold colBlock
  rw [c6_detectB]
  dsimp only
  rw [if_pos (by decide)]

theorem c6_matrixA :
    (prepOf envA6 c6md c6cd ["last_visit"] ["last_visit"]).matrix
      = [[0], [0], [0], [0]] := by
  unfold prepOf preprocessData
  dsimp only
  rw [show commonCols ["last_visit"] ["last_visit"] = ["last_visit"] from by decide]
  show (allRecords c6md c6cd).map
      (fun row => ([colBlock envA6 (allRecords c6md c6cd) "last_visit" row]).flatten) = _
  simp only [c6_colBlock_rowA, List.flatten, List.append_nil]
  show [[encodeValue envA6 (getField [("last_visit", "2024-01-01")] "last_visit")
          (some .days_since)],
        [encodeValue envA6 (getField [("last_visit", "2024-01-01")] "last_visit")
          (some .days_since)],
        [encodeValue envA6 (getField [("last_visit", "")] "last_visit") (some .days_since)],
        [encodeValue envA6 (getField [("last_visit", "")] "last_visit") (some .days_since)]] = _
  rw [show getField [("last_visit", "2024-01-01")] "last_visit" = "2024-01-01" from by decide,
      show getField [("last_visit", "")] "last_visit" = "" from by decide,
      c6_encodeA, c6_encode_emptyA]

theorem c6_matrixB :
    (prepOf envB6 c6md c6cd ["last_visit"] ["last_visit"]).matrix
      = [[999], [999], [0], [0]] := by
  unfold prepOf preprocessData
  dsimp only
  rw [show commonCols ["last_visit"] ["last_visit"] = ["last_visit"] from by decide]
  show (allRecords c6md c6cd).map
      (fun row => ([colBlock envB6 (allRecords c6md c6cd) "last_visit" row]).flatten) = _
  simp only [c6_colBlock_rowB, List.flatten, List.append_nil]
  show [[encodeValue envB6 (getField [("last_visit", "2024-01-01")] "last_visit")
          (some .days_since)],
        [encodeValue envB6 (getField [("last_visit", "2024-01-01")] "last_visit")
          (some .days_since)],
        [encodeValue envB6 (getField [("last_visit", "")] "last_visit") (some .days_since)],
        [encodeValue envB6 (getField [("last_visit", "")] "last_visit") (some .days_since)]] = _
  rw [show getField [("last_visit", "2024-01-01")] "last_visit" = "2024-01-01" from by decide,
      show getField [("last_visit", "")] "last_visit" = "" from by decide,
      c6_encodeB, c6_encode_emptyB]

theorem c6_normalizedA :
    normalizedOf envA6 c6md c6cd ["last_visit"] ["last_visit"] = [[0], [0], [0], [0]] := by
  unfold normalizedOf
  rw [c6_matrixA]
  unfold normalizeMatrix colMins colMaxs
  norm_num

theorem c6_normalizedB :
    normalizedOf envB6 c6md c6cd ["last_visit"] ["last_visit"] = [[1], [1], [0], [0]] := by
  unfold normalizedOf
  rw [c6_matrixB]
  unfold normalizeMatrix colMins colMaxs
  norm_num

theorem c6_labels : labelsOf c6md c6cd = [1, 1, 0, 0] := by
  unfold labelsOf c6md c6cd
  norm_num [List.replicate]

theorem c6_stepA_fixed :
    trainStep (1 / 2) (1 / 100) [[0], [0], [0], [0]] [1, 1, 0, 0] ([0], 0) = ([0], 0) := by
  unfold trainStep gradAccum dotZ
  norm_num [List.zip_cons_cons, List.foldl, List.zipWith, List.replicate,
    List.sum_cons, List.sum_nil, sigmoid_zero]

theorem c6_trainedA :
    trainedOf envA6 c6md c6cd ["last_visit"] ["last_visit"] = ([0], 0) := by
  unfold trainedOf trainLogisticRegression
  rw [c6_normalizedA, c6_labels]
  have hstart : (List.replicate (((([[(0 : ℝ)], [0], [0], [0]] : List (List ℝ)).head?.map
      List.length).getD 0)) (0 : ℝ), (0 : ℝ)) = (([0], 0) : List ℝ × ℝ) := by
    norm_num [List.replicate]
  rw [hstart]
  exact Function.iterate_fixed c6_stepA_fixed 2000

theorem c6_stepB (w b : ℝ) :
    trainStep (1 / 2) (1 / 100) [[(1 : ℝ)], [1], [0], [0]] [1, 1, 0, 0] ([w], b)
      = ([w * (799 / 800) + (1 - sigmoid (b + w)) / 4],
         b - (sigmoid (b + w) - 1 + sigmoid b) / 4) := by
  unfold trainStep gradAccum dotZ
  norm_num [List.zip_cons_cons, List.foldl, List.zipWith, List.replicate,
    List.sum_cons, List.sum_nil]
  constructor <;> ring

theorem c6_iterB_pos :
    ∀ n : ℕ, ∃ w b : ℝ,
      (trainStep (1 / 2) (1 / 100) [[(1 : ℝ)], [1], [0], [0]] [1, 1, 0, 0])^[n + 1] ([0], 0)
        = ([w], b) ∧ 0 < w := by
  intro n
  induction n with
  | zero =>
    refine ⟨1 / 8, 0, ?_, by norm_num⟩
    rw [Function.iterate_one, c6_stepB]
    norm_num [sigmoid_zero]
  | succ n ih =>
    rcases ih with ⟨w, b, heq, hw⟩
    rw [Function.iterate_succ_apply', heq, c6_stepB]
    refine ⟨_, _, rfl, ?_⟩
    have h1 := sigmoid_lt_one (b + w)
    nlinarith

theorem c6_trainedB_pos :
    ∃ w b : ℝ, trainedOf envB6 c6md c6cd ["last_visit"] ["last_visit"] = ([w], b) ∧ 0 < w := by
  rcases c6_iterB_pos 1999 with ⟨w, b, heq, hw⟩
  refine ⟨w, b, ?_, hw⟩
  unfold trainedOf trainLogisticRegression
  rw [c6_normalizedB, c6_labels]
  have hstart : (List.replicate (((([[(1 : ℝ)], [1], [0], [0]] : List (List ℝ)).head?.map
      List.length).getD 0)) (0 : ℝ), (0 : ℝ)) = (([0], 0) : List ℝ × ℝ) := by
    norm_num [List.replicate]
  rw [hstart]
  exact heq

/-- C6 (counterexample): the pipeline is not invariant under a change of
    the ambient clock alone.  On a `last_visit` column detected as
    `days_since`, with the members carrying a parseable date and the
    contacts a missing value, the run whose clock equals the date's own
    timestamp trains to exactly zero weights, while the run 999 days
    later trains to a strictly positive weight: the two runs on
    identical datasets, column lists and hyperparameters produce
    different weights. -/
theorem clock_changes_model :
    envB6 = { envA6 with now := 86313600000 } ∧
    detectColumnType envA6 "last_visit"
      (colValues (allRecords c6md c6cd) "last_visit") = .days_since ∧
    (trainedOf envA6 c6md c6cd ["last_visit"] ["last_visit"]).1
      ≠ (trainedOf envB6 c6md c6cd ["last_visit"] ["last_visit"]).1 := by
  refine ⟨rfl, c6_detect, ?_⟩
  rw [c6_trainedA]
  rcases c6_trainedB_pos with ⟨w, b, heq, hw⟩
  rw [heq]
  intro hlist
  have h0 : (0 : ℝ) = w := by
    have h1 : ([(0 : ℝ)] : List ℝ) = [w] := hlist
    injection h1 with h2 _
  rw [← h0] at hw
  exact absurd hw (by norm_num)

/- ===================================================================
   C6 (amended): the clock is the only run-varying input, and it flows
   into the pipeline only through days_since columns.
   =================================================================== -/

theorem encodeValue_now (env : JSEnv) (t0 : ℝ) (v : String) :
    ∀ ty : ColumnType, ty ≠ .days_since →
      encodeValue { env with now := t0 } v (some ty) = encodeValue env v (some ty) := by
  intro ty hty
  cases ty <;> first | rfl | exact absurd rfl hty

theorem colBlock_now (env : JSEnv) (t0 : ℝ) (data : List Rec) (col : String) (row : Rec)
    (hty : detectColumnType env col (colValues data col) ≠ .days_since) :
    colBlock { env with now := t0 } data col row = colBlock env data col row := by
  unfold colBlock
  dsimp only
  rw [show detectColumnType { env with now := t0 } col (colValues data col)
      = detectColumnType env col (colValues data col) from rfl]
  by_cases hc : isNumericLikeType (detectColumnType env col (colValues data col)) = true ∨
      detectColumnType env col (colValues data col) = .binary_gender ∨
      detectColumnType env col (colValues data col) = .binary_parental
  · rw [if_pos hc, if_pos hc,
      encodeValue_now env t0 (getField row col) (detectColumnType env col (colValues data col)) hty]
  · rw [if_neg hc, if_neg hc]

theorem prep_featureNames_now (env : JSEnv) (t0 : ℝ) (md cd : List Rec)
    (mc cc : List String) :
    (prepOf { env with now := t0 } md cd mc cc).featureNames
      = (prepOf env md cd mc cc).featureNames := rfl

theorem prep_columnTypes_now (env : JSEnv) (t0 : ℝ) (md cd : List Rec)
    (mc cc : List String) :
    (prepOf { env with now := t0 } md cd mc cc).columnTypes
      = (prepOf env md cd mc cc).columnTypes := rfl

theorem prep_matrix_now (env : JSEnv) (t0 : ℝ) (md cd : List Rec) (mc cc : List String)
    (h : ∀ col ∈ commonCols mc cc,
      detectColumnType env col (colValues (allRecords md cd) col) ≠ .days_since) :
    (prepOf { env with now := t0 } md cd mc cc).matrix = (prepOf env md cd mc cc).matrix := by
  show (allRecords md cd).map _ = (allRecords md cd).map _
  apply List.map_congr_left
  intro row _
  show ((commonCols mc cc).map
      (fun col => colBlock { env with now := t0 } (allRecords md cd) col row)).flatten
    = ((commonCols mc cc).map (fun col => colBlock env (allRecords md cd) col row)).flatten
  congr 1
  apply List.map_congr_left
  intro col hcol
  exact colBlock_now env t0 (allRecords md cd) col row (h col hcol)

theorem normalizedOf_now (env : JSEnv) (t0 : ℝ) (md cd : List Rec) (mc cc : List String)
    (h : ∀ col ∈ commonCols mc cc,
      detectColumnType env col (colValues (allRecords md cd) col) ≠ .days_since) :
    normalizedOf { env with now := t0 } md cd mc cc = normalizedOf env md cd mc cc := by
  unfold normalizedOf
  rw [prep_matrix_now env t0 md cd mc cc h]

theorem trainedOf_now (env : JSEnv) (t0 : ℝ) (md cd : List Rec) (mc cc : List String)
    (h : ∀ col ∈ commonCols mc cc,
      detectColumnType env col (colValues (allRecords md cd) col) ≠ .days_since) :
    trainedOf { env with now := t0 } md cd mc cc = trainedOf env md cd mc cc := by
  unfold trainedOf
  rw [normalizedOf_now env t0 md cd mc cc h]

theorem modelAccuracyOf_now (env : JSEnv) (t0 : ℝ) (md cd : List Rec) (mc cc : List String)
    (h : ∀ col ∈ commonCols mc cc,
      detectColumnType env col (colValues (allRecords md cd) col) ≠ .days_since) :
    modelAccuracyOf { env with now := t0 } md cd mc cc = modelAccuracyOf env md cd mc cc := by
  unfold modelAccuracyOf
  rw [normalizedOf_now env t0 md cd mc cc h, trainedOf_now env t0 md cd mc cc h]

theorem generateExplanation_now (env : JSEnv) (t0 : ℝ) (name : String)
    (colType : ColumnType) (direction : Direction) (corrPct confidence : ℤ)
    (allData : List Rec) :
    generateExplanation { env with now := t0 } name colType direction corrPct confidence
        allData
      = generateExplanation env name colType direction corrPct confidence allData := rfl

theorem rawImportances_now (env : JSEnv) (t0 : ℝ) (md cd : List Rec) (mc cc : List String)
    (h : ∀ col ∈ commonCols mc cc,
      detectColumnType env col (colValues (allRecords md cd) col) ≠ .days_since) :
    rawImportances { env with now := t0 } md cd mc cc = rawImportances env md cd mc cc := by
  unfold rawImportances
  dsimp only
  rw [prep_featureNames_now env t0 md cd mc cc, prep_columnTypes_now env t0 md cd mc cc,
    normalizedOf_now env t0 md cd mc cc h, trainedOf_now env t0 md cd mc cc h]
  simp only [generateExplanation_now]

theorem binaryMutatedMain_now (env : JSEnv) (t0 : ℝ) (t : ColumnType) (col : String)
    (bv : String × String) (E : FeatureImportance)
    (ht : t = ColumnType.binary_gender ∨ t = ColumnType.binary_parental) :
    binaryMutatedMain { env with now := t0 } t col bv E = binaryMutatedMain env t col bv E := by
  rcases ht with h | h <;> subst h <;> rfl

theorem binarySupEntry_now (env : JSEnv) (t0 : ℝ) (t : ColumnType) (col : String)
    (bv : String × String) (E : FeatureImportance)
    (ht : t = ColumnType.binary_gender ∨ t = ColumnType.binary_parental) :
    binarySupEntry { env with now := t0 } t col bv E = binarySupEntry env t col bv E := by
  rcases ht with h | h <;> subst h <;> rfl

theorem applyBinaryPost_now (env : JSEnv) (t0 : ℝ) (data : List Rec) :
    ∀ (cts : List (String × ColumnType)) (entries sups : List FeatureImportance),
      applyBinaryPost { env with now := t0 } data cts entries sups
        = applyBinaryPost env data cts entries sups := by
  intro cts
  induction cts with
  | nil => intro entries sups; rfl
  | cons ct cts ih =>
    intro entries sups
    obtain ⟨c, t⟩ := ct
    rw [applyBinaryPost_cons, applyBinaryPost_cons]
    by_cases hbin : t = ColumnType.binary_gender ∨ t = ColumnType.binary_parental
    · rw [if_pos hbin, if_pos hbin]
      cases hfind : List.find? (fun f => f.field = c) entries with
      | none =>
        cases hbv : getBinaryValues data c with
        | none => exact ih entries sups
        | some bv => exact ih entries sups
      | some mE =>
        cases hbv : getBinaryValues data c with
        | none => exact ih entries sups
        | some bv =>
          show applyBinaryPost { env with now := t0 } data cts
              (mutateFirst c (binaryMutatedMain { env with now := t0 } t c bv mE) entries)
              (sups ++ [binarySupEntry { env with now := t0 } t c bv mE])
            = applyBinaryPost env data cts
              (mutateFirst c (binaryMutatedMain env t c bv mE) entries)
              (sups ++ [binarySupEntry env t c bv mE])
          rw [binaryMutatedMain_now env t0 t c bv mE hbin,
            binarySupEntry_now env t0 t c bv mE hbin, ih _ _]
    · rw [if_neg hbin, if_neg hbin]
      exact ih entries sups

theorem postOf_now (env : JSEnv) (t0 : ℝ) (md cd : List Rec) (mc cc : List String)
    (h : ∀ col ∈ commonCols mc cc,
      detectColumnType env col (colValues (allRecords md cd) col) ≠ .days_since) :
    postOf { env with now := t0 } md cd mc cc = postOf env md cd mc cc := by
  rw [postOf_eq, postOf_eq, prep_columnTypes_now env t0 md cd mc cc,
    rawImportances_now env t0 md cd mc cc h, applyBinaryPost_now]

theorem builtOf_now (env : JSEnv) (t0 : ℝ) (md cd : List Rec) (mc cc : List String)
    (h : ∀ col ∈ commonCols mc cc,
      detectColumnType env col (colValues (allRecords md cd) col) ≠ .days_since) :
    builtOf { env with now := t0 } md cd mc cc = builtOf env md cd mc cc := by
  rw [builtOf_eq, builtOf_eq, postOf_now env t0 md cd mc cc h]

theorem finalImportancesOf_now (env : JSEnv) (t0 : ℝ) (md cd : List Rec)
    (mc cc : List String)
    (h : ∀ col ∈ commonCols mc cc,
      detectColumnType env col (colValues (allRecords md cd) col) ≠ .days_since) :
    finalImportancesOf { env with now := t0 } md cd mc cc
      = finalImportancesOf env md cd mc cc := by
  rw [finalImportancesOf_eq, finalImportancesOf_eq, builtOf_now env t0 md cd mc cc h]

theorem predictionsOf_now (env : JSEnv) (t0 : ℝ) (md cd : List Rec) (mc cc : List String)
    (h : ∀ col ∈ commonCols mc cc,
      detectColumnType env col (colValues (allRecords md cd) col) ≠ .days_since) :
    predictionsOf { env with now := t0 } md cd mc cc = predictionsOf env md cd mc cc := by
  unfold predictionsOf
  dsimp only
  rw [trainedOf_now env t0 md cd mc cc h, normalizedOf_now env t0 md cd mc cc h,
    prep_featureNames_now env t0 md cd mc cc]

theorem analyzeAndPredictOk_now (env : JSEnv) (t0 : ℝ) (md cd : List Rec)
    (mc cc : List String)
    (h : ∀ col ∈ commonCols mc cc,
      detectColumnType env col (colValues (allRecords md cd) col) ≠ .days_since) :
    analyzeAndPredictOk { env with now := t0 } md cd mc cc
      = analyzeAndPredictOk env md cd mc cc := by
  show AnalysisResult.mk _ _ _ _ _ = AnalysisResult.mk _ _ _ _ _
  rw [finalImportancesOf_now env t0 md cd mc cc h, predictionsOf_now env t0 md cd mc cc h,
    modelAccuracyOf_now env t0 md cd mc cc h]

/-- C6 (amended): there is no randomness in the pipeline, but there is a
    clock: `dateToDaysSince` reads `Date.now()`, so two runs on identical
    datasets, column lists and hyperparameters are only guaranteed
    identical when they also read the same ambient clock.  Concretely,
    the clock is the sole run-varying input and it enters only through
    columns detected as `days_since`: a run whose clock is overridden to
    any other instant returns the identical analysis (same weights,
    predictions, importances and accuracy) whenever no shared column is
    detected as `days_since`.  With a `days_since` column present the
    guarantee genuinely fails (counterexample `clock_changes_model`). -/
theorem analyzeAndPredict_now_independent (env : JSEnv) (t0 : ℝ) (md cd : List Rec)
    (mc cc : List String)
    (h : ∀ col ∈ commonCols mc cc,
      detectColumnType env col (colValues (allRecords md cd) col)
        ≠ ColumnType.days_since) :
    analyzeAndPredict { env with now := t0 } md cd mc cc
      = analyzeAndPredict env md cd mc cc := by
  unfold analyzeAndPredict
  by_cases hc : commonCols mc cc = []
  · rw [if_pos hc, if_pos hc]
  · rw [if_neg hc, if_neg hc, analyzeAndPredictOk_now env t0 md cd mc cc h]

/-- Witness for the amended C6 theorem: on the gender dataset (no
    days_since column) the run with the clock moved to 1 returns the
    identical analysis. -/
theorem analyzeAndPredict_now_independent_witness :
    analyzeAndPredict { env0 with now := 1 } degenData degenData ["gender"] ["gender"]
      = analyzeAndPredict env0 degenData degenData ["gender"] ["gender"] :=
  analyzeAndPredict_now_independent env0 1 degenData degenData ["gender"] ["gender"]
    (by decide)

end MLMembers
